import Mathlib

/-!
# elk_logger: a shallow embedding of the log-shipping pipeline

The Go package `elk_logger` (the files under `pkg/`) is embedded as pure Lean
definitions, one per function of the source, under the name it has there.

* Methods with a pointer receiver become state-passing functions: they take the
  state of the receiver and return the result together with the new state.
* Every method of `Batch` runs under `b.mu`, and every `Metrics` operation is a
  single atomic instruction, so a concurrent execution is a sequence of these
  operations in the order in which they take the lock (or hit the memory): an
  interleaving is a list of operations.
* `time.Now()` is an input of the operation that reads the clock; the worker iteration
  is also given with the clock as state (`Client.worker.clocked`), where the time that
  passes between two readings is that of the statements run between them.
* `int64` arithmetic wraps (`wrapInt64`); a Go panic is the result `none`.
* A `*LogEntry` is an address in a heap of `LogEntry` cells, and a non-nil `Fields` is
  an address in a heap of map objects, so that sharing and copying can be told apart.
* Functions of the Go library whose internals are not modelled (`Time.Format`,
  `json.Marshal`) are parameters.

Definitions come first, theorems afterwards.
-/

namespace ElkLogger

/-! ## Time -/

/-- A `time.Duration`: a signed count of nanoseconds (an `int64` in Go). -/
abbrev Duration := Int

/-- The constant `time.Millisecond`. -/
def Millisecond : Duration := 1000000

/-- The smallest `time.Duration`, `-1 << 63`. -/
def minDuration : Duration := -(2 ^ 63)

/-- The largest `time.Duration`, `1<<63 - 1`. -/
def maxDuration : Duration := 2 ^ 63 - 1

/-- A `time.Time`: an instant, in nanoseconds since the Unix epoch, and the offset
(seconds east of UTC) of the location it is rendered in. -/
structure Time where
  unixNano : Int
  zoneOffset : Int
  deriving DecidableEq, Repr

/-- The method `Time.Sub` of the Go library: the difference of two instants, saturated
to the range of `time.Duration`. -/
def Time.Sub (t u : Time) : Duration :=
  let d := t.unixNano - u.unixNano
  if d < minDuration then minDuration
  else if maxDuration < d then maxDuration
  else d

/-- The call `time.Since(t)`, which is `time.Now().Sub(t)`, with the clock reading `now`. -/
def Since (now t : Time) : Duration := now.Sub t

/-! ## Pointers -/

/-- A `*LogEntry`: the address of a `LogEntry` cell of the heap. -/
abbrev EntryPtr := Nat

/-! ## Batch (`pkg/batch.go`) -/

/-- The struct `Batch` without its mutex: the operations below are the critical
sections. -/
structure Batch where
  entries : List EntryPtr
  maxSize : Int
  timeout : Duration
  lastFlush : Time
  deriving DecidableEq, Repr

/-- The expression `make([]*LogEntry, 0, maxSize)`: an empty slice, and a run-time
panic (`none`) when the capacity is negative. Limits of the allocator on huge
capacities are outside this model. -/
def makeEntries (maxSize : Int) : Option (List EntryPtr) :=
  if maxSize < 0 then none else some []

/-- `NewBatch(maxSize, timeout)`, called when the clock reads `now`. -/
def NewBatch (maxSize : Int) (timeout : Duration) (now : Time) : Option Batch :=
  match makeEntries maxSize with
  | none => none
  | some entries =>
      some { entries := entries, maxSize := maxSize, timeout := timeout, lastFlush := now }

/-- `Batch.Add`: append, then report whether the size reached `maxSize`. -/
def Batch.Add (b : Batch) (entry : EntryPtr) : Bool × Batch :=
  let b1 := { b with entries := b.entries ++ [entry] }
  (decide (b1.maxSize ≤ (b1.entries.length : Int)), b1)

/-- `Batch.ShouldFlush`, called when the clock reads `now`; the receiver is returned
as the method leaves it. -/
def Batch.ShouldFlush (b : Batch) (now : Time) : Bool × Batch :=
  if b.entries.length = 0 then (false, b)
  else (decide (b.timeout ≤ Since now b.lastFlush), b)

/-- `Batch.Flush`, called when the clock reads `now`. The `nil` slice returned for an
empty batch is the empty list. -/
def Batch.Flush (b : Batch) (now : Time) : Option (List EntryPtr × Batch) :=
  if b.entries.length = 0 then some ([], b)
  else
    let entries := b.entries
    match makeEntries b.maxSize with
    | none => none
    | some fresh => some (entries, { b with entries := fresh, lastFlush := now })

/-- `Batch.Size`. -/
def Batch.Size (b : Batch) : Int × Batch :=
  ((b.entries.length : Int), b)

/-- `Batch.Clear`, called when the clock reads `now`. -/
def Batch.Clear (b : Batch) (now : Time) : Option Batch :=
  match makeEntries b.maxSize with
  | none => none
  | some fresh => some { b with entries := fresh, lastFlush := now }

/-- One lock-serialised operation of a producer or consumer of the batch. -/
inductive BatchOp where
  | add (entry : EntryPtr)
  | flush (now : Time)
  deriving DecidableEq, Repr

/-- The entries added by a sequence of operations, in `Add` order. -/
def BatchOp.added : List BatchOp → List EntryPtr
  | [] => []
  | .add e :: ops => e :: BatchOp.added ops
  | .flush _ :: ops => BatchOp.added ops

/-- Runs the operations in order from the state `b`; the result lists what each
`Flush` returned, in call order, and the final state. -/
def Batch.run (b : Batch) : List BatchOp → Option (List (List EntryPtr) × Batch)
  | [] => some ([], b)
  | .add e :: ops => Batch.run (b.Add e).2 ops
  | .flush now :: ops =>
      match b.Flush now with
      | none => none
      | some (out, b1) =>
          match Batch.run b1 ops with
          | none => none
          | some (outs, b2) => some (out :: outs, b2)

/-- The return values of successive `Add` calls, one per entry of the list. -/
def Batch.addAll (b : Batch) : List EntryPtr → List Bool
  | [] => []
  | e :: es => (b.Add e).1 :: Batch.addAll (b.Add e).2 es

/-! ## Metrics (`pkg/metrics.go`) -/

/-- The value of an `int64` computation whose exact result is `x`: two's complement
wrap-around into `[-2^63, 2^63)`. -/
def wrapInt64 (x : Int) : Int := (x + 2 ^ 63) % 2 ^ 64 - 2 ^ 63

/-- The new value stored by `atomic.AddInt64(addr, delta)` when `*addr` holds `x`. -/
def atomicAddInt64 (x delta : Int) : Int := wrapInt64 (x + delta)

/-- The `int64` quotient `x / y` of Go: truncated toward zero, wrapping, and a run-time
panic (`none`) when the divisor is zero. -/
def int64Div (x y : Int) : Option Int :=
  if y = 0 then none else some (wrapInt64 (Int.tdiv x y))

/-- The struct `Metrics`. -/
structure Metrics where
  TotalLogs : Int
  SuccessLogs : Int
  FailedLogs : Int
  DroppedLogs : Int
  totalLatency : Int
  latencyCount : Int
  deriving DecidableEq, Repr

/-- The struct `MetricsSnapshot`. -/
structure MetricsSnapshot where
  TotalLogs : Int
  SuccessLogs : Int
  FailedLogs : Int
  DroppedLogs : Int
  AvgLatency : Int
  deriving DecidableEq, Repr

/-- `NewMetrics()`: the zero value `&Metrics{}`. -/
def NewMetrics : Metrics :=
  { TotalLogs := 0, SuccessLogs := 0, FailedLogs := 0, DroppedLogs := 0,
    totalLatency := 0, latencyCount := 0 }

/-- `Metrics.IncTotal`. -/
def Metrics.IncTotal (m : Metrics) : Metrics :=
  { m with TotalLogs := atomicAddInt64 m.TotalLogs 1 }

/-- `Metrics.IncSuccess`. -/
def Metrics.IncSuccess (m : Metrics) : Metrics :=
  { m with SuccessLogs := atomicAddInt64 m.SuccessLogs 1 }

/-- `Metrics.IncFailed`. -/
def Metrics.IncFailed (m : Metrics) : Metrics :=
  { m with FailedLogs := atomicAddInt64 m.FailedLogs 1 }

/-- `Metrics.IncDropped`. -/
def Metrics.IncDropped (m : Metrics) : Metrics :=
  { m with DroppedLogs := atomicAddInt64 m.DroppedLogs 1 }

/-- The first atomic instruction of `RecordLatency`: add to the latency sum. -/
def Metrics.addTotalLatency (m : Metrics) (latency : Duration) : Metrics :=
  { m with totalLatency := atomicAddInt64 m.totalLatency latency }

/-- The second atomic instruction of `RecordLatency`: count the recording. -/
def Metrics.incLatencyCount (m : Metrics) : Metrics :=
  { m with latencyCount := atomicAddInt64 m.latencyCount 1 }

/-- `Metrics.RecordLatency`: its two atomic additions, in program order. -/
def Metrics.RecordLatency (m : Metrics) (latency : Duration) : Metrics :=
  (m.addTotalLatency latency).incLatencyCount

/-- `Metrics.GetAvgLatency`; `none` is the panic of an integer division by zero. -/
def Metrics.GetAvgLatency (m : Metrics) : Option Int :=
  let count := m.latencyCount
  if count = 0 then some 0
  else
    let total := m.totalLatency
    match int64Div total count with
    | none => none
    | some mean => int64Div mean Millisecond

/-- `Metrics.Snapshot`; the receiver is returned as the method leaves it. -/
def Metrics.Snapshot (m : Metrics) : Option (MetricsSnapshot × Metrics) :=
  match m.GetAvgLatency with
  | none => none
  | some avg =>
      some ({ TotalLogs := m.TotalLogs, SuccessLogs := m.SuccessLogs,
              FailedLogs := m.FailedLogs, DroppedLogs := m.DroppedLogs,
              AvgLatency := avg }, m)

/-- `Metrics.Reset`. -/
def Metrics.Reset (m : Metrics) : Metrics :=
  let m1 := { m with TotalLogs := 0 }
  let m2 := { m1 with SuccessLogs := 0 }
  let m3 := { m2 with FailedLogs := 0 }
  let m4 := { m3 with DroppedLogs := 0 }
  let m5 := { m4 with totalLatency := 0 }
  { m5 with latencyCount := 0 }

/-- The four counters of `Metrics`. -/
inductive Counter where
  | total
  | success
  | failed
  | dropped
  deriving DecidableEq, Repr

/-- The field of a snapshot that reports the counter. -/
def MetricsSnapshot.get (s : MetricsSnapshot) : Counter → Int
  | .total => s.TotalLogs
  | .success => s.SuccessLogs
  | .failed => s.FailedLogs
  | .dropped => s.DroppedLogs

/-- The field of the state that holds the counter. -/
def Metrics.counter (m : Metrics) : Counter → Int
  | .total => m.TotalLogs
  | .success => m.SuccessLogs
  | .failed => m.FailedLogs
  | .dropped => m.DroppedLogs

/-- One atomic instruction on a `Metrics`: the body of `IncTotal`, `IncSuccess`,
`IncFailed` or `IncDropped`, or one of the two additions of `RecordLatency`. -/
inductive MetricsOp where
  | inc (c : Counter)
  | addTotalLatency (latency : Duration)
  | incLatencyCount
  deriving DecidableEq, Repr

/-- The effect of one atomic instruction. -/
def Metrics.step (m : Metrics) : MetricsOp → Metrics
  | .inc .total => m.IncTotal
  | .inc .success => m.IncSuccess
  | .inc .failed => m.IncFailed
  | .inc .dropped => m.IncDropped
  | .addTotalLatency latency => m.addTotalLatency latency
  | .incLatencyCount => m.incLatencyCount

/-- The effect of a sequence of atomic instructions: one interleaving of the calls of
any number of goroutines. -/
def Metrics.exec (m : Metrics) (ops : List MetricsOp) : Metrics :=
  ops.foldl Metrics.step m

/-- A sequence of `RecordLatency` calls, one per duration of the list, run one after
the other. -/
def Metrics.recordAll (m : Metrics) (latencies : List Duration) : Metrics :=
  latencies.foldl Metrics.RecordLatency m

/-! ## Config (`pkg/config.go`) -/

/-- The constant `time.Second`. -/
def Second : Duration := 1000000000

/-- The struct `Config`. -/
structure Config where
  ESAddresses : List String
  ESUsername : String
  ESPassword : String
  IndexPattern : String
  BatchSize : Int
  BatchTimeout : Duration
  FlushInterval : Duration
  QueueSize : Int
  WorkerCount : Int
  RetryCount : Int
  RetryInterval : Duration
  ServiceName : String
  Environment : String
  EnableHostInfo : Bool
  EnableCompression : Bool
  MaxRetryBackoff : Duration
  DiscardOnFull : Bool
  deriving DecidableEq, Repr

/-- The error type `ErrInvalidConfig`. -/
structure ErrInvalidConfig where
  msg : String
  deriving DecidableEq, Repr

/-- `ErrInvalidConfig.Error`. -/
def ErrInvalidConfig.Error (e : ErrInvalidConfig) : String :=
  "invalid config: " ++ e.msg

/-- `DefaultConfig()`. -/
def DefaultConfig : Config :=
  { ESAddresses := ["http://localhost:9200"],
    ESUsername := "",
    ESPassword := "",
    IndexPattern := "logs-{date}",
    BatchSize := 100,
    BatchTimeout := 5 * Second,
    FlushInterval := 10 * Second,
    QueueSize := 10000,
    WorkerCount := 4,
    RetryCount := 3,
    RetryInterval := 1 * Second,
    MaxRetryBackoff := 30 * Second,
    ServiceName := "unknown-service",
    Environment := "development",
    EnableHostInfo := true,
    EnableCompression := true,
    DiscardOnFull := false }

/-- `Config.Validate`: the error, or `none` for `nil`; the receiver is returned as the
method leaves it. -/
def Config.Validate (c : Config) : Option ErrInvalidConfig × Config :=
  if c.ESAddresses.length = 0 then
    (some { msg := "es_addresses cannot be empty" }, c)
  else if c.BatchSize ≤ 0 then
    (some { msg := "batch_size must be greater than 0" }, c)
  else if c.QueueSize ≤ 0 then
    (some { msg := "queue_size must be greater than 0" }, c)
  else if c.WorkerCount ≤ 0 then
    (some { msg := "worker_count must be greater than 0" }, c)
  else (none, c)

/-- The configuration of `TestConfigCustomization`: the default one with only the
addresses, service name, environment, batch size and batch timeout assigned. -/
def customized (addresses : List String) (serviceName environment : String)
    (batchSize : Int) (batchTimeout : Duration) : Config :=
  { DefaultConfig with
    ESAddresses := addresses, ServiceName := serviceName, Environment := environment,
    BatchSize := batchSize, BatchTimeout := batchTimeout }

/-! ## LogEntry (`pkg/log_entry.go`) -/

/-- The type `LogLevel`, a string type. -/
abbrev LogLevel := String

/-- The constant `LevelDebug`. -/
def LevelDebug : LogLevel := "debug"

/-- The constant `LevelInfo`. -/
def LevelInfo : LogLevel := "info"

/-- The constant `LevelWarn`. -/
def LevelWarn : LogLevel := "warn"

/-- The constant `LevelError`. -/
def LevelError : LogLevel := "error"

/-- The constant `LevelFatal`. -/
def LevelFatal : LogLevel := "fatal"

/-- A dynamically typed value, an `interface{}` of Go, as a tagged variant. Nested
lists and maps are held by value; `func` stands for the values `json.Marshal` rejects. -/
inductive Value where
  | null
  | bool (b : Bool)
  | int (n : Int)
  | str (s : String)
  | time (t : Time)
  | list (xs : List Value)
  | map (kvs : List (String × Value))
  | func

/-- The contents of a Go `map[string]interface{}`: keys are unique. The order of the
entries is the order in which a `range` loop visits them; Go fixes none, and every order
is the entry list of some `FieldMap` with the same contents. -/
abbrev FieldMap := AList (fun _ : String => Value)

/-- A non-nil value of type `Fields`: the address of a map object of the heap. -/
abbrev MapRef := Nat

/-- The struct `LogEntry`. The field `Fields` holds a map value of Go: `nil` (`none`) or
a reference to a map object. -/
structure LogEntry where
  Timestamp : Time
  Level : LogLevel
  Message : String
  Logger : String
  Caller : String
  Stack : String
  Fields : Option MapRef
  ServiceName : String
  Environment : String
  HostName : String
  IP : String
  deriving DecidableEq, Repr

/-- The heap: the `LogEntry` cells that `*LogEntry` pointers address and the map objects
that `Fields` values reference. An address that is not allocated plays the nil pointer. -/
structure Heap where
  entries : List LogEntry
  maps : List FieldMap

/-- Allocation of a `LogEntry` cell: the new pointer and the new heap. -/
def Heap.allocEntry (h : Heap) (e : LogEntry) : EntryPtr × Heap :=
  (h.entries.length, { h with entries := h.entries ++ [e] })

/-- Allocation of a map object, as `make(Fields, n)` does with the empty contents. -/
def Heap.allocMap (h : Heap) (m : FieldMap) : MapRef × Heap :=
  (h.maps.length, { h with maps := h.maps ++ [m] })

/-- The contents read through a map value: a nil map reads as the empty map. -/
def Heap.readFields (h : Heap) : Option MapRef → Option FieldMap
  | none => some ∅
  | some r => h.maps[r]?

/-- The statement `m[k] = v` on a map value `m`: a panic on the nil map. -/
def Heap.mapAssign (h : Heap) (m : Option MapRef) (k : String) (v : Value) : Option Heap :=
  match m with
  | none => none
  | some r =>
      match h.maps[r]? with
      | none => none
      | some contents => some { h with maps := h.maps.set r (contents.insert k v) }

/-- The statement `delete(m, k)` on a map value `m`: no effect on the nil map. -/
def Heap.mapDelete (h : Heap) (m : Option MapRef) (k : String) : Option Heap :=
  match m with
  | none => some h
  | some r =>
      match h.maps[r]? with
      | none => none
      | some contents => some { h with maps := h.maps.set r (contents.erase k) }

/-- What a pointer gives access to: the struct it addresses together with the contents
of the map its `Fields` references (`none` for the nil map). -/
def Heap.view (h : Heap) (l : EntryPtr) : Option (LogEntry × Option FieldMap) :=
  match h.entries[l]? with
  | none => none
  | some e =>
      match e.Fields with
      | none => some (e, none)
      | some r =>
          match h.maps[r]? with
          | none => none
          | some contents => some (e, some contents)

/-- `NewLogEntry(level, message, fields)`, called when the clock reads `now`. -/
def NewLogEntry (h : Heap) (level : LogLevel) (message : String) (fields : Option MapRef)
    (now : Time) : EntryPtr × Heap :=
  h.allocEntry
    { Timestamp := now, Level := level, Message := message, Logger := "", Caller := "",
      Stack := "", Fields := fields, ServiceName := "", Environment := "", HostName := "",
      IP := "" }

/-- The layout constant `time.RFC3339Nano`. -/
def RFC3339Nano : String := "2006-01-02T15:04:05.999999999Z07:00"

/-- The map `data` that `LogEntry.ToJSON` builds and passes to `json.Marshal`. The
method `Time.Format` of the Go library is the parameter `format`; a nil receiver panics
(`none`). -/
def LogEntry.ToJSON.data (format : Time → String → String) (h : Heap) (l : EntryPtr) :
    Option FieldMap :=
  match h.entries[l]? with
  | none => none
  | some e =>
      let data : FieldMap := ∅
      let data := data.insert "@timestamp" (Value.str (format e.Timestamp RFC3339Nano))
      let data := data.insert "level" (Value.str e.Level)
      let data := data.insert "message" (Value.str e.Message)
      let data := if e.Logger ≠ "" then data.insert "logger" (Value.str e.Logger) else data
      let data := if e.Caller ≠ "" then data.insert "caller" (Value.str e.Caller) else data
      let data := if e.Stack ≠ "" then data.insert "stack" (Value.str e.Stack) else data
      let data :=
        if e.ServiceName ≠ "" then data.insert "service.name" (Value.str e.ServiceName)
        else data
      let data :=
        if e.Environment ≠ "" then data.insert "environment" (Value.str e.Environment)
        else data
      let data :=
        if e.HostName ≠ "" then data.insert "host.name" (Value.str e.HostName) else data
      let data := if e.IP ≠ "" then data.insert "host.ip" (Value.str e.IP) else data
      match h.readFields e.Fields with
      | none => none
      | some fields => some (fields.entries.foldl (fun d kv => d.insert kv.1 kv.2) data)

/-- `LogEntry.ToJSON`: the document, or the error, that `json.Marshal` (the parameter
`marshal`) returns for the map `data`. -/
def LogEntry.ToJSON (format : Time → String → String)
    (marshal : FieldMap → Except String String) (h : Heap) (l : EntryPtr) :
    Option (Except String String) :=
  match LogEntry.ToJSON.data format h l with
  | none => none
  | some data => some (marshal data)

/-- `LogEntry.Clone`: the pointer to the copy, and the heap with the copy allocated. -/
def LogEntry.Clone (h : Heap) (l : EntryPtr) : Option (EntryPtr × Heap) :=
  match h.entries[l]? with
  | none => none
  | some e =>
      let clone := e
      match e.Fields with
      | none => some (h.allocEntry clone)
      | some r =>
          match h.maps[r]? with
          | none => none
          | some fields =>
              let (r1, h1) := h.allocMap ∅
              let clone := { clone with Fields := some r1 }
              match fields.entries.foldlM (fun hh kv => hh.mapAssign clone.Fields kv.1 kv.2) h1 with
              | none => none
              | some h2 => some (h2.allocEntry clone)

/-- A statement that mutates an entry through a pointer `p`. -/
inductive Mutation where
  /-- The statement `p.Message = s`. -/
  | setMessage (s : String)
  /-- The statement `p.ServiceName = s`. -/
  | setServiceName (s : String)
  /-- The statement `p.Fields[k] = v`: inserts the key or overwrites its value. -/
  | setField (k : String) (v : Value)
  /-- The statement `delete(p.Fields, k)`. -/
  | deleteField (k : String)

/-- The effect of a mutating statement through the pointer `p`. -/
def Heap.mutate (h : Heap) (p : EntryPtr) : Mutation → Option Heap
  | .setMessage s =>
      match h.entries[p]? with
      | none => none
      | some e => some { h with entries := h.entries.set p { e with Message := s } }
  | .setServiceName s =>
      match h.entries[p]? with
      | none => none
      | some e => some { h with entries := h.entries.set p { e with ServiceName := s } }
  | .setField k v =>
      match h.entries[p]? with
      | none => none
      | some e => h.mapAssign e.Fields k v
  | .deleteField k =>
      match h.entries[p]? with
      | none => none
      | some e => h.mapDelete e.Fields k

/-- The effect of a sequence of mutating statements through the pointer `p`. -/
def Heap.mutateAll (h : Heap) (p : EntryPtr) (stmts : List Mutation) : Option Heap :=
  stmts.foldlM (fun hh stmt => hh.mutate p stmt) h

/-! ## Sample values -/

/-- A stand-in for `Time.Format`. -/
def sampleFormat : Time → String → String :=
  fun _ _ => "1970-01-01T00:00:00Z"

/-- A stand-in for `json.Marshal`. -/
def sampleMarshal : FieldMap → Except String String :=
  fun _ => Except.ok "document"

/-- The text the stand-in encoder below gives a value: a string in double quotes, an
integer in decimal, a map of strings as an object, anything else as `null`. -/
def sampleRender : Value → String
  | Value.str s => "\"" ++ s ++ "\""
  | Value.int n => toString n
  | Value.map kvs =>
      "\x7b" ++ ",".intercalate (kvs.map fun kv =>
        "\"" ++ kv.1 ++ "\":" ++
          match kv.2 with
          | Value.str s => "\"" ++ s ++ "\""
          | _ => "null") ++ "\x7d"
  | _ => "null"

/-- A stand-in for `json.Marshal` whose output shows the object it is given: an object
with the keys in the order of the entries, and the error of `json.Marshal` for a map that
holds a function. -/
def sampleEncode : FieldMap → Except String String :=
  fun d =>
    match d.entries.any (fun kv => match kv.2 with | Value.func => true | _ => false) with
    | true => Except.error "json: unsupported type: func()"
    | false =>
        Except.ok ("\x7b" ++ ",".intercalate (d.entries.map fun kv =>
          "\"" ++ kv.1 ++ "\":" ++ sampleRender kv.2) ++ "\x7d")

/-- A field map with a custom key and a key that collides with a fixed key. -/
def sampleFields : FieldMap :=
  ((∅ : FieldMap).insert "user_id" (Value.int 123)).insert "level" (Value.str "custom")

/-- An entry as `TestLogEntryToJSON` builds it, with the field map at address 0. -/
def sampleEntry : LogEntry :=
  { Timestamp := { unixNano := 0, zoneOffset := 0 }, Level := LevelInfo,
    Message := "test message", Logger := "test-logger", Caller := "", Stack := "",
    Fields := some 0, ServiceName := "test-service", Environment := "test", HostName := "",
    IP := "" }

/-- An entry as `TestLogEntryWithNilFields` builds it. -/
def plainEntry : LogEntry :=
  { Timestamp := { unixNano := 0, zoneOffset := 0 }, Level := LevelInfo, Message := "test",
    Logger := "", Caller := "", Stack := "", Fields := none, ServiceName := "",
    Environment := "", HostName := "", IP := "" }

/-- A heap with `sampleEntry` at address 0 and `plainEntry` at address 1. -/
def sampleHeap : Heap :=
  { entries := [sampleEntry, plainEntry], maps := [sampleFields] }

/-- What the statements through `q` preserve: the cell at `l`, the map that cell
references, and the `Fields` value `cf` of the cell at `q`, which is nil or another map. -/
def Heap.Separated (hh : Heap) (l q : EntryPtr) (e : LogEntry) (fm : Option FieldMap)
    (cf : Option MapRef) : Prop :=
  hh.entries[l]? = some e ∧ hh.readFields e.Fields = some (fm.getD ∅) ∧
    (e.Fields = none ↔ fm = none) ∧
    (∃ c, hh.entries[q]? = some c ∧ c.Fields = cf) ∧
    (∀ r, cf = some r → e.Fields ≠ some r)

/-! ## Sender (`pkg/sender.go`) -/

/-- Whether the characters `p` are the first characters of `s`: `strings.HasPrefix`. -/
def startsWith : List Char → List Char → Bool
  | [], _ => true
  | _ :: _, [] => false
  | a :: p, b :: s => a == b && startsWith p s

/-- The scan of `strings.ReplaceAll` for a non-empty `old`, from left to right: a match of
`old` is replaced by `new` and the scan goes on behind it. `skip` counts the characters of
the last match that are still to be passed over. -/
def replaceAllAux (old new : List Char) : Nat → List Char → List Char
  | _, [] => []
  | skip + 1, _ :: cs => replaceAllAux old new skip cs
  | 0, c :: cs =>
      if startsWith old (c :: cs) then new ++ replaceAllAux old new (old.length - 1) cs
      else c :: replaceAllAux old new 0 cs

/-- The function `strings.ReplaceAll(s, old, new)` of the Go library, on the characters of
the strings: all non-overlapping matches of `old` are replaced by `new`; an empty `old`
matches before every character and at the end. -/
def ReplaceAll (s old new : String) : String :=
  if old.data = [] then String.mk (new.data ++ s.data.flatMap (fun c => c :: new.data))
  else String.mk (replaceAllAux old.data new.data 0 s.data)

/-- The struct `Sender`; its Elasticsearch client is the `Wire` the operations take. -/
structure Sender where
  indexPattern : String
  config : Config
  deriving DecidableEq, Repr

/-- `Sender.getIndexName`; the method `Time.Format` of the Go library is the parameter
`format`. -/
def Sender.getIndexName (format : Time → String → String) (s : Sender) (timestamp : Time) :
    String :=
  let indexName := s.indexPattern
  let indexName := ReplaceAll indexName "{date}" (format timestamp "2006.01.02")
  let indexName := ReplaceAll indexName "{year}" (format timestamp "2006")
  let indexName := ReplaceAll indexName "{month}" (format timestamp "01")
  let indexName := ReplaceAll indexName "{day}" (format timestamp "02")
  indexName

/-- The scan behind `substitute`: at each position the first token of `subs` that starts
there is replaced by its text and passed over; a character where no token starts is
copied. -/
def substituteAux (subs : List (List Char × List Char)) : Nat → List Char → List Char
  | _, [] => []
  | skip + 1, _ :: cs => substituteAux subs skip cs
  | 0, c :: cs =>
      match subs.find? (fun p => startsWith p.1 (c :: cs)) with
      | some (tok, rep) => rep ++ substituteAux subs (tok.length - 1) cs
      | none => c :: substituteAux subs 0 cs

/-- The template with every occurrence of a token replaced by the text that goes with the
token, in a single pass, all other characters unchanged. -/
def substitute (template : String) (subs : List (String × String)) : String :=
  String.mk (substituteAux (subs.map (fun p => (p.1.data, p.2.data))) 0 template.data)

/-- What the Go library documents of `Time.Format` for the layouts of `getIndexName`, at
a time whose year has four digits: `2006` is rendered as the four digits `y` of the year,
`01` as the two digits `m` of the month, `02` as the two digits `d` of the day, and
`2006.01.02` as the three joined by dots. -/
def RendersDate (format : Time → String → String) (t : Time) (y m d : String) : Prop :=
  format t "2006" = y ∧ format t "01" = m ∧ format t "02" = d ∧
    format t "2006.01.02" = y ++ "." ++ m ++ "." ++ d ∧
    (y.data.length = 4 ∧ ∀ c ∈ y.data, c.isDigit = true) ∧
    (m.data.length = 2 ∧ ∀ c ∈ m.data, c.isDigit = true) ∧
    (d.data.length = 2 ∧ ∀ c ∈ d.data, c.isDigit = true)

/-- A stand-in for `Time.Format` that renders every time as 15 January 2024. -/
def sampleDateFormat : Time → String → String :=
  fun _ layout =>
    if layout = "2006.01.02" then "2024.01.15"
    else if layout = "2006" then "2024"
    else if layout = "01" then "01"
    else if layout = "02" then "15"
    else "2024-01-15T00:00:00Z"

/-- A stand-in for `Time.Format` that tells the first day of 1970 from the later days,
which it renders as 2 January 1970. -/
def sampleDayFormat : Time → String → String :=
  fun t layout =>
    if layout = "2006.01.02" then
      (if t.unixNano < 86400 * Second then "1970.01.01" else "1970.01.02")
    else if layout = "2006" then "1970"
    else if layout = "01" then "01"
    else if layout = "02" then (if t.unixNano < 86400 * Second then "01" else "02")
    else if t.unixNano < 86400 * Second then "1970-01-01T00:00:00Z"
    else "1970-01-02T00:00:00Z"

/-- A heap with `sampleEntry`, logged on the first day of 1970, at address 0 and an entry
logged a day later at address 1. -/
def sampleDatedHeap : Heap :=
  { entries := [sampleEntry,
      { plainEntry with Timestamp := { unixNano := 86400 * Second, zoneOffset := 0 } }],
    maps := [sampleFields] }

/-- The characters of a rendered date: decimal digits and the dot. -/
def isDateChar (c : Char) : Bool := c.isDigit || c == '.'

/-- The characters that follow the `{` of a token of `getIndexName`: neither `{` nor a
character of a rendered date. -/
def isTokenChar (c : Char) : Bool := c != '{' && !isDateChar c

/-- The four tokens of an index template with the texts that replace them, for the digits
`y` of the year, `m` of the month and `d` of the day. -/
def indexTokens (y m d : String) : List (String × String) :=
  [("{date}", y ++ "." ++ m ++ "." ++ d), ("{year}", y), ("{month}", m), ("{day}", d)]

/-- An `error` value of Go: the text `Error()` returns, and the texts of the errors it
wraps, the nearest first (what repeated `errors.Unwrap` finds). -/
structure GoError where
  msg : String
  wraps : List String
  deriving DecidableEq, Repr

/-- The error `fmt.Errorf(text)` of a format without verbs. -/
def GoError.new (text : String) : GoError :=
  { msg := text, wraps := [] }

/-- The error `fmt.Errorf(text + "%w", cause)`: its text ends with the text of the cause,
and it wraps the cause. A nil cause is rendered as `%!w(<nil>)` and nothing is wrapped. -/
def GoError.wrap (text : String) : Option GoError → GoError
  | some cause => { msg := text ++ cause.msg, wraps := cause.msg :: cause.wraps }
  | none => { msg := text ++ "%!w(<nil>)", wraps := [] }

/-- A `context.Context` as `SendWithRetry` meets it: `done i` is the error `ctx.Err()`
when the `select` before retry attempt `i` takes the case `<-ctx.Done()`, and `none`
when it takes the timer. -/
structure Context where
  done : Nat → Option GoError

/-- The struct `BulkResponseItem`. -/
structure BulkResponseItem where
  Index : String
  ID : String
  Status : Int
  Error : Option (String × String)
  deriving DecidableEq, Repr

/-- The struct `BulkResponse`. -/
structure BulkResponse where
  Errors : Bool
  Items : List (List (String × BulkResponseItem))
  deriving DecidableEq, Repr

/-- What a call of `s.client.Bulk` comes to: an error, or a response with the value of
`res.IsError()`, the text of `res.Status()` and what decoding the body as a
`BulkResponse` gives. -/
inductive BulkOutcome where
  | failure (err : GoError)
  | response (isError : Bool) (status : String) (decoded : Except GoError BulkResponse)

/-- The Elasticsearch client of a `Sender` and the cluster behind it: `respond ctx k body`
is the outcome of the `k`-th bulk request (counted from 0) when its body is `body`, and
`requests` holds the bodies of the requests issued so far, in order. -/
structure Wire where
  respond : Context → Nat → String → BulkOutcome
  requests : List String

/-- The value `meta` of `Send`: the action object that names the target index. -/
def Sender.actionObject (indexName : String) : FieldMap :=
  (∅ : FieldMap).insert "index" (Value.map [("_index", Value.str indexName)])

/-- The bytes `metaJSON` of `Send` for an entry with the given timestamp: the encoding of
the action object; an encoding error is dropped, as in `metaJSON, _ := json.Marshal(meta)`,
and leaves no bytes. -/
def Sender.actionLine (format : Time → String → String)
    (marshal : FieldMap → Except String String) (s : Sender) (timestamp : Time) : String :=
  match marshal (Sender.actionObject (s.getIndexName format timestamp)) with
  | Except.ok bytes => bytes
  | Except.error _ => ""

/-- The text made of the given lines, each followed by a newline. -/
def joinLines : List String → String
  | [] => ""
  | line :: lines => line ++ "\n" ++ joinLines lines

/-- The loop of `Send` that fills `buf`: for each entry the action line, then the
document line, each followed by a newline. The
result is the buffer, or the error `Send` returns from inside the loop; `none` is the
panic of a nil entry. -/
def Sender.Send.build (format : Time → String → String)
    (marshal : FieldMap → Except String String) (s : Sender) (h : Heap) :
    String → List EntryPtr → Option (Except GoError String)
  | buf, [] => some (Except.ok buf)
  | buf, entry :: rest =>
      match h.entries[entry]? with
      | none => none
      | some e =>
          let metaJSON := s.actionLine format marshal e.Timestamp
          let buf := buf ++ metaJSON
          let buf := buf ++ "\n"
          match LogEntry.ToJSON format marshal h entry with
          | none => none
          | some (Except.error err) =>
              some (Except.error
                (GoError.wrap "failed to marshal log entry: " (some (GoError.new err))))
          | some (Except.ok docJSON) =>
              let buf := buf ++ docJSON
              let buf := buf ++ "\n"
              Sender.Send.build format marshal s h buf rest

/-- `Sender.Send`: the error it returns (`none` for `nil`) and the wire after the call. -/
def Sender.Send (format : Time → String → String)
    (marshal : FieldMap → Except String String) (s : Sender) (h : Heap) (ctx : Context)
    (w : Wire) (entries : List EntryPtr) : Option (Option GoError × Wire) :=
  if entries.length = 0 then some (none, w)
  else
    match Sender.Send.build format marshal s h "" entries with
    | none => none
    | some (Except.error err) => some (some err, w)
    | some (Except.ok body) =>
        let w1 : Wire := { w with requests := w.requests ++ [body] }
        match w.respond ctx w.requests.length body with
        | BulkOutcome.failure err =>
            some (some (GoError.wrap "failed to send bulk request: " (some err)), w1)
        | BulkOutcome.response isError status decoded =>
            if isError then
              some (some (GoError.new ("bulk request returned error: " ++ status)), w1)
            else
              match decoded with
              | Except.error err =>
                  some (some (GoError.wrap "failed to parse bulk response: " (some err)), w1)
              | Except.ok bulkRes =>
                  if bulkRes.Errors then
                    some (some (GoError.new "bulk request has errors"), w1)
                  else some (none, w1)

/-- A wire whose first `failures` bulk requests fail in transport and whose later ones
are answered with success and no error flag. -/
def sampleWire (failures : Nat) : Wire :=
  { respond := fun _ k _ =>
      if k < failures then BulkOutcome.failure (GoError.new "connection refused")
      else BulkOutcome.response false "200 OK" (Except.ok { Errors := false, Items := [] }),
    requests := [] }

/-- A context that is never cancelled. -/
def Context.background : Context :=
  { done := fun _ => none }

/-- A sender with the default configuration. -/
def sampleSender : Sender :=
  { indexPattern := "logs-{date}", config := DefaultConfig }

/-- What `SendWithRetry` does, as seen from outside: a wait on the backoff timer (the
duration given to `time.After`) or a call of `Send`. -/
inductive Event where
  | wait (d : Duration)
  | send (entries : List EntryPtr)
  deriving DecidableEq, Repr

/-- The duration `backoff` that `SendWithRetry` computes before retry attempt `i`:
`time.Duration(i) * RetryInterval` in `int64`, capped at `MaxRetryBackoff`. -/
def Sender.backoff (s : Sender) (i : Nat) : Duration :=
  let backoff := wrapInt64 ((i : Int) * s.config.RetryInterval)
  if s.config.MaxRetryBackoff < backoff then s.config.MaxRetryBackoff else backoff

/-- The loop of `SendWithRetry` from iteration `i` on, with the value of `lastErr`, the
wire and the events so far. The fuel bounds the number of iterations; `none` is a panic
of `Send` or the end of the fuel. -/
def Sender.SendWithRetry.loop (format : Time → String → String)
    (marshal : FieldMap → Except String String) (s : Sender) (h : Heap) (ctx : Context)
    (entries : List EntryPtr) :
    Nat → Nat → Option GoError → Wire → List Event →
      Option (Option GoError × Wire × List Event)
  | 0, _, _, _, _ => none
  | fuel + 1, i, lastErr, w, events =>
      if (i : Int) ≤ s.config.RetryCount then
        let cancelled : Option GoError := if 0 < i then ctx.done i else none
        let events := if 0 < i then events ++ [Event.wait (s.backoff i)] else events
        match cancelled with
        | some err => some (some err, w, events)
        | none =>
            match s.Send format marshal h ctx w entries with
            | none => none
            | some (none, w1) => some (none, w1, events ++ [Event.send entries])
            | some (some err, w1) =>
                Sender.SendWithRetry.loop format marshal s h ctx entries fuel (i + 1)
                  (some err) w1 (events ++ [Event.send entries])
      else
        some (some (GoError.wrap
          ("failed after " ++ toString s.config.RetryCount ++ " retries: ") lastErr), w,
          events)

/-- `Sender.SendWithRetry`: the error it returns (`none` for `nil`), the wire after the
call, and the waits and `Send` calls it made, in order. -/
def Sender.SendWithRetry (format : Time → String → String)
    (marshal : FieldMap → Except String String) (s : Sender) (h : Heap) (ctx : Context)
    (w : Wire) (entries : List EntryPtr) : Option (Option GoError × Wire × List Event) :=
  Sender.SendWithRetry.loop format marshal s h ctx entries
    ((s.config.RetryCount + 1).toNat + 1) 0 none w []

/-- The results of `n` consecutive calls of `Send` with the same entries, from the wire
`w` on, and the wire after them. -/
def Sender.sendResults (format : Time → String → String)
    (marshal : FieldMap → Except String String) (s : Sender) (h : Heap) (ctx : Context)
    (entries : List EntryPtr) : Nat → Wire → Option (List (Option GoError) × Wire)
  | 0, w => some ([], w)
  | n + 1, w =>
      match s.Send format marshal h ctx w entries with
      | none => none
      | some (r, w1) =>
          match Sender.sendResults format marshal s h ctx entries n w1 with
          | none => none
          | some (rs, w2) => some (r :: rs, w2)

/-- The events of `n` attempts in a row, the first of them attempt number `i` (counted
from 0): each attempt but attempt 0 is a wait of `backoff` followed by a `Send`. -/
def Sender.attempts (s : Sender) (entries : List EntryPtr) : Nat → Nat → List Event
  | _, 0 => []
  | i, n + 1 =>
      (if 0 < i then [Event.wait (s.backoff i)] else []) ++ [Event.send entries]
        ++ Sender.attempts s entries (i + 1) n

/-- The number of `Send` calls among the events. -/
def Event.sends : List Event → Nat
  | [] => 0
  | Event.wait _ :: events => Event.sends events
  | Event.send _ :: events => Event.sends events + 1

/-- The waits among the events, in order. -/
def Event.waits : List Event → List Duration
  | [] => []
  | Event.wait d :: events => d :: Event.waits events
  | Event.send _ :: events => Event.waits events

/-- The events of a run of `SendWithRetry` that made `n` attempts and, if `cancelled`,
was then cancelled during the wait before the next one. -/
def Sender.schedule (s : Sender) (entries : List EntryPtr) (n : Nat) (cancelled : Bool) :
    List Event :=
  s.attempts entries 0 n ++ (if cancelled then [Event.wait (s.backoff n)] else [])

/-! ## Client (`pkg/client.go`) -/

/-- A buffered channel of `*LogEntry`, as `make(chan *LogEntry, n)` creates it: the values
in its buffer, the oldest first, and its capacity. The queue of a client made by
`NewClient` has a positive capacity, `Validate` having accepted `QueueSize`. -/
structure Chan where
  buf : List EntryPtr
  cap : Nat
  deriving DecidableEq, Repr

/-- The send `q <- entry` as a case of a `select`: it can proceed when the buffer has
room, and the value then goes to the tail of the buffer; `none` when it cannot proceed. -/
def Chan.trySend (q : Chan) (entry : EntryPtr) : Option Chan :=
  if q.buf.length < q.cap then some { q with buf := q.buf ++ [entry] } else none

/-- The struct `Client`, without its wait group and mutex: the objects behind `config`,
`sender`, `batch` and `metrics` are held by value, the client being the only one to reach
them, and of the context `ctx` and its `cancel` function what is kept is `cancelled`,
whether `cancel` has been called (the channel `ctx.Done()` is then closed). -/
structure Client where
  config : Config
  sender : Sender
  batch : Batch
  queue : Chan
  metrics : Metrics
  cancelled : Bool
  hostName : String
  hostIP : String
  closed : Bool
  deriving DecidableEq, Repr

/-- An assignment to fields of the struct behind the pointer `p`, given as the function
`f` on the struct: a panic (`none`) on a nil pointer. -/
def Heap.assign (h : Heap) (p : EntryPtr) (f : LogEntry → LogEntry) : Option Heap :=
  match h.entries[p]? with
  | none => none
  | some e => some { h with entries := h.entries.set p (f e) }

/-- The assignments of `Log` to the new entry: service name and environment from the
configuration, host name and IP from the client when `EnableHostInfo` is set. -/
def Client.Log.metadata (c : Client) (h : Heap) (entry : EntryPtr) : Option Heap :=
  (h.assign entry (fun e => { e with ServiceName := c.config.ServiceName })).bind fun h1 =>
  (h1.assign entry (fun e => { e with Environment := c.config.Environment })).bind fun h2 =>
  if c.config.EnableHostInfo then
    (h2.assign entry (fun e => { e with HostName := c.hostName })).bind fun h3 =>
    h3.assign entry (fun e => { e with IP := c.hostIP })
  else some h2

/-- How a call of `Log` goes on: it returns an error (`none` for `nil`), or it blocks in
its second `select` with the entry in hand, the queue being full. -/
inductive LogOutcome where
  | returned (err : Option GoError)
  | blocked (entry : EntryPtr)
  deriving DecidableEq, Repr

/-- `Client.Log`, called when the clock reads `now`, up to its return or to the point
where it blocks in the second `select`: the outcome, the client and the heap after it;
`none` is a panic. -/
def Client.Log (c : Client) (h : Heap) (now : Time) (level : LogLevel) (message : String)
    (fields : Option MapRef) : Option (LogOutcome × Client × Heap) :=
  if c.closed then
    some (LogOutcome.returned (some (GoError.new "client is closed")), c, h)
  else
    let alloc := NewLogEntry h level message fields now
    match Client.Log.metadata c alloc.2 alloc.1 with
    | none => none
    | some h1 =>
        let c1 := { c with metrics := c.metrics.IncTotal }
        match c1.queue.trySend alloc.1 with
        | some queue => some (LogOutcome.returned none, { c1 with queue := queue }, h1)
        | none =>
            if c1.config.DiscardOnFull then
              some (LogOutcome.returned none, { c1 with metrics := c1.metrics.IncDropped }, h1)
            else
              some (LogOutcome.blocked alloc.1, c1, h1)

/-- The second `select` of `Log`, from the state `c` the client is in when the `select`
is decided: if the timer of 5 seconds has fired (`timedOut`), the drop is counted and an
error returned; otherwise the send proceeds, which asks for room in the queue (`none`
when there is none: the `select` cannot be decided that way). -/
def Client.Log.wait (c : Client) (entry : EntryPtr) (timedOut : Bool) :
    Option (Option GoError × Client) :=
  if timedOut then
    some (some (GoError.new "queue is full, log dropped"),
      { c with metrics := c.metrics.IncDropped })
  else
    match c.queue.trySend entry with
    | some queue => some (none, { c with queue := queue })
    | none => none

/-- An open client with a full queue of capacity 2 that discards when the queue is
full. -/
def sampleClient : Client :=
  { config := { DefaultConfig with QueueSize := 2, DiscardOnFull := true },
    sender := sampleSender,
    batch := { entries := [], maxSize := 100, timeout := 5 * Second,
               lastFlush := { unixNano := 0, zoneOffset := 0 } },
    queue := { buf := [0, 1], cap := 2 },
    metrics := NewMetrics,
    cancelled := false,
    hostName := "host-1",
    hostIP := "10.0.0.7",
    closed := false }

/-- The receive `<-q` as a case of a `select`: it can proceed when the buffer holds a
value, and takes the oldest; `none` when it cannot proceed. -/
def Chan.tryRecv (q : Chan) : Option (EntryPtr × Chan) :=
  match q.buf with
  | [] => none
  | entry :: rest => some (entry, { q with buf := rest })

/-- The expression `make(chan *LogEntry, size)`: a run-time panic (`none`) when the size
is negative. -/
def makeChan (size : Int) : Option Chan :=
  if size < 0 then none else some { buf := [], cap := size.toNat }

/-- A call of `SendWithRetry` as its caller sees it: the entries passed, the error
returned (`none` for `nil`) and what the call did. -/
structure SenderCall where
  entries : List EntryPtr
  err : Option GoError
  events : List Event
  deriving DecidableEq, Repr

/-- `Client.flush`, with `now` the reading of the clock inside `Batch.Flush` and `ctx` the
context with the deadline of 30 seconds that it creates: the calls of `SendWithRetry` it
made, the client and the wire after it. The line it prints on failure is left out. -/
def Client.flush (format : Time → String → String)
    (marshal : FieldMap → Except String String) (c : Client) (h : Heap) (w : Wire)
    (now : Time) (ctx : Context) : Option (List SenderCall × Client × Wire) :=
  match c.batch.Flush now with
  | none => none
  | some (entries, batch) =>
      let c1 := { c with batch := batch }
      if entries.length = 0 then some ([], c1, w)
      else
        match c1.sender.SendWithRetry format marshal h ctx w entries with
        | none => none
        | some (err, w1, events) =>
            match err with
            | some e =>
                some ([SenderCall.mk entries (some e) events],
                  { c1 with metrics := c1.metrics.IncFailed }, w1)
            | none =>
                some ([SenderCall.mk entries none events],
                  { c1 with metrics := c1.metrics.IncSuccess }, w1)

/-- `Client.Flush`. -/
def Client.Flush (format : Time → String → String)
    (marshal : FieldMap → Except String String) (c : Client) (h : Heap) (w : Wire)
    (now : Time) (ctx : Context) : Option (List SenderCall × Client × Wire) :=
  Client.flush format marshal c h w now ctx

/-- `Client.GetMetrics`; the client is returned as the method leaves it. -/
def Client.GetMetrics (c : Client) : Option (MetricsSnapshot × Client) :=
  match c.metrics.Snapshot with
  | none => none
  | some (snapshot, metrics) => some (snapshot, { c with metrics := metrics })

/-- The body of the case `entry := <-c.queue` in the loop of `Client.worker`, the entry
received: `startTime` is the reading of the clock at `time.Now()`, `flushNow` and `ctx`
are those of `flush` if it is called, and `endTime` is the reading of the clock inside
`time.Since(startTime)`, the last statement. -/
def Client.worker.process (format : Time → String → String)
    (marshal : FieldMap → Except String String) (c : Client) (h : Heap) (w : Wire)
    (entry : EntryPtr) (startTime flushNow : Time) (ctx : Context) (endTime : Time) :
    Option (List SenderCall × Client × Wire) :=
  let added := c.batch.Add entry
  let shouldFlush := added.1
  let c1 := { c with batch := added.2 }
  let flushed :=
    if shouldFlush then Client.flush format marshal c1 h w flushNow ctx
    else some ([], c1, w)
  match flushed with
  | none => none
  | some (calls, c2, w2) =>
      some (calls,
        { c2 with metrics := c2.metrics.RecordLatency (Since endTime startTime) }, w2)

/-- One iteration of the loop of `Client.worker` that takes the case `entry := <-c.queue`;
`none` also when the queue is empty, where that case cannot be taken. -/
def Client.worker.step (format : Time → String → String)
    (marshal : FieldMap → Except String String) (c : Client) (h : Heap) (w : Wire)
    (startTime flushNow : Time) (ctx : Context) (endTime : Time) :
    Option (List SenderCall × Client × Wire) :=
  match c.queue.tryRecv with
  | none => none
  | some (entry, queue) =>
      Client.worker.process format marshal { c with queue := queue } h w entry startTime
        flushNow ctx endTime

/-! ### The worker against a clock

In the definitions above each reading of the clock is an input. Below the clock is part
of the state: a statement that reads it gets the reading at that point of the run, and
what runs between two readings moves the second one. -/

/-- The reading of the clock `ns` nanoseconds after the reading `t`. -/
def Time.later (t : Time) (ns : Nat) : Time :=
  { t with unixNano := t.unixNano + ns }

/-- The time the statements of one worker iteration take apart from the waits on the
backoff timer, in nanoseconds; the scheduler and the network decide them, none is
negative. `append`: from the reading `startTime` to the return of `Batch.Add`. `enter`:
from there to the reading of the clock in `Batch.Flush`. `step k`: for event `k` of
`SendWithRetry` (counted from 0), the time of the call if it is a `Send`, the delay of the
timer if it is a wait that ends with the timer, the whole time of the wait if it ends with
the cancellation of the context. `leave`: from the return of `SendWithRetry`, or of
`Batch.Add` when no flush is asked for, to the reading of the clock in `time.Since`. -/
structure Pace where
  append : Nat
  enter : Nat
  step : Nat → Nat
  leave : Nat

/-- The time the events of a call of `SendWithRetry` take, the first of them being event
`k`. A wait that `SendWithRetry` goes on from, to the next `Send`, ended with the timer:
`time.After(d)` delivers once `d` has elapsed, at once when `d` is not positive. A wait
that is the last event ended with the cancellation of the context. -/
def Event.elapsed (step : Nat → Nat) : Nat → List Event → Nat
  | _, [] => 0
  | k, Event.send _ :: rest => step k + Event.elapsed step (k + 1) rest
  | k, Event.wait d :: rest =>
      match rest with
      | [] => step k
      | _ :: _ => d.toNat + step k + Event.elapsed step (k + 1) rest

/-- The waits among the events that ended with the timer: those followed by another
event. -/
def Event.completedWaits : List Event → List Duration
  | [] => []
  | Event.send _ :: rest => Event.completedWaits rest
  | Event.wait d :: rest =>
      match rest with
      | [] => []
      | _ :: _ => d :: Event.completedWaits rest

/-- The time the given calls of `SendWithRetry` take, one after the other. -/
def SenderCall.elapsed (step : Nat → Nat) (calls : List SenderCall) : Nat :=
  (calls.map (fun call => Event.elapsed step 0 call.events)).sum

/-- The body of the case `entry := <-c.queue` in the loop of `Client.worker`, run against
the clock: `clock` is its reading at `startTime := time.Now()`. The result holds, after the
calls, the client and the wire, the reading of the clock in `time.Since(startTime)`, the
last statement, which comes after `flush` has returned when `Add` asked for it. -/
def Client.worker.clocked (format : Time → String → String)
    (marshal : FieldMap → Except String String) (c : Client) (h : Heap) (w : Wire)
    (entry : EntryPtr) (ctx : Context) (pace : Pace) (clock : Time) :
    Option (List SenderCall × Client × Wire × Time) :=
  let startTime := clock
  let added := c.batch.Add entry
  let clock := clock.later pace.append
  let shouldFlush := added.1
  let c1 := { c with batch := added.2 }
  let flushed :=
    if shouldFlush then
      let flushNow := clock.later pace.enter
      match Client.flush format marshal c1 h w flushNow ctx with
      | none => none
      | some (calls, c2, w2) =>
          some (calls, c2, w2, flushNow.later (SenderCall.elapsed pace.step calls))
    else some ([], c1, w, clock)
  match flushed with
  | none => none
  | some (calls, c2, w2, clock) =>
      let endTime := clock.later pace.leave
      some (calls,
        { c2 with metrics := c2.metrics.RecordLatency (Since endTime startTime) }, w2,
        endTime)

/-- One iteration of the loop of `Client.worker` that takes the case
`entry := <-c.queue`, run against the clock; `none` also when the queue is empty. -/
def Client.worker.clockedStep (format : Time → String → String)
    (marshal : FieldMap → Except String String) (c : Client) (h : Heap) (w : Wire)
    (ctx : Context) (pace : Pace) (clock : Time) :
    Option (List SenderCall × Client × Wire × Time) :=
  match c.queue.tryRecv with
  | none => none
  | some (entry, queue) =>
      Client.worker.clocked format marshal { c with queue := queue } h w entry ctx pace
        clock

/-- One iteration of the loop of the flusher goroutine that takes the case `<-ticker.C`:
`now` is the reading of the clock inside `ShouldFlush`. -/
def Client.flusher.tick (format : Time → String → String)
    (marshal : FieldMap → Except String String) (c : Client) (h : Heap) (w : Wire)
    (now flushNow : Time) (ctx : Context) : Option (List SenderCall × Client × Wire) :=
  let should := c.batch.ShouldFlush now
  let c1 := { c with batch := should.2 }
  if should.1 then Client.flush format marshal c1 h w flushNow ctx else some ([], c1, w)

/-- `Sender.Close`: nothing to close, `nil`. -/
def Sender.Close (s : Sender) : Option GoError × Sender :=
  (none, s)

/-- `Client.Close` up to `c.wg.Wait()`: the test of `closed` under the mutex, and, on the
first call, the assignment to `closed` and the call of `cancel`. The flag says whether the
call goes on to the teardown. -/
def Client.Close.begin (c : Client) : Bool × Client :=
  if c.closed then (false, c)
  else (true, { c with closed := true, cancelled := true })

/-- `Client.Close` from the return of `c.wg.Wait()` on, in the state the goroutines left:
the last `flush` and `c.sender.Close()`, whose error is returned. -/
def Client.Close.finish (format : Time → String → String)
    (marshal : FieldMap → Except String String) (c : Client) (h : Heap) (w : Wire)
    (now : Time) (ctx : Context) : Option (Option GoError × List SenderCall × Client × Wire) :=
  match Client.flush format marshal c h w now ctx with
  | none => none
  | some (calls, c1, w1) =>
      let closed := c1.sender.Close
      some (closed.1, calls, { c1 with sender := closed.2 }, w1)

/-- `Client.Close` when no goroutine is in the middle of an iteration, so that
`c.wg.Wait()` returns in the state `cancel` was called in. A call on a closed client
returns `nil` at once. -/
def Client.Close (format : Time → String → String)
    (marshal : FieldMap → Except String String) (c : Client) (h : Heap) (w : Wire)
    (now : Time) (ctx : Context) : Option (Option GoError × List SenderCall × Client × Wire) :=
  let begun := Client.Close.begin c
  if begun.1 then Client.Close.finish format marshal begun.2 h w now ctx
  else some (none, [], begun.2, w)

/-- What `NewSender` meets when it creates the Elasticsearch client and pings the
cluster. -/
inductive Connect where
  /-- The constructor `elasticsearch.NewClient` returned an error. -/
  | clientError (err : GoError)
  /-- The call `client.Ping` returned an error. -/
  | pingError (err : GoError)
  /-- The ping was answered: `res.IsError()` and `res.Status()`. -/
  | pingResponse (isError : Bool) (status : String)

/-- `NewSender(config)`. -/
def NewSender (connect : Connect) (config : Config) : Except GoError Sender :=
  match connect with
  | Connect.clientError err =>
      Except.error (GoError.wrap "failed to create elasticsearch client: " (some err))
  | Connect.pingError err =>
      Except.error (GoError.wrap "failed to ping elasticsearch: " (some err))
  | Connect.pingResponse isError status =>
      if isError then
        Except.error (GoError.new ("elasticsearch ping returned error: " ++ status))
      else Except.ok { indexPattern := config.IndexPattern, config := config }

/-- `NewClient(config)`, called when the clock reads `now`: `hostname` is what
`os.Hostname()` returns and `localIP` what `getLocalIP()` returns. The goroutines it
starts run no statement before it returns. A nil `config` is `none`; the result `none` is
a panic. -/
def NewClient (connect : Connect) (hostname localIP : String) (now : Time)
    (config : Option Config) : Option (Except GoError Client) :=
  let config := match config with
    | none => DefaultConfig
    | some given => given
  match config.Validate with
  | (some err, _) => some (Except.error (GoError.new err.Error))
  | (none, config) =>
      match NewSender connect config with
      | Except.error err =>
          some (Except.error (GoError.wrap "failed to create sender: " (some err)))
      | Except.ok sender =>
          match NewBatch config.BatchSize config.BatchTimeout now with
          | none => none
          | some batch =>
              match makeChan config.QueueSize with
              | none => none
              | some queue =>
                  some (Except.ok
                    { config := config, sender := sender, batch := batch, queue := queue,
                      metrics := NewMetrics, cancelled := false,
                      hostName := if config.EnableHostInfo then hostname else "",
                      hostIP := if config.EnableHostInfo then localIP else "",
                      closed := false })

/-- An open client with the entries at addresses 0 and 1 pending in its batch. -/
def samplePendingClient : Client :=
  { sampleClient with
    batch := { entries := [0, 1], maxSize := 100, timeout := 5 * Second,
               lastFlush := { unixNano := 0, zoneOffset := 0 } },
    queue := { buf := [], cap := 2 } }

/-- The sample client after `Close`: closed and cancelled, nothing pending. -/
def sampleClosedClient : Client :=
  { sampleClient with closed := true, cancelled := true }

/-- An open client with batch size 1, an empty batch and the entry at address 1 waiting in
its queue: the worker that takes the entry fills the batch. -/
def sampleWorkerClient : Client :=
  { config := { DefaultConfig with BatchSize := 1, QueueSize := 2 },
    sender := sampleSender,
    batch := { entries := [], maxSize := 1, timeout := 5 * Second,
               lastFlush := { unixNano := 0, zoneOffset := 0 } },
    queue := { buf := [1], cap := 2 },
    metrics := NewMetrics.IncTotal,
    cancelled := false,
    hostName := "host-1",
    hostIP := "10.0.0.7",
    closed := false }

/-- A pace of the sample runs: the append is over 1000 ns after the entry is received,
each `Send` takes 1000 ns, the timer is on time, all else takes no time. -/
def samplePace : Pace :=
  { append := 1000, enter := 0, step := fun k => if k = 1 then 0 else 1000, leave := 0 }

/-! ## The client and its goroutines, statement by statement -/

/-- A goroutine in the middle of an operation of the client, by the statement it is about
to run. A flush called by a worker carries the `startTime` of the worker's iteration,
which goes on to `RecordLatency` after it. -/
inductive Task where
  /-- In `Log`, counted in the total, at the first `select`. -/
  | logSelect (entry : EntryPtr)
  /-- In `Log`, blocked in the second `select`. -/
  | logWait (entry : EntryPtr)
  /-- In the worker, the entry received, at `c.batch.Add(entry)`. -/
  | workerAdd (entry : EntryPtr) (startTime : Time)
  /-- At the call `c.flush()`, about to run `c.batch.Flush()`. -/
  | flush (worker : Option Time)
  /-- In `flush`, the batch drained, at `c.sender.SendWithRetry(ctx, entries)`. -/
  | send (worker : Option Time) (entries : List EntryPtr)
  /-- In the worker, at `c.metrics.RecordLatency(time.Since(startTime))`. -/
  | record (startTime : Time)
  /-- In `Close`, at `c.wg.Wait()`. -/
  | closeWait
  deriving DecidableEq, Repr

/-- The client with its surroundings and the goroutines that are in the middle of an
operation. -/
structure System where
  client : Client
  heap : Heap
  wire : Wire
  tasks : List Task

/-- One step of one goroutine, atomic with respect to the shared state, with what the
environment contributes to it. -/
inductive Action where
  /-- A call of `Log`, up to its first `select`. -/
  | logCall (now : Time) (level : LogLevel) (message : String) (fields : Option MapRef)
  /-- The first `select` of `Log`. -/
  | logSelect (entry : EntryPtr)
  /-- The second `select` of `Log` is decided, by the timer or by the send. -/
  | logWake (entry : EntryPtr) (timedOut : Bool)
  /-- A worker receives from the queue and reads the clock. -/
  | workerRecv (startTime : Time)
  /-- A worker appends its entry to the batch. -/
  | workerAdd (entry : EntryPtr) (startTime : Time)
  /-- The flusher, on a tick, asks the batch whether to flush. -/
  | tick (now : Time)
  /-- A call of `Flush`. -/
  | flushCall
  /-- A call of `Close`, up to `c.wg.Wait()`. -/
  | closeCall
  /-- The call `c.wg.Wait()` of `Close` returns. -/
  | closeWaited
  /-- The statement `c.batch.Flush()` of `flush`. -/
  | flushDrain (worker : Option Time) (now : Time)
  /-- The call of `SendWithRetry` in `flush`, and the counting of its result. -/
  | flushSend (worker : Option Time) (entries : List EntryPtr) (ctx : Context)
  /-- The statement `c.metrics.RecordLatency(time.Since(startTime))` of a worker. -/
  | record (startTime endTime : Time)

/-- What a goroutine does after its `flush` returned: a worker records the latency. -/
def Task.afterFlush : Option Time → List Task
  | some startTime => [Task.record startTime]
  | none => []

/-- The step of the system under an action; `none` when the action is not enabled (no
goroutine is at that statement, or the statement blocks) or when it panics. -/
def System.step (format : Time → String → String)
    (marshal : FieldMap → Except String String) (s : System) : Action → Option System
  | .logCall now level message fields =>
      if s.client.closed then some s
      else
        let alloc := NewLogEntry s.heap level message fields now
        match Client.Log.metadata s.client alloc.2 alloc.1 with
        | none => none
        | some h1 =>
            some { s with
              client := { s.client with metrics := s.client.metrics.IncTotal },
              heap := h1,
              tasks := Task.logSelect alloc.1 :: s.tasks }
  | .logSelect entry =>
      if Task.logSelect entry ∈ s.tasks then
        let rest := s.tasks.erase (Task.logSelect entry)
        match s.client.queue.trySend entry with
        | some queue => some { s with client := { s.client with queue := queue }, tasks := rest }
        | none =>
            if s.client.config.DiscardOnFull then
              some { s with
                client := { s.client with metrics := s.client.metrics.IncDropped },
                tasks := rest }
            else some { s with tasks := Task.logWait entry :: rest }
      else none
  | .logWake entry timedOut =>
      if Task.logWait entry ∈ s.tasks then
        match Client.Log.wait s.client entry timedOut with
        | none => none
        | some (_, c1) => some { s with client := c1, tasks := s.tasks.erase (Task.logWait entry) }
      else none
  | .workerRecv startTime =>
      match s.client.queue.tryRecv with
      | none => none
      | some (entry, queue) =>
          some { s with
            client := { s.client with queue := queue },
            tasks := Task.workerAdd entry startTime :: s.tasks }
  | .workerAdd entry startTime =>
      if Task.workerAdd entry startTime ∈ s.tasks then
        let added := s.client.batch.Add entry
        let next := if added.1 then Task.flush (some startTime) else Task.record startTime
        some { s with
          client := { s.client with batch := added.2 },
          tasks := next :: s.tasks.erase (Task.workerAdd entry startTime) }
      else none
  | .tick now =>
      let should := s.client.batch.ShouldFlush now
      let c1 := { s.client with batch := should.2 }
      if should.1 then some { s with client := c1, tasks := Task.flush none :: s.tasks }
      else some { s with client := c1 }
  | .flushCall => some { s with tasks := Task.flush none :: s.tasks }
  | .closeCall =>
      let begun := Client.Close.begin s.client
      if begun.1 then some { s with client := begun.2, tasks := Task.closeWait :: s.tasks }
      else some { s with client := begun.2 }
  | .closeWaited =>
      if Task.closeWait ∈ s.tasks then
        some { s with tasks := Task.flush none :: s.tasks.erase Task.closeWait }
      else none
  | .flushDrain worker now =>
      if Task.flush worker ∈ s.tasks then
        let rest := s.tasks.erase (Task.flush worker)
        match s.client.batch.Flush now with
        | none => none
        | some (entries, batch) =>
            let c1 := { s.client with batch := batch }
            if entries.length = 0 then
              some { s with client := c1, tasks := Task.afterFlush worker ++ rest }
            else some { s with client := c1, tasks := Task.send worker entries :: rest }
      else none
  | .flushSend worker entries ctx =>
      if Task.send worker entries ∈ s.tasks then
        let rest := s.tasks.erase (Task.send worker entries)
        match s.client.sender.SendWithRetry format marshal s.heap ctx s.wire entries with
        | none => none
        | some (err, w1, _) =>
            let metrics :=
              match err with
              | some _ => s.client.metrics.IncFailed
              | none => s.client.metrics.IncSuccess
            some { s with
              client := { s.client with metrics := metrics },
              wire := w1,
              tasks := Task.afterFlush worker ++ rest }
      else none
  | .record startTime endTime =>
      if Task.record startTime ∈ s.tasks then
        some { s with
          client := { s.client with
            metrics := s.client.metrics.RecordLatency (Since endTime startTime) },
          tasks := s.tasks.erase (Task.record startTime) }
      else none

/-- The steps of the system under a sequence of actions: one interleaving of the
goroutines. -/
def System.run (format : Time → String → String)
    (marshal : FieldMap → Except String String) : System → List Action → Option System
  | s, [] => some s
  | s, action :: actions =>
      match System.step format marshal s action with
      | none => none
      | some s1 => System.run format marshal s1 actions

/-- What a goroutine in the middle of an operation holds that the counters do not show
yet: an entry counted in the total and not yet queued or dropped, an entry taken from the
queue and not yet in the batch, or a drained batch not yet counted as sent or failed. -/
def Task.weight : Task → Nat
  | .logSelect _ => 1
  | .logWait _ => 1
  | .workerAdd _ _ => 1
  | .send _ _ => 1
  | .flush _ => 0
  | .record _ => 0
  | .closeWait => 0

/-- The sum of the weights of the tasks. -/
def Task.load (tasks : List Task) : Nat :=
  (tasks.map Task.weight).sum

/-- The accounting of entries after at most `n` steps: the three outcome counters are not
negative, and together with the entries in the queue, in the batch and in the hands of
goroutines they do not exceed the total counter, which is at most `n`. -/
def System.Accounted (s : System) (n : Nat) : Prop :=
  0 ≤ s.client.metrics.DroppedLogs ∧ 0 ≤ s.client.metrics.SuccessLogs ∧
  0 ≤ s.client.metrics.FailedLogs ∧
  s.client.metrics.DroppedLogs + s.client.metrics.SuccessLogs + s.client.metrics.FailedLogs
      + (s.client.queue.buf.length : Int) + (s.client.batch.entries.length : Int)
      + (Task.load s.tasks : Int) ≤ s.client.metrics.TotalLogs ∧
  s.client.metrics.TotalLogs ≤ (n : Int)

/-- A configuration with batch size 2 and a queue of one entry. -/
def sampleSmallConfig : Config :=
  { DefaultConfig with BatchSize := 2, QueueSize := 1 }

/-- The client `NewClient` returns for `sampleSmallConfig` at time 0 on the host `host-1`. -/
def sampleFreshClient : Client :=
  { config := sampleSmallConfig,
    sender := { indexPattern := sampleSmallConfig.IndexPattern, config := sampleSmallConfig },
    batch := { entries := [], maxSize := 2, timeout := 5 * Second,
               lastFlush := { unixNano := 0, zoneOffset := 0 } },
    queue := { buf := [], cap := 1 },
    metrics := NewMetrics,
    cancelled := false,
    hostName := "host-1",
    hostIP := "10.0.0.7",
    closed := false }

/-- An interleaving on the fresh sample client: two calls of `Log`, the second of which
finds the queue full and is dropped by the timer; a worker that takes the first entry to
the batch; a call of `Flush` that sends it; and `Close` with its last flush. -/
def sampleActions : List Action :=
  [ Action.logCall (Time.mk 10 0) LevelInfo "first" none,
    Action.logSelect 2,
    Action.logCall (Time.mk 20 0) LevelWarn "second" none,
    Action.logSelect 3,
    Action.workerRecv (Time.mk 30 0),
    Action.logWake 3 true,
    Action.workerAdd 2 (Time.mk 30 0),
    Action.record (Time.mk 30 0) (Time.mk 40 0),
    Action.flushCall,
    Action.flushDrain none (Time.mk 50 0),
    Action.flushSend none [2] Context.background,
    Action.closeCall,
    Action.closeWaited,
    Action.flushDrain none (Time.mk 60 0) ]

/-! ## Runs of a client with a single consumer -/

/-- An operation in a run where entries are processed one at a time: a call of `Log`, or
one whole iteration of the one worker, with the readings of the clock and the context that
the iteration meets. -/
inductive ClientOp where
  | log (now : Time) (level : LogLevel) (message : String) (fields : Option MapRef)
  | work (startTime flushNow : Time) (ctx : Context) (endTime : Time)

/-- The client with its surroundings in such a run, and the calls of `SendWithRetry` made
so far. -/
structure ClientRun where
  client : Client
  heap : Heap
  wire : Wire
  calls : List SenderCall

/-- The run of the operations in order; `none` when a call of `Log` blocks, when the
worker finds the queue empty, or on a panic. -/
def Client.run (format : Time → String → String)
    (marshal : FieldMap → Except String String) : ClientRun → List ClientOp → Option ClientRun
  | st, [] => some st
  | st, ClientOp.log now level message fields :: ops =>
      match st.client.Log st.heap now level message fields with
      | some (LogOutcome.returned _, c1, h1) =>
          Client.run format marshal { st with client := c1, heap := h1 } ops
      | _ => none
  | st, ClientOp.work startTime flushNow ctx endTime :: ops =>
      match Client.worker.step format marshal st.client st.heap st.wire startTime flushNow ctx
          endTime with
      | none => none
      | some (calls, c1, w1) =>
          Client.run format marshal
            { st with client := c1, wire := w1, calls := st.calls ++ calls } ops

/-- The entry that a call of `Log` on the client `c` creates. -/
def Client.entryOf (c : Client) (now : Time) (level : LogLevel) (message : String)
    (fields : Option MapRef) : LogEntry :=
  { Timestamp := now, Level := level, Message := message, Logger := "", Caller := "",
    Stack := "", Fields := fields, ServiceName := c.config.ServiceName,
    Environment := c.config.Environment,
    HostName := if c.config.EnableHostInfo then c.hostName else "",
    IP := if c.config.EnableHostInfo then c.hostIP else "" }

/-- The entries that the calls of `Log` among the operations create, in call order. -/
def ClientOp.entries (c : Client) : List ClientOp → List LogEntry
  | [] => []
  | ClientOp.log now level message fields :: ops =>
      c.entryOf now level message fields :: ClientOp.entries c ops
  | ClientOp.work _ _ _ _ :: ops => ClientOp.entries c ops

/-- The number of worker iterations among the operations. -/
def ClientOp.works : List ClientOp → Nat
  | [] => 0
  | ClientOp.log _ _ _ _ :: ops => ClientOp.works ops
  | ClientOp.work _ _ _ _ :: ops => ClientOp.works ops + 1

/-- Whether, with `pending` entries in a queue of capacity `cap`, every call of `Log`
among the operations finds room in the queue and every worker iteration finds an entry. -/
def ClientOp.admissible (cap : Nat) : Nat → List ClientOp → Bool
  | _, [] => true
  | pending, ClientOp.log _ _ _ _ :: ops =>
      decide (pending < cap) && ClientOp.admissible cap (pending + 1) ops
  | pending, ClientOp.work _ _ _ _ :: ops =>
      decide (0 < pending) && ClientOp.admissible cap (pending - 1) ops

/-- The default configuration with batch size 1 and the retry count -1, which `Validate`
accepts. -/
def sampleNoRetryConfig : Config :=
  { DefaultConfig with BatchSize := 1, RetryCount := -1 }

/-- The client `NewClient` returns for `sampleNoRetryConfig` at time 0 on `host-1`. -/
def sampleNoRetryClient : Client :=
  { config := sampleNoRetryConfig,
    sender := { indexPattern := sampleNoRetryConfig.IndexPattern,
                config := sampleNoRetryConfig },
    batch := { entries := [], maxSize := 1, timeout := 5 * Second,
               lastFlush := { unixNano := 0, zoneOffset := 0 } },
    queue := { buf := [], cap := 10000 },
    metrics := NewMetrics,
    cancelled := false,
    hostName := "host-1",
    hostIP := "10.0.0.7",
    closed := false }

/-- The fresh client `c0` in a single-consumer run after `i` calls of `Log` and `j` worker
iterations, none of which filled the batch, the heap having held `base` entries at the
start: the entries at addresses `base + j` to `base + i - 1` wait in the queue, those at
`base` to `base + j - 1` in the batch, and the metrics are `m`. -/
def Client.inRun (c0 : Client) (base i j : Nat) (m : Metrics) : Client :=
  { c0 with
    queue := { c0.queue with buf := List.range' (base + j) (i - j) },
    batch := { c0.batch with entries := List.range' base j },
    metrics := m }

/-! # Theorems -/

/-! ## Batch -/

theorem makeEntries_of_nonneg {n : Int} (h : 0 ≤ n) : makeEntries n = some [] := by
  unfold makeEntries
  rw [if_neg (not_lt.mpr h)]

theorem NewBatch_of_nonneg {maxSize : Int} (timeout : Duration) (now : Time)
    (h : 0 ≤ maxSize) :
    NewBatch maxSize timeout now =
      some { entries := [], maxSize := maxSize, timeout := timeout, lastFlush := now } := by
  simp [NewBatch, makeEntries_of_nonneg h]

theorem NewBatch_eq_some {maxSize : Int} {timeout : Duration} {now : Time} {b : Batch}
    (h : NewBatch maxSize timeout now = some b) :
    0 ≤ maxSize ∧
      b = { entries := [], maxSize := maxSize, timeout := timeout, lastFlush := now } := by
  by_cases hn : maxSize < 0
  · simp [NewBatch, makeEntries, hn] at h
  · have h0 : 0 ≤ maxSize := not_lt.mp hn
    rw [NewBatch_of_nonneg timeout now h0] at h
    exact ⟨h0, (Option.some.inj h).symm⟩

theorem Batch.Flush_of_nonneg (b : Batch) (now : Time) (h : 0 ≤ b.maxSize) :
    b.Flush now =
      some (b.entries,
        if b.entries.length = 0 then b else { b with entries := [], lastFlush := now }) := by
  unfold Batch.Flush
  by_cases he : b.entries.length = 0
  · have hnil : b.entries = [] := List.length_eq_zero.mp he
    simp [hnil]
  · simp [he, makeEntries_of_nonneg h]

/-- Running `Add` and `Flush` operations from a batch with a non-negative capacity never
panics, hands out the entries in order, and keeps the capacity. -/
theorem Batch.run_spec (ops : List BatchOp) :
    ∀ b : Batch, 0 ≤ b.maxSize →
      ∃ outs b1, b.run ops = some (outs, b1) ∧ b1.maxSize = b.maxSize ∧
        outs.flatten ++ b1.entries = b.entries ++ BatchOp.added ops := by
  induction ops with
  | nil => intro b _; exact ⟨[], b, rfl, rfl, by simp [BatchOp.added]⟩
  | cons op ops ih =>
    intro b hb
    cases op with
    | add e =>
      obtain ⟨outs, b1, hrun, hmax, hcat⟩ := ih (b.Add e).2 hb
      refine ⟨outs, b1, ?_, hmax, ?_⟩
      · simpa [Batch.run] using hrun
      · rw [hcat]
        simp [Batch.Add, BatchOp.added]
    | flush now =>
      by_cases he : b.entries.length = 0
      · have hnil : b.entries = [] := List.length_eq_zero.mp he
        obtain ⟨outs, b1, hrun, hmax, hcat⟩ := ih b hb
        refine ⟨[] :: outs, b1, ?_, hmax, ?_⟩
        · simp [Batch.run, Batch.Flush_of_nonneg b now hb, hnil, hrun]
        · simpa [BatchOp.added, hnil] using hcat
      · obtain ⟨outs, b1, hrun, hmax, hcat⟩ :=
          ih { b with entries := [], lastFlush := now } hb
        refine ⟨b.entries :: outs, b1, ?_, hmax, ?_⟩
        · simp [Batch.run, Batch.Flush_of_nonneg b now hb, he, hrun]
        · simp only [List.flatten_cons, List.append_assoc, BatchOp.added]
          rw [hcat]
          simp

theorem Batch.addAll_getElem? (es : List EntryPtr) :
    ∀ (b : Batch) (i : Nat), i < es.length →
      (b.addAll es)[i]? = some (decide (b.maxSize ≤ ((b.entries.length + i + 1 : Nat) : Int))) := by
  induction es with
  | nil => intro b i hi; simp at hi
  | cons e es ih =>
    intro b i hi
    cases i with
    | zero => simp [Batch.addAll, Batch.Add]
    | succ i =>
      have hi1 : i < es.length := by simpa using hi
      have := ih (b.Add e).2 i hi1
      simp only [Batch.addAll, List.getElem?_cons_succ, this]
      simp [Batch.Add]
      omega

/-- **C1.** For every sequence of `Add` and `Flush` operations applied to a fresh batch,
the run does not panic, and the results of the `Flush` calls in call order, followed by
the entries still pending, are exactly the added entries in `Add` order; consequently
each pointer occurs among the `Flush` results and the pending entries exactly as often
as it was added: nothing is duplicated and nothing is lost. -/
theorem Batch.flush_hands_out_each_entry_once (maxSize : Int) (timeout : Duration)
    (now : Time) (ops : List BatchOp) (h : 0 ≤ maxSize) :
    ∃ b0 outs b1, NewBatch maxSize timeout now = some b0 ∧ b0.run ops = some (outs, b1) ∧
      outs.flatten ++ b1.entries = BatchOp.added ops ∧
      ∀ e : EntryPtr,
        (outs.map (List.count e)).sum + b1.entries.count e = (BatchOp.added ops).count e := by
  obtain ⟨outs, b1, hrun, _, hcat⟩ :=
    Batch.run_spec ops
      { entries := [], maxSize := maxSize, timeout := timeout, lastFlush := now } h
  refine ⟨_, outs, b1, NewBatch_of_nonneg timeout now h, hrun, by simpa using hcat, ?_⟩
  intro e
  have hcat1 : outs.flatten ++ b1.entries = BatchOp.added ops := by simpa using hcat
  rw [← hcat1, List.count_append, List.count_flatten]

theorem Batch.flush_hands_out_each_entry_once_witness :
    ∃ b0 outs b1, NewBatch 2 5000 ⟨0, 0⟩ = some b0 ∧
      b0.run [.add 7, .add 8, .flush ⟨10, 0⟩, .add 9, .flush ⟨20, 0⟩, .flush ⟨30, 0⟩, .add 7]
        = some (outs, b1) ∧
      outs.flatten ++ b1.entries
        = BatchOp.added
            [.add 7, .add 8, .flush ⟨10, 0⟩, .add 9, .flush ⟨20, 0⟩, .flush ⟨30, 0⟩, .add 7] ∧
      ∀ e : EntryPtr,
        (outs.map (List.count e)).sum + b1.entries.count e
          = (BatchOp.added
              [.add 7, .add 8, .flush ⟨10, 0⟩, .add 9, .flush ⟨20, 0⟩, .flush ⟨30, 0⟩,
                .add 7]).count e :=
  Batch.flush_hands_out_each_entry_once 2 5000 ⟨0, 0⟩ _ (by decide)

/-- **C2.** `Batch.Add` appends the entry at the end of the pending sequence (the size
grows by one; the earlier entries, the maximum size, the maximum age and the last-flush
time are unchanged) and returns true exactly when the size after the append is at least
the maximum size; so on a fresh batch of maximum size `N`, with no `Flush` or `Clear` in
between, the `k`-th `Add` (`k ≥ 1`) returns true exactly when `k ≥ N`: false for every
`k < N`, true for every `k ≥ N`. -/
theorem Batch.Add_spec (b : Batch) (entry : EntryPtr) (N : Int) (timeout : Duration)
    (now : Time) (es : List EntryPtr) (k : Nat)
    (hN : 0 ≤ N) (hk1 : 1 ≤ k) (hk : k ≤ es.length) :
    (b.Add entry).2.entries = b.entries ++ [entry] ∧
    (b.Add entry).2.entries.length = b.entries.length + 1 ∧
    (b.Add entry).2.maxSize = b.maxSize ∧
    (b.Add entry).2.timeout = b.timeout ∧
    (b.Add entry).2.lastFlush = b.lastFlush ∧
    ((b.Add entry).1 = true ↔ b.maxSize ≤ ((b.Add entry).2.entries.length : Int)) ∧
    ∃ b0, NewBatch N timeout now = some b0 ∧
      (b0.addAll es)[k - 1]? = some (decide (N ≤ (k : Int))) := by
  refine ⟨rfl, by simp [Batch.Add], rfl, rfl, rfl, by simp [Batch.Add], ?_⟩
  refine ⟨_, NewBatch_of_nonneg timeout now hN, ?_⟩
  rw [Batch.addAll_getElem? es _ (k - 1) (by omega)]
  have hk2 : (0 + (k - 1) + 1 : Nat) = k := by omega
  simp only [List.length_nil, hk2]

theorem Batch.Add_spec_witness :
    ((Batch.mk [4] 2 5000 ⟨0, 0⟩).Add 6).2.entries = [4] ++ [6] ∧
    ((Batch.mk [4] 2 5000 ⟨0, 0⟩).Add 6).2.entries.length = [4].length + 1 ∧
    ((Batch.mk [4] 2 5000 ⟨0, 0⟩).Add 6).2.maxSize = 2 ∧
    ((Batch.mk [4] 2 5000 ⟨0, 0⟩).Add 6).2.timeout = 5000 ∧
    ((Batch.mk [4] 2 5000 ⟨0, 0⟩).Add 6).2.lastFlush = ⟨0, 0⟩ ∧
    (((Batch.mk [4] 2 5000 ⟨0, 0⟩).Add 6).1 = true ↔
      (2 : Int) ≤ (((Batch.mk [4] 2 5000 ⟨0, 0⟩).Add 6).2.entries.length : Int)) ∧
    ∃ b0, NewBatch 3 5000 ⟨0, 0⟩ = some b0 ∧
      (b0.addAll [10, 11, 12, 13, 14])[3 - 1]? = some (decide ((3 : Int) ≤ ((3 : Nat) : Int))) :=
  Batch.Add_spec (Batch.mk [4] 2 5000 ⟨0, 0⟩) 6 3 5000 ⟨0, 0⟩ [10, 11, 12, 13, 14] 3
    (by decide) (by decide) (by decide)

/-- **C3.** `Batch.Flush` is a destructive read: on every batch (of non-negative
capacity, as `NewBatch` makes them) it returns exactly the pending entries in the order
in which they were added, leaves the batch empty with its limits unchanged, and a second
`Flush` with no `Add` in between returns the empty result. -/
theorem Batch.Flush_destructive_read (b : Batch) (now : Time) (h : 0 ≤ b.maxSize) :
    ∃ b1, b.Flush now = some (b.entries, b1) ∧ b1.entries = [] ∧ (b1.Size).1 = 0 ∧
      b1.maxSize = b.maxSize ∧ b1.timeout = b.timeout ∧
      ∀ later : Time, b1.Flush later = some ([], b1) := by
  refine ⟨_, Batch.Flush_of_nonneg b now h, ?_⟩
  by_cases he : b.entries.length = 0
  · have hnil : b.entries = [] := List.length_eq_zero.mp he
    simp [he, hnil, Batch.Size, Batch.Flush]
  · simp [he, Batch.Size, Batch.Flush]

theorem Batch.Flush_destructive_read_witness :
    ∃ b1, (Batch.mk [3, 1, 2] 10 5000 ⟨0, 0⟩).Flush ⟨7, 0⟩ = some ([3, 1, 2], b1) ∧
      b1.entries = [] ∧ (b1.Size).1 = 0 ∧ b1.maxSize = 10 ∧ b1.timeout = 5000 ∧
      ∀ later : Time, b1.Flush later = some ([], b1) :=
  Batch.Flush_destructive_read (Batch.mk [3, 1, 2] 10 5000 ⟨0, 0⟩) ⟨7, 0⟩ (by decide)

theorem Since_ge_iff (now t : Time) (d : Duration) (hlo : minDuration < d)
    (hhi : d ≤ maxDuration) : d ≤ Since now t ↔ d ≤ now.unixNano - t.unixNano := by
  unfold Since Time.Sub
  simp only
  split_ifs with h1 h2
  · constructor <;> intro h <;> linarith
  · constructor <;> intro h <;> linarith
  · exact Iff.rfl

/-- For a maximum age that is an `int64` other than the smallest one, the elapsed time
of `ShouldFlush` can be read as the plain difference of the two clock readings. -/
theorem Batch.ShouldFlush_iff_difference (b : Batch) (now : Time)
    (hlo : minDuration < b.timeout) (hhi : b.timeout ≤ maxDuration) :
    (b.ShouldFlush now).1 = true ↔
      1 ≤ b.entries.length ∧ b.timeout ≤ now.unixNano - b.lastFlush.unixNano := by
  rw [← Since_ge_iff now b.lastFlush b.timeout hlo hhi]
  unfold Batch.ShouldFlush
  by_cases he : b.entries.length = 0
  · simp [he]
  · have hpos : 1 ≤ b.entries.length := Nat.one_le_iff_ne_zero.mpr he
    simp [he, hpos]

/-- **C4.** `Batch.ShouldFlush` returns true exactly when the batch holds at least one
entry and the time elapsed since the last flush, `time.Since(lastFlush)` at the clock
reading `now`, is at least the maximum age; it is false for an empty batch whatever the
elapsed time, and it leaves the batch as it was. -/
theorem Batch.ShouldFlush_spec (b : Batch) (now : Time) :
    ((b.ShouldFlush now).1 = true ↔
      1 ≤ b.entries.length ∧ b.timeout ≤ Since now b.lastFlush) ∧
    (({ b with entries := [] } : Batch).ShouldFlush now).1 = false ∧
    (b.ShouldFlush now).2 = b := by
  unfold Batch.ShouldFlush
  by_cases he : b.entries.length = 0
  · have hnil : b.entries = [] := List.length_eq_zero.mp he
    simp [hnil]
  · have hpos : 1 ≤ b.entries.length := Nat.one_le_iff_ne_zero.mpr he
    simp [he, hpos]

/-! ## Metrics -/

theorem wrapInt64_of_mem_range {x : Int} (hlo : -(2 ^ 63) ≤ x) (hhi : x < 2 ^ 63) :
    wrapInt64 x = x := by
  unfold wrapInt64
  omega

theorem wrapInt64_wrap_add (a b : Int) : wrapInt64 (wrapInt64 a + b) = wrapInt64 (a + b) := by
  unfold wrapInt64
  omega

theorem Metrics.exec_append (m : Metrics) (ops : List MetricsOp) (op : MetricsOp) :
    m.exec (ops ++ [op]) = (m.exec ops).step op := by
  simp [Metrics.exec, List.foldl_append]

theorem Metrics.step_counter_self (m : Metrics) (c : Counter) :
    (m.step (.inc c)).counter c = wrapInt64 (m.counter c + 1) := by
  cases c <;> rfl

theorem Metrics.step_counter_other (m : Metrics) (c : Counter) (op : MetricsOp)
    (h : op ≠ .inc c) : (m.step op).counter c = m.counter c := by
  cases op with
  | inc d =>
    have hd : d ≠ c := fun e => h (by rw [e])
    cases c <;> cases d <;> first | rfl | exact absurd rfl hd
  | addTotalLatency latency => cases c <;> rfl
  | incLatencyCount => cases c <;> rfl

theorem Metrics.exec_counter (ops : List MetricsOp) (c : Counter) :
    (NewMetrics.exec ops).counter c = wrapInt64 ((ops.count (MetricsOp.inc c) : Nat) : Int) := by
  induction ops using List.reverseRecOn with
  | nil =>
    have h0 : wrapInt64 0 = 0 := by unfold wrapInt64; omega
    cases c <;> simp [Metrics.exec, NewMetrics, h0, Metrics.counter]
  | append_singleton ops op ih =>
    rw [Metrics.exec_append, List.count_append, List.count_singleton]
    by_cases hop : op = .inc c
    · subst hop
      rw [Metrics.step_counter_self, ih, wrapInt64_wrap_add]
      simp
    · rw [Metrics.step_counter_other _ _ _ hop, ih]
      simp [hop]

theorem Metrics.exec_recordLatency (m : Metrics) (latency : Duration) :
    m.exec [.addTotalLatency latency, .incLatencyCount] = m.RecordLatency latency := rfl

theorem int64Div_of_ne_zero (x : Int) {y : Int} (h : y ≠ 0) :
    int64Div x y = some (wrapInt64 (Int.tdiv x y)) := by
  simp [int64Div, h]

theorem Metrics.GetAvgLatency_isSome (m : Metrics) : ∃ v, m.GetAvgLatency = some v := by
  unfold Metrics.GetAvgLatency
  by_cases h : m.latencyCount = 0
  · exact ⟨0, by simp [h]⟩
  · have hms : Millisecond ≠ 0 := by decide
    simp only [h, if_false, int64Div_of_ne_zero _ h, int64Div_of_ne_zero _ hms]
    exact ⟨_, rfl⟩

theorem Metrics.Snapshot_eq (m : Metrics) :
    ∃ avg, m.GetAvgLatency = some avg ∧
      m.Snapshot =
        some (MetricsSnapshot.mk m.TotalLogs m.SuccessLogs m.FailedLogs m.DroppedLogs avg,
          m) := by
  obtain ⟨avg, h⟩ := m.GetAvgLatency_isSome
  exact ⟨avg, h, by simp [Metrics.Snapshot, h]⟩

/-- **C5.** After any sequence of atomic instructions of `IncTotal`, `IncSuccess`,
`IncFailed`, `IncDropped` and `RecordLatency` calls on a fresh `Metrics` (every
interleaving of such calls is such a sequence), `Snapshot` returns, and reports each of
the four counters as exactly the number of calls of its own increment operation in the
sequence, provided that number is below `2^63`; `Snapshot` leaves the metrics as they
were, so a second snapshot taken right after it is equal to the first. -/
theorem Metrics.Snapshot_counts_calls (ops : List MetricsOp) (c : Counter)
    (h : ((ops.count (MetricsOp.inc c) : Nat) : Int) < 2 ^ 63) :
    ∃ s, (NewMetrics.exec ops).Snapshot = some (s, NewMetrics.exec ops) ∧
      s.get c = ((ops.count (MetricsOp.inc c) : Nat) : Int) ∧
      ((NewMetrics.exec ops).Snapshot).bind (fun r => r.2.Snapshot)
        = some (s, NewMetrics.exec ops) := by
  obtain ⟨avg, _, hs⟩ := (NewMetrics.exec ops).Snapshot_eq
  refine ⟨_, hs, ?_, by simp [hs]⟩
  have hc := Metrics.exec_counter ops c
  simp only [Metrics.counter] at hc
  have hlo : -(2 ^ 63) ≤ ((ops.count (MetricsOp.inc c) : Nat) : Int) := by
    have : (0 : Int) ≤ ((ops.count (MetricsOp.inc c) : Nat) : Int) := Int.natCast_nonneg _
    omega
  rw [wrapInt64_of_mem_range hlo h] at hc
  cases c <;> simpa [MetricsSnapshot.get] using hc

theorem Metrics.Snapshot_counts_calls_witness :
    ∃ s, (NewMetrics.exec [.inc .total, .inc .dropped, .addTotalLatency 5, .inc .total,
        .incLatencyCount]).Snapshot
        = some (s, NewMetrics.exec [.inc .total, .inc .dropped, .addTotalLatency 5,
            .inc .total, .incLatencyCount]) ∧
      s.get .total
        = ((List.count (MetricsOp.inc .total) [.inc .total, .inc .dropped,
            .addTotalLatency 5, .inc .total, .incLatencyCount] : Nat) : Int) ∧
      ((NewMetrics.exec [.inc .total, .inc .dropped, .addTotalLatency 5, .inc .total,
        .incLatencyCount]).Snapshot).bind (fun r => r.2.Snapshot)
        = some (s, NewMetrics.exec [.inc .total, .inc .dropped, .addTotalLatency 5,
            .inc .total, .incLatencyCount]) :=
  Metrics.Snapshot_counts_calls
    [.inc .total, .inc .dropped, .addTotalLatency 5, .inc .total, .incLatencyCount] .total
    (by decide)

theorem Metrics.recordAll_append (m : Metrics) (ds : List Duration) (d : Duration) :
    m.recordAll (ds ++ [d]) = (m.recordAll ds).RecordLatency d := by
  simp [Metrics.recordAll, List.foldl_append]

theorem Metrics.recordAll_latency (ds : List Duration) :
    (NewMetrics.recordAll ds).totalLatency = wrapInt64 ds.sum ∧
      (NewMetrics.recordAll ds).latencyCount = wrapInt64 (ds.length : Int) := by
  induction ds using List.reverseRecOn with
  | nil =>
    have h0 : wrapInt64 0 = 0 := by unfold wrapInt64; omega
    simp [Metrics.recordAll, NewMetrics, h0]
  | append_singleton ds d ih =>
    rw [Metrics.recordAll_append]
    simp only [Metrics.RecordLatency, Metrics.addTotalLatency, Metrics.incLatencyCount,
      atomicAddInt64, ih.1, ih.2, wrapInt64_wrap_add, List.sum_append, List.sum_cons,
      List.sum_nil, add_zero, List.length_append, List.length_singleton, Nat.cast_add,
      Nat.cast_one]
    exact ⟨trivial, trivial⟩

theorem int64Div_natCast (a b : Nat) (hb : b ≠ 0) (ha : (a : Int) < 2 ^ 63) :
    int64Div (a : Int) (b : Int) = some (((a / b : Nat) : Int)) := by
  have hb0 : (b : Int) ≠ 0 := Int.natCast_ne_zero.mpr hb
  rw [int64Div_of_ne_zero _ hb0,
    Int.tdiv_eq_ediv (Int.natCast_nonneg a) (Int.natCast_nonneg b), ← Int.natCast_div]
  have hle : ((a / b : Nat) : Int) ≤ (a : Int) := Int.ofNat_le.mpr (Nat.div_le_self a b)
  have h0 : (0 : Int) ≤ ((a / b : Nat) : Int) := Int.natCast_nonneg _
  rw [wrapInt64_of_mem_range (by omega) (by omega)]

theorem Metrics.GetAvgLatency_recordAll (ds : List Int) (hne : ds ≠ [])
    (hnonneg : ∀ d ∈ ds, 0 ≤ d) (hsum : ds.sum < 2 ^ 63) (hlen : (ds.length : Int) < 2 ^ 63) :
    (NewMetrics.recordAll ds).GetAvgLatency
      = some (ds.sum / ((ds.length : Int) * 1000000)) := by
  obtain ⟨htot, hcnt⟩ := Metrics.recordAll_latency ds
  have hs0 : 0 ≤ ds.sum := List.sum_nonneg hnonneg
  obtain ⟨a, ha⟩ := Int.eq_ofNat_of_zero_le hs0
  have hn0 : ds.length ≠ 0 := fun h => hne (List.length_eq_zero.mp h)
  have hl0 : (0 : Int) ≤ (ds.length : Int) := Int.natCast_nonneg _
  have ha0 : (0 : Int) ≤ (a : Int) := Int.natCast_nonneg _
  have hcnt1 : (NewMetrics.recordAll ds).latencyCount = (ds.length : Int) := by
    rw [hcnt]
    exact wrapInt64_of_mem_range (by omega) hlen
  have htot1 : (NewMetrics.recordAll ds).totalLatency = (a : Int) := by
    rw [htot, ha]
    exact wrapInt64_of_mem_range (by omega) (by omega)
  have hcne : ((ds.length : Nat) : Int) ≠ 0 := Int.natCast_ne_zero.mpr hn0
  have hq : ((a / ds.length : Nat) : Int) < 2 ^ 63 := by
    have h2 : ((a / ds.length : Nat) : Int) ≤ (a : Int) :=
      Int.ofNat_le.mpr (Nat.div_le_self a _)
    omega
  have hms : Millisecond = ((1000000 : Nat) : Int) := rfl
  unfold Metrics.GetAvgLatency
  simp only [hcnt1, htot1, hcne, if_false]
  rw [int64Div_natCast a ds.length hn0 (by omega)]
  simp only
  rw [hms, int64Div_natCast _ 1000000 (by decide) hq, ha, Nat.div_div_eq_div_mul,
    Int.natCast_div, Nat.cast_mul]
  rfl

/-- **C6.** `GetAvgLatency` never divides by zero (it returns a value in every state)
and is the exact mean truncated to whole milliseconds: it returns 0 when no latency has
been recorded, and after recording a non-empty sequence of non-negative durations on a
fresh `Metrics`, with the latency sum and the number of recordings within `int64`, it
returns the floor of the rational number `(d_1 + ... + d_n) / (n * 1,000,000)`, so the
two successive integer divisions of the code lose nothing; it returns 200 for
100ms, 200ms, 300ms. -/
theorem Metrics.GetAvgLatency_spec (m : Metrics) (ds : List Int) (hne : ds ≠ [])
    (hnonneg : ∀ d ∈ ds, 0 ≤ d) (hsum : ds.sum < 2 ^ 63) (hlen : (ds.length : Int) < 2 ^ 63) :
    (∃ v, m.GetAvgLatency = some v) ∧
    NewMetrics.GetAvgLatency = some 0 ∧
    (NewMetrics.recordAll ds).GetAvgLatency
      = some ⌊(ds.sum : ℚ) / ((ds.length : ℚ) * 1000000)⌋ ∧
    (NewMetrics.recordAll [100 * Millisecond, 200 * Millisecond, 300 * Millisecond]).GetAvgLatency
      = some 200 := by
  refine ⟨m.GetAvgLatency_isSome, rfl, ?_, ?_⟩
  · rw [Metrics.GetAvgLatency_recordAll ds hne hnonneg hsum hlen]
    have h := Rat.floor_intCast_div_natCast ds.sum (ds.length * 1000000)
    simp only [Nat.cast_mul, Nat.cast_ofNat] at h
    rw [h]
  · rw [Metrics.GetAvgLatency_recordAll _ (by simp) (by decide) (by decide) (by decide)]
    decide

theorem Metrics.GetAvgLatency_spec_witness :
    (∃ v, (Metrics.mk 3 2 1 0 7000000 2).GetAvgLatency = some v) ∧
    NewMetrics.GetAvgLatency = some 0 ∧
    (NewMetrics.recordAll [1500000, 2500000, 3999999]).GetAvgLatency
      = some ⌊(([1500000, 2500000, 3999999] : List Int).sum : ℚ)
          / ((([1500000, 2500000, 3999999] : List Int).length : ℚ) * 1000000)⌋ ∧
    (NewMetrics.recordAll [100 * Millisecond, 200 * Millisecond, 300 * Millisecond]).GetAvgLatency
      = some 200 :=
  Metrics.GetAvgLatency_spec (Metrics.mk 3 2 1 0 7000000 2) [1500000, 2500000, 3999999]
    (by simp) (by decide) (by decide) (by decide)

/-! ## Config -/

theorem Config.Validate_fst_eq_none_iff (c : Config) :
    (c.Validate).1 = none ↔
      c.ESAddresses ≠ [] ∧ 0 < c.BatchSize ∧ 0 < c.QueueSize ∧ 0 < c.WorkerCount := by
  unfold Config.Validate
  split_ifs with h1 h2 h3 h4
  · simp [List.length_eq_zero.mp h1]
  · simp only [reduceCtorEq, false_iff, not_and, not_lt]
    intro _ hb
    omega
  · simp_all
  · simp_all
  · have h0 : c.ESAddresses ≠ [] := fun h => h1 (by simp [h])
    simp only [true_iff]
    exact ⟨h0, by omega, by omega, by omega⟩

/-- **C7.** For every `Config`, `Validate` returns a configuration error exactly
when the address list is empty or `BatchSize ≤ 0` or `QueueSize ≤ 0` or
`WorkerCount ≤ 0`, and returns `nil` otherwise; it leaves the `Config` as it was. In
particular `DefaultConfig()` is accepted, and so is the default configuration with only
the addresses, service name, environment, batch size (positive) and batch timeout
changed, the addresses being a list of addresses as in `TestConfigCustomization`: by the
first clause a configuration with no address is rejected. -/
theorem Config.Validate_spec (c : Config) (addresses : List String)
    (serviceName environment : String) (batchSize : Int) (batchTimeout : Duration)
    (haddr : addresses ≠ []) (hsize : 0 < batchSize) :
    ((c.Validate).1 ≠ none ↔
      c.ESAddresses = [] ∨ c.BatchSize ≤ 0 ∨ c.QueueSize ≤ 0 ∨ c.WorkerCount ≤ 0) ∧
    ((c.Validate).1 = none ↔
      ¬ (c.ESAddresses = [] ∨ c.BatchSize ≤ 0 ∨ c.QueueSize ≤ 0 ∨ c.WorkerCount ≤ 0)) ∧
    (c.Validate).2 = c ∧
    (DefaultConfig.Validate).1 = none ∧
    ((customized addresses serviceName environment batchSize batchTimeout).Validate).1
      = none := by
  have hiff := c.Validate_fst_eq_none_iff
  have hneg : ¬ (c.ESAddresses = [] ∨ c.BatchSize ≤ 0 ∨ c.QueueSize ≤ 0 ∨ c.WorkerCount ≤ 0) ↔
      c.ESAddresses ≠ [] ∧ 0 < c.BatchSize ∧ 0 < c.QueueSize ∧ 0 < c.WorkerCount := by
    simp only [not_or, not_le]
  refine ⟨?_, ?_, ?_, ?_, ?_⟩
  · rw [Ne, hiff, ← hneg, not_not]
  · rw [hiff, hneg]
  · unfold Config.Validate
    split_ifs <;> rfl
  · rw [Config.Validate_fst_eq_none_iff]
    refine ⟨by decide, by decide, by decide, by decide⟩
  · rw [Config.Validate_fst_eq_none_iff]
    exact ⟨haddr, hsize, by simp [customized, DefaultConfig],
      by simp [customized, DefaultConfig]⟩

theorem Config.Validate_spec_witness :
    (((Config.mk ["http://es1:9200"] "" "" "logs-{date}" 0 5 10 1000 4 3 1 "s" "e" true true
        30 false).Validate).1 ≠ none ↔
      (["http://es1:9200"] : List String) = [] ∨ (0 : Int) ≤ 0 ∨ (1000 : Int) ≤ 0 ∨
        (4 : Int) ≤ 0) ∧
    (((Config.mk ["http://es1:9200"] "" "" "logs-{date}" 0 5 10 1000 4 3 1 "s" "e" true true
        30 false).Validate).1 = none ↔
      ¬ ((["http://es1:9200"] : List String) = [] ∨ (0 : Int) ≤ 0 ∨ (1000 : Int) ≤ 0 ∨
        (4 : Int) ≤ 0)) ∧
    ((Config.mk ["http://es1:9200"] "" "" "logs-{date}" 0 5 10 1000 4 3 1 "s" "e" true true
        30 false).Validate).2
      = Config.mk ["http://es1:9200"] "" "" "logs-{date}" 0 5 10 1000 4 3 1 "s" "e" true true
        30 false ∧
    (DefaultConfig.Validate).1 = none ∧
    ((customized ["http://es1:9200", "http://es2:9200"] "test-service" "test" 500
        (10 * Second)).Validate).1 = none :=
  Config.Validate_spec
    (Config.mk ["http://es1:9200"] "" "" "logs-{date}" 0 5 10 1000 4 3 1 "s" "e" true true
      30 false)
    ["http://es1:9200", "http://es2:9200"] "test-service" "test" 500 (10 * Second)
    (by simp) (by decide)

/-! ## LogEntry -/

theorem FieldMap.lookup_insert_eq_ite (d : FieldMap) (a : String) (b : Value) (k : String) :
    (d.insert a b).lookup k = if k = a then some b else d.lookup k := by
  by_cases h : k = a
  · subst h
    simp [AList.lookup_insert]
  · simp [h, AList.lookup_insert_ne h]

theorem FieldMap.lookup_cond_insert (d : FieldMap) (c : Prop) [Decidable c] (a : String)
    (b : Value) (k : String) :
    (if c then d.insert a b else d).lookup k
      = if k = a ∧ c then some b else d.lookup k := by
  by_cases hc : c
  · simp [hc, FieldMap.lookup_insert_eq_ite]
  · simp [hc]

/-- A `range` loop that assigns every entry of a map into `d`: the entries of the map
win over those of `d`. -/
theorem FieldMap.lookup_foldl_insert (es : List (Sigma fun _ : String => Value))
    (hnd : es.NodupKeys) (k : String) :
    ∀ d : FieldMap,
      (es.foldl (fun d kv => d.insert kv.1 kv.2) d).lookup k
        = if k ∈ es.keys then List.dlookup k es else d.lookup k := by
  induction es with
  | nil => intro d; simp
  | cons kv es ih =>
    intro d
    obtain ⟨a, b⟩ := kv
    have hnd1 : es.NodupKeys := (List.nodupKeys_cons.mp hnd).2
    have ha : a ∉ es.keys := (List.nodupKeys_cons.mp hnd).1
    rw [List.foldl_cons, ih hnd1]
    by_cases hk : k ∈ es.keys
    · have hne : k ≠ a := fun h => ha (h ▸ hk)
      simp [hk, List.dlookup_cons_ne es ⟨a, b⟩ hne]
    · by_cases hka : k = a
      · subst hka
        simp [hk, AList.lookup_insert]
      · simp [hk, hka, AList.lookup_insert_ne hka, List.dlookup_cons_ne es ⟨a, b⟩ hka]

/-- The result of the `range` loop does not depend on the order in which the entries
of the map are visited. -/
theorem FieldMap.lookup_foldl_insert_perm (es es1 : List (Sigma fun _ : String => Value))
    (hnd : es.NodupKeys) (hp : es.Perm es1) (d : FieldMap) (k : String) :
    (es.foldl (fun d kv => d.insert kv.1 kv.2) d).lookup k
      = (es1.foldl (fun d kv => d.insert kv.1 kv.2) d).lookup k := by
  have hnd1 : es1.NodupKeys := (List.perm_nodupKeys hp).mp hnd
  rw [FieldMap.lookup_foldl_insert es hnd, FieldMap.lookup_foldl_insert es1 hnd1,
    List.perm_dlookup k hnd hnd1 hp]
  have hmem : k ∈ es.keys ↔ k ∈ es1.keys := (hp.map Sigma.fst).mem_iff
  by_cases hk : k ∈ es.keys
  · rw [if_pos hk, if_pos (hmem.mp hk)]
  · rw [if_neg hk, if_neg (fun h => hk (hmem.mpr h))]

theorem LogEntry.ToJSON.data_lookup (format : Time → String → String) (h : Heap)
    (l : EntryPtr) (e : LogEntry) (fields : FieldMap) (hl : h.entries[l]? = some e)
    (hm : h.readFields e.Fields = some fields) :
    ∃ data, LogEntry.ToJSON.data format h l = some data ∧
      ∀ k : String, data.lookup k =
        if k ∈ fields then fields.lookup k
        else if k = "@timestamp" then some (Value.str (format e.Timestamp RFC3339Nano))
        else if k = "level" then some (Value.str e.Level)
        else if k = "message" then some (Value.str e.Message)
        else if k = "logger" ∧ e.Logger ≠ "" then some (Value.str e.Logger)
        else if k = "caller" ∧ e.Caller ≠ "" then some (Value.str e.Caller)
        else if k = "stack" ∧ e.Stack ≠ "" then some (Value.str e.Stack)
        else if k = "service.name" ∧ e.ServiceName ≠ "" then some (Value.str e.ServiceName)
        else if k = "environment" ∧ e.Environment ≠ "" then some (Value.str e.Environment)
        else if k = "host.name" ∧ e.HostName ≠ "" then some (Value.str e.HostName)
        else if k = "host.ip" ∧ e.IP ≠ "" then some (Value.str e.IP)
        else none := by
  unfold LogEntry.ToJSON.data
  simp only [hl, hm]
  refine ⟨_, rfl, fun k => ?_⟩
  rw [FieldMap.lookup_foldl_insert _ fields.nodupKeys]
  by_cases hk : k ∈ fields
  · have hk1 : k ∈ fields.entries.keys := hk
    rw [if_pos hk1, if_pos hk]
    rfl
  · have hk1 : k ∉ fields.entries.keys := hk
    rw [if_neg hk1, if_neg hk]
    simp only [FieldMap.lookup_cond_insert, FieldMap.lookup_insert_eq_ite, AList.lookup_empty]
    by_cases h0 : k = "@timestamp"
    · subst h0
      simp
    by_cases h1 : k = "level"
    · subst h1
      simp
    by_cases h2 : k = "message"
    · subst h2
      simp
    by_cases h3 : k = "logger"
    · subst h3
      simp
    by_cases h4 : k = "caller"
    · subst h4
      simp
    by_cases h5 : k = "stack"
    · subst h5
      simp
    by_cases h6 : k = "service.name"
    · subst h6
      simp
    by_cases h7 : k = "environment"
    · subst h7
      simp
    by_cases h8 : k = "host.name"
    · subst h8
      simp
    by_cases h9 : k = "host.ip"
    · subst h9
      simp
    simp [h0, h1, h2, h3, h4, h5, h6, h7, h8, h9]

theorem LogEntry.ToJSON_eq (format : Time → String → String)
    (marshal : FieldMap → Except String String) (h : Heap) (l : EntryPtr) (data : FieldMap)
    (hd : LogEntry.ToJSON.data format h l = some data) :
    LogEntry.ToJSON format marshal h l = some (marshal data) := by
  simp [LogEntry.ToJSON, hd]

/-- **C8.** For every `LogEntry` and every key `k` of its field map, `ToJSON` builds a
document, and the document maps `k` to the value the field map gives it, also when `k`
is a fixed key such as `level`, `message`, `@timestamp` or `service.name`: the custom
value overwrites the fixed one. -/
theorem LogEntry.ToJSON_custom_field_wins (format : Time → String → String)
    (marshal : FieldMap → Except String String) (h : Heap) (l : EntryPtr) (e : LogEntry)
    (r : MapRef) (fields : FieldMap) (k : String) (v : Value)
    (hl : h.entries[l]? = some e) (hf : e.Fields = some r) (hr : h.maps[r]? = some fields)
    (hk : fields.lookup k = some v) :
    ∃ data, LogEntry.ToJSON.data format h l = some data ∧
      LogEntry.ToJSON format marshal h l = some (marshal data) ∧
      data.lookup k = some v := by
  have hm : h.readFields e.Fields = some fields := by rw [hf]; exact hr
  obtain ⟨data, hd, hlook⟩ := LogEntry.ToJSON.data_lookup format h l e fields hl hm
  refine ⟨data, hd, LogEntry.ToJSON_eq format marshal h l data hd, ?_⟩
  have hmem : k ∈ fields := AList.lookup_isSome.mp (by rw [hk]; rfl)
  rw [hlook k, if_pos hmem, hk]

theorem LogEntry.ToJSON_custom_field_wins_witness :
    ∃ data, LogEntry.ToJSON.data sampleFormat sampleHeap 0 = some data ∧
      LogEntry.ToJSON sampleFormat sampleMarshal sampleHeap 0 = some (sampleMarshal data) ∧
      data.lookup "level" = some (Value.str "custom") :=
  LogEntry.ToJSON_custom_field_wins sampleFormat sampleMarshal sampleHeap 0 sampleEntry 0
    sampleFields "level" (Value.str "custom") rfl rfl rfl
    (by simp [sampleFields, AList.lookup_insert])

/-- **C9.** For every `LogEntry`, also one with a nil field map, `ToJSON` builds a
document whose key set is exactly `@timestamp`, `level`, `message`, those of `logger`,
`caller`, `stack`, `service.name`, `environment`, `host.name`, `host.ip` whose entry
field is not empty, and the keys of the field map; every key that is not in the field
map carries the value of the entry itself (`@timestamp` the `time.RFC3339Nano` rendering
of the timestamp); and the field map is flattened at top level: each of its keys is a
key of the document, with the value the field map gives it, and the document has a key
`fields` only when the field map has one. The field map `fields` is the one the heap
holds for the entry: the empty one when `Fields` is nil, the map at the address `Fields`
holds otherwise. -/
theorem LogEntry.ToJSON_key_set (format : Time → String → String)
    (marshal : FieldMap → Except String String) (h : Heap) (l : EntryPtr) (e : LogEntry)
    (fields : FieldMap) (hl : h.entries[l]? = some e)
    (hm : (e.Fields = none ∧ fields = ∅) ∨
      ∃ r : MapRef, e.Fields = some r ∧ h.maps[r]? = some fields) :
    ∃ data, LogEntry.ToJSON.data format h l = some data ∧
      LogEntry.ToJSON format marshal h l = some (marshal data) ∧
      (∀ k : String, k ∈ data ↔
        k = "@timestamp" ∨ k = "level" ∨ k = "message" ∨
        (k = "logger" ∧ e.Logger ≠ "") ∨ (k = "caller" ∧ e.Caller ≠ "") ∨
        (k = "stack" ∧ e.Stack ≠ "") ∨ (k = "service.name" ∧ e.ServiceName ≠ "") ∨
        (k = "environment" ∧ e.Environment ≠ "") ∨
        (k = "host.name" ∧ e.HostName ≠ "") ∨
        (k = "host.ip" ∧ e.IP ≠ "") ∨ k ∈ fields) ∧
      (∀ k : String, k ∉ fields → data.lookup k =
        if k = "@timestamp" then some (Value.str (format e.Timestamp RFC3339Nano))
        else if k = "level" then some (Value.str e.Level)
        else if k = "message" then some (Value.str e.Message)
        else if k = "logger" ∧ e.Logger ≠ "" then some (Value.str e.Logger)
        else if k = "caller" ∧ e.Caller ≠ "" then some (Value.str e.Caller)
        else if k = "stack" ∧ e.Stack ≠ "" then some (Value.str e.Stack)
        else if k = "service.name" ∧ e.ServiceName ≠ "" then
          some (Value.str e.ServiceName)
        else if k = "environment" ∧ e.Environment ≠ "" then
          some (Value.str e.Environment)
        else if k = "host.name" ∧ e.HostName ≠ "" then some (Value.str e.HostName)
        else if k = "host.ip" ∧ e.IP ≠ "" then some (Value.str e.IP)
        else none) ∧
      (∀ k : String, k ∈ fields → data.lookup k = fields.lookup k) ∧
      ("fields" ∈ data ↔ "fields" ∈ fields) := by
  have hread : h.readFields e.Fields = some fields := by
    rcases hm with ⟨hnil, hempty⟩ | ⟨r, hr, hmap⟩
    · rw [hnil, hempty]
      rfl
    · rw [hr]
      exact hmap
  obtain ⟨data, hd, hlook⟩ := LogEntry.ToJSON.data_lookup format h l e fields hl hread
  have hkeys : ∀ k : String, k ∈ data ↔
      k = "@timestamp" ∨ k = "level" ∨ k = "message" ∨
      (k = "logger" ∧ e.Logger ≠ "") ∨ (k = "caller" ∧ e.Caller ≠ "") ∨
      (k = "stack" ∧ e.Stack ≠ "") ∨ (k = "service.name" ∧ e.ServiceName ≠ "") ∨
      (k = "environment" ∧ e.Environment ≠ "") ∨ (k = "host.name" ∧ e.HostName ≠ "") ∨
      (k = "host.ip" ∧ e.IP ≠ "") ∨ k ∈ fields := by
    intro k
    rw [← AList.lookup_isSome, hlook k]
    by_cases hk : k ∈ fields
    · simp [hk, AList.lookup_isSome.mpr hk]
    · rw [if_neg hk]
      by_cases h0 : k = "@timestamp"
      · subst h0
        simp [hk]
      by_cases h1 : k = "level"
      · subst h1
        simp [hk]
      by_cases h2 : k = "message"
      · subst h2
        simp [hk]
      by_cases h3 : k = "logger"
      · subst h3
        simp [hk]
      by_cases h4 : k = "caller"
      · subst h4
        simp [hk]
      by_cases h5 : k = "stack"
      · subst h5
        simp [hk]
      by_cases h6 : k = "service.name"
      · subst h6
        simp [hk]
      by_cases h7 : k = "environment"
      · subst h7
        simp [hk]
      by_cases h8 : k = "host.name"
      · subst h8
        simp [hk]
      by_cases h9 : k = "host.ip"
      · subst h9
        simp [hk]
      simp [h0, h1, h2, h3, h4, h5, h6, h7, h8, h9, hk]
  refine ⟨data, hd, LogEntry.ToJSON_eq format marshal h l data hd, hkeys, ?_, ?_, ?_⟩
  · intro k hk
    rw [hlook k, if_neg hk]
  · intro k hk
    rw [hlook k, if_pos hk]
  · rw [hkeys "fields"]
    simp

theorem LogEntry.ToJSON_key_set_witness :
    (sampleHeap.entries[0]? = some sampleEntry ∧ sampleEntry.Fields = some 0 ∧
      sampleHeap.maps[0]? = some sampleFields ∧ sampleEntry.Logger = "test-logger" ∧
      sampleFields.lookup "user_id" = some (Value.int 123)) ∧
    (∃ data, LogEntry.ToJSON.data sampleFormat sampleHeap 0 = some data ∧
      LogEntry.ToJSON sampleFormat sampleMarshal sampleHeap 0 = some (sampleMarshal data) ∧
      (∀ k : String, k ∈ data ↔
        k = "@timestamp" ∨ k = "level" ∨ k = "message" ∨
        (k = "logger" ∧ sampleEntry.Logger ≠ "") ∨ (k = "caller" ∧ sampleEntry.Caller ≠ "") ∨
        (k = "stack" ∧ sampleEntry.Stack ≠ "") ∨ (k = "service.name" ∧ sampleEntry.ServiceName ≠ "") ∨
        (k = "environment" ∧ sampleEntry.Environment ≠ "") ∨
        (k = "host.name" ∧ sampleEntry.HostName ≠ "") ∨
        (k = "host.ip" ∧ sampleEntry.IP ≠ "") ∨ k ∈ sampleFields) ∧
      (∀ k : String, k ∉ sampleFields → data.lookup k =
        if k = "@timestamp" then some (Value.str (sampleFormat sampleEntry.Timestamp RFC3339Nano))
        else if k = "level" then some (Value.str sampleEntry.Level)
        else if k = "message" then some (Value.str sampleEntry.Message)
        else if k = "logger" ∧ sampleEntry.Logger ≠ "" then some (Value.str sampleEntry.Logger)
        else if k = "caller" ∧ sampleEntry.Caller ≠ "" then some (Value.str sampleEntry.Caller)
        else if k = "stack" ∧ sampleEntry.Stack ≠ "" then some (Value.str sampleEntry.Stack)
        else if k = "service.name" ∧ sampleEntry.ServiceName ≠ "" then
          some (Value.str sampleEntry.ServiceName)
        else if k = "environment" ∧ sampleEntry.Environment ≠ "" then
          some (Value.str sampleEntry.Environment)
        else if k = "host.name" ∧ sampleEntry.HostName ≠ "" then some (Value.str sampleEntry.HostName)
        else if k = "host.ip" ∧ sampleEntry.IP ≠ "" then some (Value.str sampleEntry.IP)
        else none) ∧
      (∀ k : String, k ∈ sampleFields → data.lookup k = sampleFields.lookup k) ∧
      ("fields" ∈ data ↔ "fields" ∈ sampleFields)) :=
  ⟨⟨rfl, rfl, rfl, rfl, rfl⟩,
    LogEntry.ToJSON_key_set sampleFormat sampleMarshal sampleHeap 0 sampleEntry sampleFields
      rfl (Or.inr ⟨0, rfl, rfl⟩)⟩

/-- The document of the sample entry, which has a logger, a service name, an environment
and a field map with the keys `user_id` and `level`: the keys of the field map are keys
of the document, `level` with the value of the field map; the optional keys are there
exactly for the fields that are not empty; there is no key `fields`. -/
theorem LogEntry.ToJSON_sample_document :
    ∃ data, LogEntry.ToJSON.data sampleFormat sampleHeap 0 = some data ∧
      data.lookup "user_id" = some (Value.int 123) ∧
      data.lookup "level" = some (Value.str "custom") ∧
      data.lookup "message" = some (Value.str "test message") ∧
      data.lookup "@timestamp" = some (Value.str "1970-01-01T00:00:00Z") ∧
      data.lookup "logger" = some (Value.str "test-logger") ∧
      data.lookup "service.name" = some (Value.str "test-service") ∧
      data.lookup "environment" = some (Value.str "test") ∧
      data.lookup "caller" = none ∧ data.lookup "stack" = none ∧
      data.lookup "host.name" = none ∧ data.lookup "host.ip" = none ∧
      data.lookup "fields" = none := by
  obtain ⟨data, hd, hlook⟩ :=
    LogEntry.ToJSON.data_lookup sampleFormat sampleHeap 0 sampleEntry sampleFields rfl rfl
  have hmem : ∀ k : String, k ∈ sampleFields ↔ k = "level" ∨ k = "user_id" := by
    intro k
    have hkeys : sampleFields.keys = ["level", "user_id"] := rfl
    rw [AList.mem_keys, hkeys]
    simp
  have huser : sampleFields.lookup "user_id" = some (Value.int 123) := rfl
  have hlevel : sampleFields.lookup "level" = some (Value.str "custom") := rfl
  refine ⟨data, hd, ?_, ?_, ?_, ?_, ?_, ?_, ?_, ?_, ?_, ?_, ?_, ?_⟩ <;>
    rw [hlook] <;>
    simp [hmem, huser, hlevel, sampleEntry, sampleFormat]

/-- The document of the sample entry with a nil field map and no optional field: its keys
are `@timestamp`, `level` and `message`, and no other. -/
theorem LogEntry.ToJSON_plain_document :
    ∃ data, LogEntry.ToJSON.data sampleFormat sampleHeap 1 = some data ∧
      ∀ k : String, k ∈ data ↔ k = "@timestamp" ∨ k = "level" ∨ k = "message" := by
  obtain ⟨data, hd, hlook⟩ :=
    LogEntry.ToJSON.data_lookup sampleFormat sampleHeap 1 plainEntry ∅ rfl rfl
  refine ⟨data, hd, ?_⟩
  intro k
  rw [← AList.lookup_isSome, hlook k]
  by_cases h0 : k = "@timestamp"
  · simp [h0]
  by_cases h1 : k = "level"
  · simp [h1]
  by_cases h2 : k = "message"
  · simp [h2]
  simp [h0, h1, h2, plainEntry]

/-! ### Clone -/

theorem Heap.mapAssign_fresh (es : List LogEntry) (ms : List FieldMap) (m : FieldMap)
    (k : String) (v : Value) :
    (Heap.mk es (ms ++ [m])).mapAssign (some ms.length) k v
      = some (Heap.mk es (ms ++ [m.insert k v])) := by
  simp [Heap.mapAssign]

/-- The copy loop of `Clone` fills the map it has just allocated and touches nothing
else. -/
theorem Heap.foldlM_mapAssign_fresh (es : List LogEntry) (ms : List FieldMap)
    (kvs : List (Sigma fun _ : String => Value)) :
    ∀ m : FieldMap,
      kvs.foldlM (fun hh kv => hh.mapAssign (some ms.length) kv.1 kv.2)
          (Heap.mk es (ms ++ [m]))
        = some (Heap.mk es (ms ++ [kvs.foldl (fun d kv => d.insert kv.1 kv.2) m])) := by
  induction kvs with
  | nil => intro m; rfl
  | cons kv kvs ih =>
    intro m
    rw [List.foldlM_cons, Heap.mapAssign_fresh]
    exact ih _

theorem LogEntry.Clone_nil_fields (h : Heap) (l : EntryPtr) (e : LogEntry)
    (hl : h.entries[l]? = some e) (hf : e.Fields = none) :
    LogEntry.Clone h l = some (h.entries.length, Heap.mk (h.entries ++ [e]) h.maps) := by
  simp [LogEntry.Clone, hl, hf, Heap.allocEntry]

theorem LogEntry.Clone_some_fields (h : Heap) (l : EntryPtr) (e : LogEntry) (r : MapRef)
    (fields : FieldMap) (hl : h.entries[l]? = some e) (hf : e.Fields = some r)
    (hr : h.maps[r]? = some fields) :
    LogEntry.Clone h l
      = some (h.entries.length,
          Heap.mk (h.entries ++ [{ e with Fields := some h.maps.length }])
            (h.maps ++ [fields.entries.foldl (fun d kv => d.insert kv.1 kv.2) ∅])) := by
  have hloop := Heap.foldlM_mapAssign_fresh h.entries h.maps fields.entries ∅
  simp only [LogEntry.Clone, hl, hf, hr, Heap.allocMap, Heap.allocEntry]
  rw [hloop]

/-- The map built by the copy loop holds the pairs of the map it copies. -/
theorem FieldMap.foldl_insert_empty (fields : FieldMap) :
    (∀ k : String,
      (fields.entries.foldl (fun d kv => d.insert kv.1 kv.2) (∅ : FieldMap)).lookup k
        = fields.lookup k) ∧
    (fields.entries.foldl (fun d kv => d.insert kv.1 kv.2) (∅ : FieldMap)).entries.Perm
      fields.entries := by
  have hlook : ∀ k : String,
      (fields.entries.foldl (fun d kv => d.insert kv.1 kv.2) (∅ : FieldMap)).lookup k
        = fields.lookup k := by
    intro k
    rw [FieldMap.lookup_foldl_insert _ fields.nodupKeys]
    by_cases hk : k ∈ fields.entries.keys
    · rw [if_pos hk]; rfl
    · rw [if_neg hk, AList.lookup_empty]
      exact (AList.lookup_eq_none.mpr hk).symm
  refine ⟨hlook, List.lookup_ext (AList.nodupKeys _) fields.nodupKeys ?_⟩
  intro x y
  have := hlook x
  simp only [AList.lookup] at this
  rw [this]

theorem Heap.Separated.view {hh : Heap} {l q : EntryPtr} {e : LogEntry}
    {fm : Option FieldMap} {cf : Option MapRef} (hs : hh.Separated l q e fm cf) :
    hh.view l = some (e, fm) := by
  obtain ⟨hl, hm, hnil, _, _⟩ := hs
  unfold Heap.view
  rw [hl]
  cases hf : e.Fields with
  | none =>
    have hfm : fm = none := hnil.mp hf
    simp [hf, hfm]
  | some r =>
    cases hfm : fm with
    | none => exact absurd (hnil.mpr hfm) (by simp [hf])
    | some m =>
      rw [hf, hfm] at hm
      simp only [Heap.readFields, Option.getD_some] at hm
      simp [hf, hm]

theorem Heap.Separated.mutate {hh hh1 : Heap} {l q : EntryPtr} {e : LogEntry}
    {fm : Option FieldMap} {cf : Option MapRef} (hlq : q ≠ l)
    (hs : hh.Separated l q e fm cf) (stmt : Mutation) (hm : hh.mutate q stmt = some hh1) :
    hh1.Separated l q e fm cf := by
  obtain ⟨hl, hread, hnil, ⟨c, hq, hcf⟩, hsep⟩ := hs
  have hqlt : q < hh.entries.length := (List.getElem?_eq_some_iff.mp hq).1
  cases stmt with
  | setMessage s =>
    simp only [Heap.mutate, hq, Option.some.injEq] at hm
    subst hm
    refine ⟨?_, hread, hnil, ⟨{ c with Message := s }, ?_, hcf⟩, hsep⟩
    · simpa [List.getElem?_set_ne hlq] using hl
    · simp [List.getElem?_set_self hqlt]
  | setServiceName s =>
    simp only [Heap.mutate, hq, Option.some.injEq] at hm
    subst hm
    refine ⟨?_, hread, hnil, ⟨{ c with ServiceName := s }, ?_, hcf⟩, hsep⟩
    · simpa [List.getElem?_set_ne hlq] using hl
    · simp [List.getElem?_set_self hqlt]
  | setField k v =>
    simp only [Heap.mutate, hq, hcf] at hm
    cases cf with
    | none => simp [Heap.mapAssign] at hm
    | some r1 =>
      cases hr1 : hh.maps[r1]? with
      | none => simp [Heap.mapAssign, hr1] at hm
      | some contents =>
        simp only [Heap.mapAssign, hr1, Option.some.injEq] at hm
        subst hm
        refine ⟨hl, ?_, hnil, ⟨c, hq, hcf⟩, hsep⟩
        cases hf : e.Fields with
        | none => simpa [hf, Heap.readFields] using hread
        | some r =>
          have hne : r1 ≠ r := fun h => hsep r1 rfl (by rw [hf, h])
          rw [hf] at hread
          simpa [Heap.readFields, List.getElem?_set_ne hne] using hread
  | deleteField k =>
    simp only [Heap.mutate, hq, hcf] at hm
    cases cf with
    | none =>
      simp only [Heap.mapDelete, Option.some.injEq] at hm
      subst hm
      exact ⟨hl, hread, hnil, ⟨c, hq, hcf⟩, hsep⟩
    | some r1 =>
      cases hr1 : hh.maps[r1]? with
      | none => simp [Heap.mapDelete, hr1] at hm
      | some contents =>
        simp only [Heap.mapDelete, hr1, Option.some.injEq] at hm
        subst hm
        refine ⟨hl, ?_, hnil, ⟨c, hq, hcf⟩, hsep⟩
        cases hf : e.Fields with
        | none => simpa [hf, Heap.readFields] using hread
        | some r =>
          have hne : r1 ≠ r := fun h => hsep r1 rfl (by rw [hf, h])
          rw [hf] at hread
          simpa [Heap.readFields, List.getElem?_set_ne hne] using hread

theorem Heap.Separated.mutateAll {l q : EntryPtr} {e : LogEntry} {fm : Option FieldMap}
    {cf : Option MapRef} (hlq : q ≠ l) (stmts : List Mutation) :
    ∀ hh hh1 : Heap, hh.Separated l q e fm cf → hh.mutateAll q stmts = some hh1 →
      hh1.Separated l q e fm cf := by
  induction stmts with
  | nil =>
    intro hh hh1 hs hm
    simp only [Heap.mutateAll, List.foldlM_nil] at hm
    cases hm
    exact hs
  | cons stmt stmts ih =>
    intro hh hh1 hs hm
    simp only [Heap.mutateAll, List.foldlM_cons] at hm
    cases hstep : hh.mutate q stmt with
    | none => simp [hstep] at hm
    | some hh2 =>
      rw [hstep] at hm
      exact ih hh2 hh1 (hs.mutate hlq stmt hstep) hm

theorem Heap.view_eq_some {h : Heap} {l : EntryPtr} {e : LogEntry} {fm : Option FieldMap}
    (hv : h.view l = some (e, fm)) :
    h.entries[l]? = some e ∧
      ((e.Fields = none ∧ fm = none) ∨
        ∃ r m, e.Fields = some r ∧ h.maps[r]? = some m ∧ fm = some m) := by
  unfold Heap.view at hv
  cases hl : h.entries[l]? with
  | none => simp [hl] at hv
  | some e1 =>
    rw [hl] at hv
    cases hf : e1.Fields with
    | none =>
      simp only [hf, Option.some.injEq, Prod.mk.injEq] at hv
      obtain ⟨rfl, rfl⟩ := hv
      exact ⟨rfl, Or.inl ⟨hf, rfl⟩⟩
    | some r =>
      cases hr : h.maps[r]? with
      | none => simp [hf, hr] at hv
      | some m =>
        simp only [hf, hr, Option.some.injEq, Prod.mk.injEq] at hv
        obtain ⟨rfl, rfl⟩ := hv
        exact ⟨rfl, Or.inr ⟨r, m, hf, hr, rfl⟩⟩

theorem List.getElem?_append_of_eq_some {α : Type} {xs : List α} {i : Nat} {x : α} (ys : List α)
    (h : xs[i]? = some x) : (xs ++ ys)[i]? = some x := by
  have hi : i < xs.length := (List.getElem?_eq_some_iff.mp h).1
  rw [List.getElem?_append_left hi]
  exact h

/-- **C10.** For every `LogEntry` `e`, `e.Clone()` returns a new pointer to an entry that
equals `e` in every scalar field and whose field map holds exactly the key/value pairs of
the field map of `e` (nil stays nil, and a non-nil map is another map object); `Clone`
leaves `e` as it was; and afterwards no sequence of assignments to the `Message` or
`ServiceName` of the clone, or of insertions, overwrites and deletions of keys in the
field map of the clone, changes the fields or the field map of `e`. Each such statement
runs, except an insertion into a nil field map, which panics. -/
theorem LogEntry.Clone_spec (h : Heap) (l : EntryPtr) (e : LogEntry) (fm : Option FieldMap)
    (hv : h.view l = some (e, fm)) :
    ∃ q h1 c cm, LogEntry.Clone h l = some (q, h1) ∧ q ≠ l ∧
      h1.view l = some (e, fm) ∧ h1.view q = some (c, cm) ∧
      { c with Fields := e.Fields } = e ∧
      (e.Fields = none ↔ c.Fields = none) ∧
      (c.Fields = none ∨ c.Fields ≠ e.Fields) ∧
      ((fm = none ∧ cm = none) ∨
        ∃ m cmap, fm = some m ∧ cm = some cmap ∧ cmap.entries.Perm m.entries ∧
          ∀ k : String, cmap.lookup k = m.lookup k) ∧
      (∀ (stmts : List Mutation) (h2 : Heap),
        h1.mutateAll q stmts = some h2 → h2.view l = some (e, fm)) ∧
      (∀ s : String, (h1.mutate q (.setMessage s)).isSome = true ∧
        (h1.mutate q (.setServiceName s)).isSome = true) ∧
      (∀ k : String, (h1.mutate q (.deleteField k)).isSome = true) ∧
      (∀ (k : String) (v : Value),
        (h1.mutate q (.setField k v)).isSome = true ↔ e.Fields ≠ none) := by
  obtain ⟨hl, hcase⟩ := Heap.view_eq_some hv
  have hlt : l < h.entries.length := (List.getElem?_eq_some_iff.mp hl).1
  have hql : h.entries.length ≠ l := Nat.ne_of_gt hlt
  rcases hcase with ⟨hf, rfl⟩ | ⟨r, m, hf, hr, rfl⟩
  · have hsep : (Heap.mk (h.entries ++ [e]) h.maps).Separated l h.entries.length e none none :=
      ⟨List.getElem?_append_of_eq_some _ hl, by simp [hf, Heap.readFields], by simp [hf],
        ⟨e, by simp, hf⟩, by simp⟩
    have hq : (Heap.mk (h.entries ++ [e]) h.maps).entries[h.entries.length]? = some e := by
      simp
    refine ⟨h.entries.length, Heap.mk (h.entries ++ [e]) h.maps, e, none,
      LogEntry.Clone_nil_fields h l e hl hf, hql, hsep.view, ?_, ?_, ?_, Or.inl hf,
      Or.inl ⟨rfl, rfl⟩, ?_, ?_, ?_, ?_⟩
    · simp [Heap.view, hf]
    · cases e; simp_all
    · simp [hf]
    · intro stmts h2 hm
      exact (Heap.Separated.mutateAll hql stmts _ h2 hsep hm).view
    · intro s
      simp only [Heap.mutate, hq, Option.isSome_some, and_self]
    · intro k
      simp only [Heap.mutate, hq, hf, Heap.mapDelete, Option.isSome_some]
    · intro k v
      simp only [Heap.mutate, hq, hf, Heap.mapAssign, Option.isSome_none, ne_eq,
        not_true_eq_false]
      simp
  · have hrlt : r < h.maps.length := (List.getElem?_eq_some_iff.mp hr).1
    obtain ⟨hlook, hperm⟩ := FieldMap.foldl_insert_empty m
    have hc : (h.entries ++ [{ e with Fields := some h.maps.length }])[h.entries.length]?
        = some { e with Fields := some h.maps.length } := by simp
    have hmap : (h.maps ++ [m.entries.foldl (fun d kv => d.insert kv.1 kv.2) ∅])[h.maps.length]?
        = some (m.entries.foldl (fun d kv => d.insert kv.1 kv.2) ∅) := by simp
    have hsep :
        (Heap.mk (h.entries ++ [{ e with Fields := some h.maps.length }])
          (h.maps ++ [m.entries.foldl (fun d kv => d.insert kv.1 kv.2) ∅])).Separated
          l h.entries.length e (some m) (some h.maps.length) := by
      refine ⟨List.getElem?_append_of_eq_some _ hl, ?_, by simp [hf], ⟨_, hc, rfl⟩, ?_⟩
      · rw [hf]
        exact List.getElem?_append_of_eq_some _ hr
      · intro r1 hr1 hfr
        rw [hf] at hfr
        have h1 : h.maps.length = r1 := Option.some.inj hr1
        have h2 : r = r1 := Option.some.inj hfr
        rw [h2, ← h1] at hrlt
        exact Nat.lt_irrefl _ hrlt
    refine ⟨h.entries.length, _, { e with Fields := some h.maps.length }, _,
      LogEntry.Clone_some_fields h l e r m hl hf hr, hql, hsep.view, ?_, ?_, ?_, Or.inr ?_,
      Or.inr ⟨m, _, rfl, rfl, hperm, hlook⟩, ?_, ?_, ?_, ?_⟩
    · simp only [Heap.view, hc, hmap]
    · cases e; simp_all
    · simp [hf]
    · rw [hf]
      intro hEq
      have h1 : h.maps.length = r := Option.some.inj hEq
      rw [← h1] at hrlt
      exact Nat.lt_irrefl _ hrlt
    · intro stmts h2 hm
      exact (Heap.Separated.mutateAll hql stmts _ h2 hsep hm).view
    · intro s
      simp only [Heap.mutate, hc, Option.isSome_some, and_self]
    · intro k
      simp only [Heap.mutate, hc, Heap.mapDelete, hmap, Option.isSome_some]
    · intro k v
      simp only [Heap.mutate, hc, Heap.mapAssign, hmap, Option.isSome_some, hf]
      simp

theorem LogEntry.Clone_spec_witness :
    ∃ q h1 c cm, LogEntry.Clone sampleHeap 0 = some (q, h1) ∧ q ≠ 0 ∧
      h1.view 0 = some (sampleEntry, some sampleFields) ∧ h1.view q = some (c, cm) ∧
      { c with Fields := sampleEntry.Fields } = sampleEntry ∧
      (sampleEntry.Fields = none ↔ c.Fields = none) ∧
      (c.Fields = none ∨ c.Fields ≠ sampleEntry.Fields) ∧
      ((some sampleFields = none ∧ cm = none) ∨
        ∃ m cmap, some sampleFields = some m ∧ cm = some cmap ∧ cmap.entries.Perm m.entries ∧
          ∀ k : String, cmap.lookup k = m.lookup k) ∧
      (∀ (stmts : List Mutation) (h2 : Heap),
        h1.mutateAll q stmts = some h2 → h2.view 0 = some (sampleEntry, some sampleFields)) ∧
      (∀ s : String, (h1.mutate q (.setMessage s)).isSome = true ∧
        (h1.mutate q (.setServiceName s)).isSome = true) ∧
      (∀ k : String, (h1.mutate q (.deleteField k)).isSome = true) ∧
      (∀ (k : String) (v : Value),
        (h1.mutate q (.setField k v)).isSome = true ↔ sampleEntry.Fields ≠ none) :=
  LogEntry.Clone_spec sampleHeap 0 sampleEntry (some sampleFields) rfl

/-- The scenario of `TestLogEntryClone`, evaluated: the clone is mutated, the original
is as before. -/
theorem LogEntry.Clone_then_mutate_sample :
    ∃ q h1 h2 c cm, LogEntry.Clone sampleHeap 0 = some (q, h1) ∧
      h1.mutateAll q
          [.setMessage "cloned message", .setServiceName "cloned-service",
            .setField "level" (Value.str "modified"), .deleteField "user_id"]
        = some h2 ∧
      h2.view 0 = some (sampleEntry, some sampleFields) ∧
      h2.view q = some (c, some cm) ∧ c.Message = "cloned message" ∧
      c.ServiceName = "cloned-service" ∧
      cm.lookup "level" = some (Value.str "modified") ∧ cm.lookup "user_id" = none :=
  ⟨2, _, _, _, _, rfl, rfl, rfl, rfl, rfl, rfl, rfl, rfl⟩

/-! ## Sender: index names -/

theorem startsWith_iff (p : List Char) : ∀ s : List Char,
    startsWith p s = true ↔ ∃ r, s = p ++ r := by
  induction p with
  | nil => intro s; simp [startsWith]
  | cons a p ih =>
    intro s
    cases s with
    | nil => simp [startsWith]
    | cons b s =>
      simp only [startsWith, Bool.and_eq_true, beq_iff_eq, ih, List.cons_append,
        List.cons.injEq]
      constructor
      · rintro ⟨rfl, r, rfl⟩
        exact ⟨r, rfl, rfl⟩
      · rintro ⟨r, rfl, rfl⟩
        exact ⟨rfl, r, rfl⟩

theorem startsWith_append (p r : List Char) : startsWith p (p ++ r) = true :=
  (startsWith_iff p (p ++ r)).mpr ⟨r, rfl⟩

theorem startsWith_cons_ne (tl : List Char) {a c : Char} (cs : List Char) (h : c ≠ a) :
    startsWith (a :: tl) (c :: cs) = false := by
  have hac : (a == c) = false := by simpa using fun e : a = c => h e.symm
  simp [startsWith, hac]

theorem replaceAllAux_skip (old new : List Char) (xs ys : List Char) :
    replaceAllAux old new xs.length (xs ++ ys) = replaceAllAux old new 0 ys := by
  induction xs with
  | nil => rfl
  | cons x xs ih => simpa [replaceAllAux] using ih

theorem replaceAllAux_match (old new s : List Char) (h : old ≠ []) :
    replaceAllAux old new 0 (old ++ s) = new ++ replaceAllAux old new 0 s := by
  cases old with
  | nil => exact absurd rfl h
  | cons o os =>
    have hp : startsWith (o :: os) (o :: (os ++ s)) = true := startsWith_append (o :: os) s
    show replaceAllAux (o :: os) new 0 (o :: (os ++ s)) = _
    rw [replaceAllAux, if_pos hp, List.length_cons, Nat.add_sub_cancel, replaceAllAux_skip]

theorem replaceAllAux_copy (old new : List Char) (c : Char) (cs : List Char)
    (h : startsWith old (c :: cs) = false) :
    replaceAllAux old new 0 (c :: cs) = c :: replaceAllAux old new 0 cs := by
  simp [replaceAllAux, h]

theorem substituteAux_skip (subs : List (List Char × List Char)) (xs ys : List Char) :
    substituteAux subs xs.length (xs ++ ys) = substituteAux subs 0 ys := by
  induction xs with
  | nil => rfl
  | cons x xs ih => simpa [substituteAux] using ih

theorem substituteAux_match (subs : List (List Char × List Char)) (tok rep s : List Char)
    (hne : tok ≠ [])
    (hfind : subs.find? (fun p => startsWith p.1 (tok ++ s)) = some (tok, rep)) :
    substituteAux subs 0 (tok ++ s) = rep ++ substituteAux subs 0 s := by
  cases tok with
  | nil => exact absurd rfl hne
  | cons o os =>
    rw [List.cons_append] at hfind ⊢
    simp only [substituteAux, hfind, List.length_cons, Nat.add_sub_cancel,
      substituteAux_skip]

theorem substituteAux_copy (subs : List (List Char × List Char)) (c : Char) (cs : List Char)
    (hfind : subs.find? (fun p => startsWith p.1 (c :: cs)) = none) :
    substituteAux subs 0 (c :: cs) = c :: substituteAux subs 0 cs := by
  simp only [substituteAux, hfind]

theorem substituteAux_nil_subs (s : List Char) : substituteAux [] 0 s = s := by
  induction s with
  | nil => rfl
  | cons c cs ih => rw [substituteAux_copy [] c cs rfl, ih]

/-- `ReplaceAll` copies a text in which its token cannot start. -/
theorem replaceAllAux_pass (tl new : List Char) (xs ys : List Char)
    (hx : ∀ c ∈ xs, c ≠ '{') :
    replaceAllAux ('{' :: tl) new 0 (xs ++ ys) = xs ++ replaceAllAux ('{' :: tl) new 0 ys := by
  induction xs with
  | nil => rfl
  | cons x xs ih =>
    have hx0 : x ≠ '{' := hx x (List.mem_cons_self x xs)
    rw [List.cons_append, replaceAllAux_copy _ _ _ _ (startsWith_cons_ne tl _ hx0),
      ih (fun c hc => hx c (List.mem_cons_of_mem x hc)), List.cons_append]

theorem find?_startsWith_eq_none (subs : List (List Char × List Char)) (c : Char)
    (cs : List Char) (hT : ∀ p ∈ subs, ∃ tl, p.1 = '{' :: tl) (hc : c ≠ '{') :
    subs.find? (fun p => startsWith p.1 (c :: cs)) = none := by
  rw [List.find?_eq_none]
  intro p hp
  obtain ⟨tl, htl⟩ := hT p hp
  rw [htl, startsWith_cons_ne tl cs hc]
  simp

/-- The single pass copies a text in which no token can start. -/
theorem substituteAux_pass (subs : List (List Char × List Char)) (xs ys : List Char)
    (hT : ∀ p ∈ subs, ∃ tl, p.1 = '{' :: tl) (hx : ∀ c ∈ xs, c ≠ '{') :
    substituteAux subs 0 (xs ++ ys) = xs ++ substituteAux subs 0 ys := by
  induction xs with
  | nil => rfl
  | cons x xs ih =>
    have hx0 : x ≠ '{' := hx x (List.mem_cons_self x xs)
    rw [List.cons_append,
      substituteAux_copy _ _ _ (find?_startsWith_eq_none subs x (xs ++ ys) hT hx0),
      ih (fun c hc => hx c (List.mem_cons_of_mem x hc)), List.cons_append]

/-- A text of token characters at the start of the output of the single pass was at the
start of its input: replacement texts do not begin with a token character. -/
theorem startsWith_substituteAux (L : Char → Prop) (subs : List (List Char × List Char))
    (hR : ∀ p ∈ subs, ∃ c r, p.2 = c :: r ∧ ¬ L c) :
    ∀ (cs P : List Char), (∀ c ∈ P, L c) →
      startsWith P (substituteAux subs 0 cs) = true → startsWith P cs = true := by
  intro cs
  induction cs with
  | nil =>
    intro P _ h
    simpa [substituteAux] using h
  | cons c cs ih =>
    intro P hP h
    cases P with
    | nil => rfl
    | cons p P =>
      cases hfind : subs.find? (fun q => startsWith q.1 (c :: cs)) with
      | some q =>
        obtain ⟨tok, rep⟩ := q
        obtain ⟨c0, r0, hrep, hc0⟩ := hR (tok, rep) (List.mem_of_find?_eq_some hfind)
        simp only at hrep
        simp only [substituteAux, hfind, hrep, List.cons_append, startsWith,
          Bool.and_eq_true, beq_iff_eq] at h
        exact absurd (h.1 ▸ hP p (List.mem_cons_self p P)) hc0
      | none =>
        rw [substituteAux_copy subs c cs hfind] at h
        simp only [startsWith, Bool.and_eq_true, beq_iff_eq] at h ⊢
        exact ⟨h.1, ih P (fun x hx => hP x (List.mem_cons_of_mem p hx)) h.2⟩

/-- One more `ReplaceAll` after a single pass is a single pass with one more token, when
the new token is `{` followed by token characters and the texts already put in contain
no `{` and do not begin with a token character. -/
theorem replaceAllAux_substituteAux (L : Char → Prop) (T : List (List Char × List Char))
    (tl r : List Char) (hL : ¬ L '{') (htl : ∀ c ∈ tl, L c)
    (hT : ∀ p ∈ T, ∃ tl1, p.1 = '{' :: tl1)
    (hR : ∀ p ∈ T, (∃ c r1, p.2 = c :: r1 ∧ ¬ L c) ∧ ∀ c ∈ p.2, c ≠ '{') :
    ∀ (n : Nat) (s : List Char), s.length ≤ n →
      replaceAllAux ('{' :: tl) r 0 (substituteAux T 0 s)
        = substituteAux (T ++ [('{' :: tl, r)]) 0 s := by
  have htl1 : ∀ c ∈ tl, c ≠ '{' := fun c hc e => hL (e ▸ htl c hc)
  intro n
  induction n with
  | zero =>
    intro s hs
    have hnil : s = [] := List.length_eq_zero.mp (Nat.le_zero.mp hs)
    subst hnil
    rfl
  | succ n ih =>
    intro s hs
    cases s with
    | nil => rfl
    | cons c cs =>
      cases hfind : T.find? (fun p => startsWith p.1 (c :: cs)) with
      | some q =>
        obtain ⟨tj, rj⟩ := q
        have hmem : (tj, rj) ∈ T := List.mem_of_find?_eq_some hfind
        have hstart : startsWith tj (c :: cs) = true := by
          simpa using List.find?_some hfind
        obtain ⟨s1, hs1⟩ := (startsWith_iff tj (c :: cs)).mp hstart
        obtain ⟨tlj, htj⟩ := hT (tj, rj) hmem
        simp only at htj
        have hne : tj ≠ [] := by rw [htj]; exact List.cons_ne_nil _ _
        have hlen : s1.length ≤ n := by
          have h1 : (c :: cs).length = tj.length + s1.length := by
            rw [hs1, List.length_append]
          have h2 : tj.length = tlj.length + 1 := by rw [htj, List.length_cons]
          have h3 : (c :: cs).length ≤ n + 1 := hs
          omega
        have hfind2 : (T ++ [('{' :: tl, r)]).find? (fun p => startsWith p.1 (c :: cs))
            = some (tj, rj) := by
          rw [List.find?_append, hfind]
          rfl
        rw [hs1] at hfind hfind2 ⊢
        rw [substituteAux_match T tj rj s1 hne hfind,
          substituteAux_match _ tj rj s1 hne hfind2,
          replaceAllAux_pass tl r rj _ (hR (tj, rj) hmem).2, ih s1 hlen]
      | none =>
        by_cases ht : startsWith ('{' :: tl) (c :: cs) = true
        · obtain ⟨s1, hs1⟩ := (startsWith_iff ('{' :: tl) (c :: cs)).mp ht
          have hlen : s1.length ≤ n := by
            have h1 : (c :: cs).length = ('{' :: tl).length + s1.length := by
              rw [hs1, List.length_append]
            have h2 : ('{' :: tl).length = tl.length + 1 := List.length_cons _ _
            have h3 : (c :: cs).length ≤ n + 1 := hs
            omega
          have hfind2 : (T ++ [('{' :: tl, r)]).find? (fun p => startsWith p.1 (c :: cs))
              = some ('{' :: tl, r) := by
            rw [List.find?_append, hfind]
            simp [ht]
          rw [hs1] at hfind hfind2 ⊢
          rw [substituteAux_match _ ('{' :: tl) r s1 (List.cons_ne_nil _ _) hfind2]
          rw [List.cons_append] at hfind ⊢
          rw [substituteAux_copy T '{' (tl ++ s1) hfind, substituteAux_pass T tl s1 hT htl1,
            ← List.cons_append, replaceAllAux_match _ r _ (List.cons_ne_nil _ _), ih s1 hlen]
        · have ht0 : startsWith ('{' :: tl) (c :: cs) = false := by simpa using ht
          have hfind2 : (T ++ [('{' :: tl, r)]).find? (fun p => startsWith p.1 (c :: cs))
              = none := by
            rw [List.find?_append, hfind]
            simp [ht0]
          have hlen : cs.length ≤ n := Nat.le_of_succ_le_succ hs
          have hout : startsWith ('{' :: tl) (c :: substituteAux T 0 cs) = false := by
            cases hb : startsWith ('{' :: tl) (c :: substituteAux T 0 cs) with
            | false => rfl
            | true =>
              simp only [startsWith, Bool.and_eq_true, beq_iff_eq] at hb
              have hcs : startsWith tl cs = true :=
                startsWith_substituteAux L T (fun p hp => (hR p hp).1) cs tl htl hb.2
              have : startsWith ('{' :: tl) (c :: cs) = true := by
                simp only [startsWith, Bool.and_eq_true, beq_iff_eq]
                exact ⟨hb.1, hcs⟩
              rw [this] at ht0
              exact absurd ht0 (by simp)
          rw [substituteAux_copy T c cs hfind, substituteAux_copy _ c cs hfind2,
            replaceAllAux_copy _ _ _ _ hout, ih cs hlen]

theorem isDateChar_ne_brace {c : Char} (h : isDateChar c = true) : c ≠ '{' := by
  intro e
  subst e
  exact absurd h (by decide)

theorem isDateChar_not_tokenChar {c : Char} (h : isDateChar c = true) :
    ¬ (isTokenChar c = true) := by
  simp [isTokenChar, h]

/-- The four passes of `getIndexName` over the characters of the template are one pass
that replaces the four tokens, when the replacing texts are non-empty and made of digits
and dots. -/
theorem replaceAllAux_four_passes (D Y M Dd s : List Char)
    (hD : D ≠ [] ∧ ∀ c ∈ D, isDateChar c = true) (hY : Y ≠ [] ∧ ∀ c ∈ Y, isDateChar c = true)
    (hM : M ≠ [] ∧ ∀ c ∈ M, isDateChar c = true) :
    replaceAllAux "{day}".data Dd 0
        (replaceAllAux "{month}".data M 0
          (replaceAllAux "{year}".data Y 0 (replaceAllAux "{date}".data D 0 s)))
      = substituteAux
          [("{date}".data, D), ("{year}".data, Y), ("{month}".data, M), ("{day}".data, Dd)]
          0 s := by
  have hL : ¬ (isTokenChar '{' = true) := by decide
  have hrep : ∀ r : List Char, (r ≠ [] ∧ ∀ c ∈ r, isDateChar c = true) →
      (∃ c r1, r = c :: r1 ∧ ¬ (isTokenChar c = true)) ∧ ∀ c ∈ r, c ≠ '{' := by
    intro r hr
    refine ⟨?_, fun c hc => isDateChar_ne_brace (hr.2 c hc)⟩
    cases r with
    | nil => exact absurd rfl hr.1
    | cons c r1 =>
      exact ⟨c, r1, rfl, isDateChar_not_tokenChar (hr.2 c (List.mem_cons_self c r1))⟩
  have h1 : replaceAllAux "{date}".data D 0 s = substituteAux [("{date}".data, D)] 0 s := by
    have h := replaceAllAux_substituteAux (fun c => isTokenChar c = true) []
      "date\x7d".data D hL (by decide) (by simp) (by simp) s.length s (le_refl _)
    rw [substituteAux_nil_subs] at h
    exact h
  have h2 := replaceAllAux_substituteAux (fun c => isTokenChar c = true)
    [("{date}".data, D)] "year\x7d".data Y hL (by decide)
    (by
      intro p hp
      simp only [List.mem_singleton] at hp
      subst hp
      exact ⟨"date\x7d".data, rfl⟩)
    (by
      intro p hp
      simp only [List.mem_singleton] at hp
      subst hp
      exact hrep D hD) s.length s (le_refl _)
  have h3 := replaceAllAux_substituteAux (fun c => isTokenChar c = true)
    ([("{date}".data, D)] ++ [("{year}".data, Y)]) "month\x7d".data M hL (by decide)
    (by
      intro p hp
      simp only [List.mem_append, List.mem_singleton] at hp
      rcases hp with rfl | rfl
      · exact ⟨"date\x7d".data, rfl⟩
      · exact ⟨"year\x7d".data, rfl⟩)
    (by
      intro p hp
      simp only [List.mem_append, List.mem_singleton] at hp
      rcases hp with rfl | rfl
      · exact hrep D hD
      · exact hrep Y hY) s.length s (le_refl _)
  have h4 := replaceAllAux_substituteAux (fun c => isTokenChar c = true)
    ([("{date}".data, D)] ++ [("{year}".data, Y)] ++ [("{month}".data, M)]) "day\x7d".data Dd
    hL (by decide)
    (by
      intro p hp
      simp only [List.mem_append, List.mem_singleton] at hp
      rcases hp with (rfl | rfl) | rfl
      · exact ⟨"date\x7d".data, rfl⟩
      · exact ⟨"year\x7d".data, rfl⟩
      · exact ⟨"month\x7d".data, rfl⟩)
    (by
      intro p hp
      simp only [List.mem_append, List.mem_singleton] at hp
      rcases hp with (rfl | rfl) | rfl
      · exact hrep D hD
      · exact hrep Y hY
      · exact hrep M hM) s.length s (le_refl _)
  rw [h1]
  exact (congrArg (fun x => replaceAllAux "{day}".data Dd 0
    (replaceAllAux "{month}".data M 0 x)) h2).trans
      ((congrArg (fun x => replaceAllAux "{day}".data Dd 0 x) h3).trans h4)

theorem substituteAux_unchanged (subs : List (List Char × List Char)) :
    ∀ s : List Char,
      (∀ a b : List Char, s = a ++ b → subs.find? (fun p => startsWith p.1 b) = none) →
      substituteAux subs 0 s = s := by
  intro s
  induction s with
  | nil => intro _; rfl
  | cons c cs ih =>
    intro h
    rw [substituteAux_copy subs c cs (h [] (c :: cs) rfl),
      ih (fun a b hab => h (c :: a) b (by rw [hab, List.cons_append]))]

theorem ReplaceAll_eq (s old new : String) (h : old.data ≠ []) :
    ReplaceAll s old new = String.mk (replaceAllAux old.data new.data 0 s.data) := by
  simp [ReplaceAll, h]

theorem RendersDate.chars {format : Time → String → String} {t : Time} {y m d : String}
    (h : RendersDate format t y m d) :
    ((y ++ "." ++ m ++ "." ++ d).data ≠ [] ∧
        ∀ c ∈ (y ++ "." ++ m ++ "." ++ d).data, isDateChar c = true) ∧
      (y.data ≠ [] ∧ ∀ c ∈ y.data, isDateChar c = true) ∧
      (m.data ≠ [] ∧ ∀ c ∈ m.data, isDateChar c = true) := by
  obtain ⟨_, _, _, _, ⟨hy4, hy⟩, ⟨hm2, hm⟩, ⟨_, hd⟩⟩ := h
  have hdig : ∀ c : Char, c.isDigit = true → isDateChar c = true := by
    intro c hc
    simp [isDateChar, hc]
  have hyne : y.data ≠ [] := by
    intro e
    rw [e] at hy4
    exact absurd hy4 (by decide)
  have hmne : m.data ≠ [] := by
    intro e
    rw [e] at hm2
    exact absurd hm2 (by decide)
  refine ⟨⟨?_, ?_⟩, ⟨hyne, fun c hc => hdig c (hy c hc)⟩, ⟨hmne, fun c hc => hdig c (hm c hc)⟩⟩
  · simp only [String.data_append]
    intro e
    simp only [List.append_eq_nil, hyne, false_and] at e
  · intro c hc
    simp only [String.data_append, List.mem_append] at hc
    rcases hc with (((hc | hc) | hc) | hc) | hc
    · exact hdig c (hy c hc)
    · have : c = '.' := by simpa using hc
      subst this
      rfl
    · exact hdig c (hm c hc)
    · have : c = '.' := by simpa using hc
      subst this
      rfl
    · exact hdig c (hd c hc)

theorem Sender.getIndexName_eq_substitute (format : Time → String → String) (s : Sender)
    (t : Time) (y m d : String) (h : RendersDate format t y m d) :
    s.getIndexName format t = substitute s.indexPattern (indexTokens y m d) := by
  obtain ⟨hD, hY, hM⟩ := h.chars
  obtain ⟨hy, hm, hd, hdate, _⟩ := h
  have e1 : "{date}".data ≠ [] := by decide
  have e2 : "{year}".data ≠ [] := by decide
  have e3 : "{month}".data ≠ [] := by decide
  have e4 : "{day}".data ≠ [] := by decide
  simp only [Sender.getIndexName, ReplaceAll_eq _ _ _ e1, ReplaceAll_eq _ _ _ e2,
    ReplaceAll_eq _ _ _ e3, ReplaceAll_eq _ _ _ e4, hy, hm, hd, hdate]
  rw [replaceAllAux_four_passes _ _ _ _ _ hD hY hM]
  rfl

/-- **C11.** For every index template and timestamp (of a year with four digits, so that
the Go library renders the layouts `2006`, `01`, `02` and `2006.01.02` as `YYYY`, `MM`,
`DD` and `YYYY.MM.DD`), `getIndexName` returns the template with every occurrence of
`{date}` replaced by `YYYY.MM.DD`, `{year}` by `YYYY`, `{month}` by `MM` and `{day}` by
`DD`, all other characters unchanged; a template that contains none of the four tokens
is returned unchanged; and `logs-{date}` yields `logs-` followed by `YYYY.MM.DD`. -/
theorem Sender.getIndexName_spec (format : Time → String → String) (s : Sender) (t : Time)
    (y m d : String) (h : RendersDate format t y m d) :
    s.getIndexName format t = substitute s.indexPattern (indexTokens y m d) ∧
    (∀ s1 : Sender,
      (∀ tok ∈ ["{date}", "{year}", "{month}", "{day}"],
        ¬ tok.data <:+: s1.indexPattern.data) →
      s1.getIndexName format t = s1.indexPattern) ∧
    (Sender.mk "logs-{date}" s.config).getIndexName format t
      = "logs-" ++ y ++ "." ++ m ++ "." ++ d := by
  refine ⟨Sender.getIndexName_eq_substitute format s t y m d h, ?_, ?_⟩
  · intro s1 hno
    rw [Sender.getIndexName_eq_substitute format s1 t y m d h]
    unfold substitute
    rw [substituteAux_unchanged]
    intro a b hab
    rw [List.find?_eq_none]
    intro p hp hstart
    simp only [indexTokens, List.map_cons, List.map_nil, List.mem_cons, List.mem_singleton,
      List.not_mem_nil, or_false] at hp
    have hstart1 : startsWith p.1 b = true := by simpa using hstart
    obtain ⟨r, hr⟩ := (startsWith_iff p.1 b).mp hstart1
    have hinfix : p.1 <:+: s1.indexPattern.data := ⟨a, r, by rw [hab, hr, List.append_assoc]⟩
    rcases hp with rfl | rfl | rfl | rfl
    · exact hno "{date}" (by simp) hinfix
    · exact hno "{year}" (by simp) hinfix
    · exact hno "{month}" (by simp) hinfix
    · exact hno "{day}" (by simp) hinfix
  · rw [Sender.getIndexName_eq_substitute format _ t y m d h]
    simp only [substitute, indexTokens, List.map_cons, List.map_nil]
    apply String.ext
    simp [substituteAux, startsWith]

theorem sampleDateFormat_renders (t : Time) :
    RendersDate sampleDateFormat t "2024" "01" "15" := by
  refine ⟨rfl, rfl, rfl, rfl, ⟨rfl, ?_⟩, ⟨rfl, ?_⟩, ⟨rfl, ?_⟩⟩ <;> decide

theorem Sender.getIndexName_spec_witness :
    (Sender.mk "app-{year}.{month}" DefaultConfig).getIndexName sampleDateFormat ⟨0, 0⟩
        = substitute "app-{year}.{month}" (indexTokens "2024" "01" "15") ∧
    (∀ s1 : Sender,
      (∀ tok ∈ ["{date}", "{year}", "{month}", "{day}"],
        ¬ tok.data <:+: s1.indexPattern.data) →
      s1.getIndexName sampleDateFormat ⟨0, 0⟩ = s1.indexPattern) ∧
    (Sender.mk "logs-{date}" DefaultConfig).getIndexName sampleDateFormat ⟨0, 0⟩
      = "logs-" ++ "2024" ++ "." ++ "01" ++ "." ++ "15" :=
  Sender.getIndexName_spec sampleDateFormat (Sender.mk "app-{year}.{month}" DefaultConfig)
    ⟨0, 0⟩ "2024" "01" "15" (sampleDateFormat_renders ⟨0, 0⟩)

/-- The index names of some templates on 15 January 2024, evaluated. -/
theorem Sender.getIndexName_samples :
    (Sender.mk "logs-{date}" DefaultConfig).getIndexName sampleDateFormat ⟨0, 0⟩
        = "logs-2024.01.15" ∧
    (Sender.mk "{year}/{month}/{day}-{date}{date}" DefaultConfig).getIndexName
        sampleDateFormat ⟨0, 0⟩ = "2024/01/15-2024.01.152024.01.15" ∧
    (Sender.mk "{{year}}-{ye{day}ar}-{Date}" DefaultConfig).getIndexName
        sampleDateFormat ⟨0, 0⟩ = "{2024}-{ye15ar}-{Date}" ∧
    substitute "{{year}}-{ye{day}ar}-{Date}" (indexTokens "2024" "01" "15")
        = "{2024}-{ye15ar}-{Date}" := by
  refine ⟨?_, ?_, ?_, ?_⟩ <;> decide

/-! ## Sender: Send -/

theorem LogEntry.ToJSON_isSome_entry {format : Time → String → String}
    {marshal : FieldMap → Except String String} {h : Heap} {p : EntryPtr}
    {r : Except String String} (hr : LogEntry.ToJSON format marshal h p = some r) :
    ∃ e, h.entries[p]? = some e := by
  cases he : h.entries[p]? with
  | some e => exact ⟨e, rfl⟩
  | none => simp [LogEntry.ToJSON, LogEntry.ToJSON.data, he] at hr

/-- The loop of `Send` over entries that are all encodable: the buffer grows by two lines
per entry, the action line and the document. -/
theorem Sender.Send.build_ok (format : Time → String → String)
    (marshal : FieldMap → Except String String) (s : Sender) (h : Heap)
    (entries : List EntryPtr) :
    ∀ buf : String,
      (∀ p ∈ entries, ∃ doc, LogEntry.ToJSON format marshal h p = some (Except.ok doc)) →
      ∃ lines : List String,
        Sender.Send.build format marshal s h buf entries
          = some (Except.ok (buf ++ joinLines lines)) ∧
        lines.length = 2 * entries.length ∧
        ∀ k, k < entries.length → ∃ p e doc,
          entries[k]? = some p ∧ h.entries[p]? = some e ∧
          LogEntry.ToJSON format marshal h p = some (Except.ok doc) ∧
          lines[2 * k]? = some (s.actionLine format marshal e.Timestamp) ∧
          lines[2 * k + 1]? = some doc := by
  induction entries with
  | nil =>
    intro buf _
    exact ⟨[], by simp [Sender.Send.build, joinLines], rfl, fun k hk => absurd hk (by simp)⟩
  | cons p rest ih =>
    intro buf hall
    obtain ⟨doc, hdoc⟩ := hall p (List.mem_cons_self p rest)
    obtain ⟨e, he⟩ := LogEntry.ToJSON_isSome_entry hdoc
    obtain ⟨lines, hbuild, hlen, hlines⟩ :=
      ih (buf ++ s.actionLine format marshal e.Timestamp ++ "\n" ++ doc ++ "\n")
        (fun q hq => hall q (List.mem_cons_of_mem p hq))
    refine ⟨s.actionLine format marshal e.Timestamp :: doc :: lines, ?_, ?_, ?_⟩
    · simp only [Sender.Send.build, he, hdoc]
      rw [hbuild]
      simp only [joinLines, String.append_assoc]
    · simp only [List.length_cons, hlen]
      omega
    · intro k hk
      cases k with
      | zero => exact ⟨p, e, doc, by simp, he, hdoc, by simp, by simp⟩
      | succ k =>
        obtain ⟨q, e1, doc1, hq, he1, hdoc1, hl1, hl2⟩ :=
          hlines k (Nat.lt_of_succ_lt_succ hk)
        refine ⟨q, e1, doc1, by simpa using hq, he1, hdoc1, ?_, ?_⟩
        · have h2 : 2 * (k + 1) = (2 * k) + 1 + 1 := by omega
          rw [h2, List.getElem?_cons_succ, List.getElem?_cons_succ]
          exact hl1
        · have h2 : 2 * (k + 1) + 1 = (2 * k + 1) + 1 + 1 := by omega
          rw [h2, List.getElem?_cons_succ, List.getElem?_cons_succ]
          exact hl2

/-- Once the buffer is built, `Send` issues exactly one bulk request, with the buffer as
its body. -/
theorem Sender.Send_of_build_ok (format : Time → String → String)
    (marshal : FieldMap → Except String String) (s : Sender) (h : Heap) (ctx : Context)
    (w : Wire) (entries : List EntryPtr) (body : String) (hne : entries ≠ [])
    (hbuild : Sender.Send.build format marshal s h "" entries = some (Except.ok body)) :
    ∃ err, s.Send format marshal h ctx w entries
      = some (err, Wire.mk w.respond (w.requests ++ [body])) := by
  have hlen0 : entries.length ≠ 0 := fun e => hne (List.length_eq_zero.mp e)
  unfold Sender.Send
  rw [if_neg hlen0, hbuild]
  simp only
  repeat' split
  all_goals exact ⟨_, rfl⟩

/-- **C12.** For every non-empty list of `n` JSON-encodable entries, `Send` issues one bulk
request whose body consists of exactly `2n` lines, each followed by a newline, in entry
order: line `2k-1` is the encoding of the action object, the map with the one key `index`
whose value is the map with the one key `_index` whose value is the index name that
`getIndexName` gives for the timestamp of the `k`-th entry itself, and line `2k` is the
`ToJSON` document of the `k`-th entry. For the empty list `Send` returns `nil` and
issues no request. -/
theorem Sender.Send_payload (format : Time → String → String)
    (marshal : FieldMap → Except String String) (s : Sender) (h : Heap) (ctx : Context)
    (w : Wire) (entries : List EntryPtr) (hne : entries ≠ [])
    (hdocs : ∀ p ∈ entries, ∃ doc, LogEntry.ToJSON format marshal h p = some (Except.ok doc))
    (hmeta : ∀ name, ∃ bytes, marshal (Sender.actionObject name) = Except.ok bytes) :
    (∃ (lines : List String) (err : Option GoError) (w1 : Wire),
      s.Send format marshal h ctx w entries = some (err, w1) ∧
      w1.requests = w.requests ++ [joinLines lines] ∧
      lines.length = 2 * entries.length ∧
      ∀ k, k < entries.length → ∃ p e doc,
        entries[k]? = some p ∧ h.entries[p]? = some e ∧
        LogEntry.ToJSON format marshal h p = some (Except.ok doc) ∧
        (∃ action, lines[2 * k]? = some action ∧
          marshal (Sender.actionObject (s.getIndexName format e.Timestamp))
            = Except.ok action ∧
          (Sender.actionObject (s.getIndexName format e.Timestamp)).entries
            = [⟨"index",
                Value.map [("_index", Value.str (s.getIndexName format e.Timestamp))]⟩]) ∧
        lines[2 * k + 1]? = some doc) ∧
    s.Send format marshal h ctx w [] = some (none, w) := by
  refine ⟨?_, rfl⟩
  obtain ⟨lines, hbuild, hlen, hlines⟩ :=
    Sender.Send.build_ok format marshal s h entries "" hdocs
  rw [String.empty_append] at hbuild
  have hlen0 : entries.length ≠ 0 := fun e => hne (List.length_eq_zero.mp e)
  have hlines1 :
      ∀ k, k < entries.length → ∃ p e doc,
        entries[k]? = some p ∧ h.entries[p]? = some e ∧
        LogEntry.ToJSON format marshal h p = some (Except.ok doc) ∧
        (∃ action, lines[2 * k]? = some action ∧
          marshal (Sender.actionObject (s.getIndexName format e.Timestamp))
            = Except.ok action ∧
          (Sender.actionObject (s.getIndexName format e.Timestamp)).entries
            = [⟨"index",
                Value.map [("_index", Value.str (s.getIndexName format e.Timestamp))]⟩]) ∧
        lines[2 * k + 1]? = some doc := by
    intro k hk
    obtain ⟨p, e, doc, hp, he, hdoc, hl1, hl2⟩ := hlines k hk
    obtain ⟨bytes, hbytes⟩ := hmeta (s.getIndexName format e.Timestamp)
    refine ⟨p, e, doc, hp, he, hdoc, ⟨_, hl1, ?_, rfl⟩, hl2⟩
    simp [Sender.actionLine, hbytes]
  obtain ⟨err, hsend⟩ :=
    Sender.Send_of_build_ok format marshal s h ctx w entries (joinLines lines) hne hbuild
  exact ⟨lines, err, _, hsend, rfl, hlen, hlines1⟩

theorem sampleHeap_encodable :
    ∀ p ∈ [0, 1], ∃ doc,
      LogEntry.ToJSON sampleDateFormat sampleMarshal sampleHeap p = some (Except.ok doc) := by
  intro p hp
  simp only [List.mem_cons, List.mem_singleton, List.not_mem_nil, or_false] at hp
  rcases hp with rfl | rfl
  · exact ⟨"document", rfl⟩
  · exact ⟨"document", rfl⟩

/-- Both entries of the dated sample heap are encodable by the stand-in encoder. -/
theorem sampleDatedHeap_encodable :
    ∀ p ∈ [0, 1], ∃ doc,
      LogEntry.ToJSON sampleDayFormat sampleEncode sampleDatedHeap p
        = some (Except.ok doc) := by
  intro p hp
  simp only [List.mem_cons, List.mem_singleton, List.not_mem_nil, or_false] at hp
  rcases hp with rfl | rfl
  · exact ⟨_, rfl⟩
  · exact ⟨_, rfl⟩

theorem Sender.Send_payload_witness :
    (∃ (lines : List String) (err : Option GoError) (w1 : Wire),
      (Sender.mk "logs-{date}" DefaultConfig).Send sampleDayFormat sampleEncode
          sampleDatedHeap Context.background (sampleWire 0) [0, 1] = some (err, w1) ∧
      w1.requests = (sampleWire 0).requests ++ [joinLines lines] ∧
      lines.length = 2 * [0, 1].length ∧
      ∀ k, k < [0, 1].length → ∃ p e doc,
        [0, 1][k]? = some p ∧ sampleDatedHeap.entries[p]? = some e ∧
        LogEntry.ToJSON sampleDayFormat sampleEncode sampleDatedHeap p = some (Except.ok doc) ∧
        (∃ action, lines[2 * k]? = some action ∧
          sampleEncode (Sender.actionObject ((Sender.mk "logs-{date}" DefaultConfig).getIndexName sampleDayFormat e.Timestamp))
            = Except.ok action ∧
          (Sender.actionObject ((Sender.mk "logs-{date}" DefaultConfig).getIndexName sampleDayFormat e.Timestamp)).entries
            = [⟨"index",
                Value.map [("_index", Value.str ((Sender.mk "logs-{date}" DefaultConfig).getIndexName sampleDayFormat e.Timestamp))]⟩]) ∧
        lines[2 * k + 1]? = some doc) ∧
    (Sender.mk "logs-{date}" DefaultConfig).Send sampleDayFormat sampleEncode sampleDatedHeap
        Context.background (sampleWire 0) [] = some (none, sampleWire 0) :=
  Sender.Send_payload sampleDayFormat sampleEncode (Sender.mk "logs-{date}" DefaultConfig)
    sampleDatedHeap Context.background (sampleWire 0) [0, 1] (by simp)
    sampleDatedHeap_encodable (fun _ => ⟨_, rfl⟩)

set_option maxRecDepth 100000 in
/-- The bulk request of the sample: two entries logged on different days, with the
stand-in encoder. The body has four lines, each ended by a newline: the action object of
the first entry, which names the index of its day, its document with the keys of the
field map at top level, the action object of the second entry, which names the index of
the next day, and its document. -/
theorem Sender.Send_sample_body :
    ((Sender.mk "logs-{date}" DefaultConfig).Send sampleDayFormat sampleEncode
        sampleDatedHeap Context.background (sampleWire 0) [0, 1]).map
      (fun r => (r.1, r.2.requests))
      = some (none,
          ["\x7b\"index\":\x7b\"_index\":\"logs-1970.01.01\"\x7d\x7d\n" ++
            "\x7b\"user_id\":123,\"level\":\"custom\",\"environment\":\"test\"," ++
            "\"service.name\":\"test-service\",\"logger\":\"test-logger\"," ++
            "\"message\":\"test message\",\"@timestamp\":\"1970-01-01T00:00:00Z\"\x7d\n" ++
            "\x7b\"index\":\x7b\"_index\":\"logs-1970.01.02\"\x7d\x7d\n" ++
            "\x7b\"message\":\"test\",\"level\":\"info\"," ++
            "\"@timestamp\":\"1970-01-02T00:00:00Z\"\x7d\n"]) := by
  rfl

/-- The loop of `Send` when no entry is a nil pointer: it ends, and it ends with an error
exactly when some entry fails to serialize. -/
theorem Sender.Send.build_total (format : Time → String → String)
    (marshal : FieldMap → Except String String) (s : Sender) (h : Heap)
    (entries : List EntryPtr) :
    ∀ buf : String,
      (∀ p ∈ entries, ∃ r, LogEntry.ToJSON format marshal h p = some r) →
      ∃ r, Sender.Send.build format marshal s h buf entries = some r ∧
        ((∃ err, r = Except.error err) ↔
          ∃ p ∈ entries, ∃ m, LogEntry.ToJSON format marshal h p = some (Except.error m)) := by
  induction entries with
  | nil =>
    intro buf _
    exact ⟨Except.ok buf, rfl, by simp⟩
  | cons p rest ih =>
    intro buf hall
    obtain ⟨r, hr⟩ := hall p (List.mem_cons_self p rest)
    obtain ⟨e, he⟩ := LogEntry.ToJSON_isSome_entry hr
    cases r with
    | error m =>
      refine ⟨_, (by simp only [Sender.Send.build, he, hr]; rfl), ?_⟩
      constructor
      · intro _
        exact ⟨p, List.mem_cons_self p rest, m, hr⟩
      · intro _
        exact ⟨_, rfl⟩
    | ok doc =>
      obtain ⟨r1, hr1, hiff⟩ :=
        ih (buf ++ s.actionLine format marshal e.Timestamp ++ "\n" ++ doc ++ "\n")
          (fun q hq => hall q (List.mem_cons_of_mem p hq))
      refine ⟨r1, by simp only [Sender.Send.build, he, hr, hr1], ?_⟩
      rw [hiff]
      constructor
      · rintro ⟨q, hq, m, hm⟩
        exact ⟨q, List.mem_cons_of_mem p hq, m, hm⟩
      · rintro ⟨q, hq, m, hm⟩
        rcases List.mem_cons.mp hq with rfl | hq1
        · rw [hr] at hm
          cases hm
        · exact ⟨q, hq1, m, hm⟩

/-- **C13.** For a non-empty batch (of entries none of which is a nil pointer), `Send`
returns an error if and only if an entry fails to serialize or, the body being built, the
transport call fails, the response has a non-success status, the response body cannot be
decoded, or the decoded response has its `errors` flag set, whatever its items say; it
returns `nil` exactly when the status is success and the `errors` flag is false. -/
theorem Sender.Send_error_iff (format : Time → String → String)
    (marshal : FieldMap → Except String String) (s : Sender) (h : Heap) (ctx : Context)
    (w : Wire) (entries : List EntryPtr) (hne : entries ≠ [])
    (hsafe : ∀ p ∈ entries, ∃ r, LogEntry.ToJSON format marshal h p = some r) :
    ∃ (err : Option GoError) (w1 : Wire),
      s.Send format marshal h ctx w entries = some (err, w1) ∧
      (err ≠ none ↔
        (∃ p ∈ entries, ∃ m, LogEntry.ToJSON format marshal h p = some (Except.error m)) ∨
        ∃ body, Sender.Send.build format marshal s h "" entries = some (Except.ok body) ∧
          ((∃ e, w.respond ctx w.requests.length body = BulkOutcome.failure e) ∨
            (∃ status decoded,
              w.respond ctx w.requests.length body
                = BulkOutcome.response true status decoded) ∨
            (∃ status e,
              w.respond ctx w.requests.length body
                = BulkOutcome.response false status (Except.error e)) ∨
            (∃ status items,
              w.respond ctx w.requests.length body
                = BulkOutcome.response false status (Except.ok (BulkResponse.mk true items))))) ∧
      (err = none ↔
        ∃ body status items,
          Sender.Send.build format marshal s h "" entries = some (Except.ok body) ∧
          w.respond ctx w.requests.length body
            = BulkOutcome.response false status (Except.ok (BulkResponse.mk false items))) := by
  have hlen0 : entries.length ≠ 0 := fun e => hne (List.length_eq_zero.mp e)
  obtain ⟨r, hr, hiff⟩ := Sender.Send.build_total format marshal s h entries "" hsafe
  cases r with
  | error berr =>
    have hA := hiff.mp ⟨berr, rfl⟩
    refine ⟨some berr, w, by simp [Sender.Send, hlen0, hr], ?_, ?_⟩
    · simp only [ne_eq, reduceCtorEq, not_false_eq_true, true_iff]
      exact Or.inl hA
    · simp [hr]
  | ok body =>
    have hnoA : ¬ ∃ p ∈ entries, ∃ m,
        LogEntry.ToJSON format marshal h p = some (Except.error m) := by
      intro hA
      obtain ⟨err, herr⟩ := hiff.mpr hA
      cases herr
    cases hout : w.respond ctx w.requests.length body with
    | failure e =>
      refine ⟨_, _, (by simp only [Sender.Send, hlen0, hr, hout, if_false]; rfl), ?_, ?_⟩
      · simp [hr, hout]
      · simp [hr, hout]
    | response isError status decoded =>
      cases isError with
      | true =>
        refine ⟨_, _, (by simp only [Sender.Send, hlen0, hr, hout, if_false, if_true]; rfl), ?_, ?_⟩
        · simp [hr, hout]
        · simp [hr, hout]
      | false =>
        cases decoded with
        | error e =>
          refine ⟨_, _, (by
            simp only [Sender.Send, hlen0, hr, hout, if_false, Bool.false_eq_true]
            rfl), ?_, ?_⟩
          · simp [hr, hout]
          · simp [hr, hout]
        | ok bulkRes =>
          obtain ⟨flag, items⟩ := bulkRes
          cases flag with
          | true =>
            refine ⟨_, _, (by
              simp only [Sender.Send, hlen0, hr, hout, if_false, Bool.false_eq_true,
                if_true]
              rfl), ?_, ?_⟩
            · simp [hr, hout]
            · simp [hr, hout]
          | false =>
            refine ⟨_, _, (by
              simp only [Sender.Send, hlen0, hr, hout, if_false, Bool.false_eq_true]
              rfl), ?_, ?_⟩
            · simp [hr, hout, hnoA]
            · simp [hr, hout]

/-! ## Sender: SendWithRetry -/

theorem Sender.attempts_succ (s : Sender) (entries : List EntryPtr) (i n : Nat) :
    s.attempts entries i (n + 1) = s.attempts entries i 1 ++ s.attempts entries (i + 1) n := by
  simp [Sender.attempts]

theorem Sender.attempts_add_one (s : Sender) (entries : List EntryPtr) :
    ∀ (n i : Nat),
      s.attempts entries i (n + 1) = s.attempts entries i n ++ s.attempts entries (i + n) 1 := by
  intro n
  induction n with
  | zero => intro i; simp [Sender.attempts]
  | succ n ih =>
    intro i
    rw [Sender.attempts_succ s entries i (n + 1), ih (i + 1), ← List.append_assoc,
      ← Sender.attempts_succ]
    have : i + 1 + n = i + (n + 1) := by omega
    rw [this]

theorem Sender.SendWithRetry.loop_exit (format : Time → String → String)
    (marshal : FieldMap → Except String String) (s : Sender) (h : Heap) (ctx : Context)
    (entries : List EntryPtr) (fuel i : Nat) (lastErr : Option GoError) (w : Wire)
    (events : List Event) (hi : ¬ (i : Int) ≤ s.config.RetryCount) :
    Sender.SendWithRetry.loop format marshal s h ctx entries (fuel + 1) i lastErr w events
      = some (some (GoError.wrap
          ("failed after " ++ toString s.config.RetryCount ++ " retries: ") lastErr), w,
          events) := by
  simp only [Sender.SendWithRetry.loop, hi, if_false]

theorem Sender.SendWithRetry.loop_cancel (format : Time → String → String)
    (marshal : FieldMap → Except String String) (s : Sender) (h : Heap) (ctx : Context)
    (entries : List EntryPtr) (fuel i : Nat) (lastErr : Option GoError) (w : Wire)
    (events : List Event) (err : GoError) (hi : (i : Int) ≤ s.config.RetryCount)
    (hpos : 0 < i) (hdone : ctx.done i = some err) :
    Sender.SendWithRetry.loop format marshal s h ctx entries (fuel + 1) i lastErr w events
      = some (some err, w, events ++ [Event.wait (s.backoff i)]) := by
  simp only [Sender.SendWithRetry.loop, hi, hpos, hdone, if_true]

theorem Sender.SendWithRetry.loop_send (format : Time → String → String)
    (marshal : FieldMap → Except String String) (s : Sender) (h : Heap) (ctx : Context)
    (entries : List EntryPtr) (fuel i : Nat) (lastErr : Option GoError) (w w1 : Wire)
    (events : List Event) (r : Option GoError) (hi : (i : Int) ≤ s.config.RetryCount)
    (hdone : 0 < i → ctx.done i = none)
    (hsend : s.Send format marshal h ctx w entries = some (r, w1)) :
    Sender.SendWithRetry.loop format marshal s h ctx entries (fuel + 1) i lastErr w events
      = match r with
        | none => some (none, w1, events ++ s.attempts entries i 1)
        | some err =>
            Sender.SendWithRetry.loop format marshal s h ctx entries fuel (i + 1) (some err)
              w1 (events ++ s.attempts entries i 1) := by
  by_cases hpos : 0 < i
  · cases r with
    | none =>
      simp only [Sender.SendWithRetry.loop, hi, hpos, hdone hpos, hsend, if_true,
        Sender.attempts, List.append_nil, List.append_assoc]
    | some err =>
      simp only [Sender.SendWithRetry.loop, hi, hpos, hdone hpos, hsend, if_true,
        Sender.attempts, List.append_nil, List.append_assoc]
  · cases r with
    | none =>
      simp only [Sender.SendWithRetry.loop, hi, hpos, hsend, if_true, if_false,
        Sender.attempts, List.append_nil, List.nil_append]
    | some err =>
      simp only [Sender.SendWithRetry.loop, hi, hpos, hsend, if_true, if_false,
        Sender.attempts, List.append_nil, List.nil_append]

theorem Sender.Send_total (format : Time → String → String)
    (marshal : FieldMap → Except String String) (s : Sender) (h : Heap) (ctx : Context)
    (entries : List EntryPtr)
    (hsafe : ∀ p ∈ entries, ∃ r, LogEntry.ToJSON format marshal h p = some r) (w : Wire) :
    ∃ r, s.Send format marshal h ctx w entries = some r := by
  by_cases hne : entries = []
  · subst hne
    exact ⟨(none, w), rfl⟩
  · obtain ⟨r, hr, _⟩ := Sender.Send.build_total format marshal s h entries "" hsafe
    have hlen0 : entries.length ≠ 0 := fun e => hne (List.length_eq_zero.mp e)
    cases r with
    | error berr => exact ⟨(some berr, w), by simp only [Sender.Send, hlen0, hr, if_false]⟩
    | ok body =>
      obtain ⟨err, herr⟩ :=
        Sender.Send_of_build_ok format marshal s h ctx w entries body hne hr
      exact ⟨_, herr⟩

/-- The shape of every run of the loop of `SendWithRetry`: some attempts in a row, then
perhaps a wait that is cut short; the error is `nil` exactly when the last `Send` returned
`nil`, and no earlier `Send` did. -/
theorem Sender.SendWithRetry.loop_spec (format : Time → String → String)
    (marshal : FieldMap → Except String String) (s : Sender) (h : Heap) (ctx : Context)
    (entries : List EntryPtr)
    (hsafe : ∀ w : Wire, ∃ r, s.Send format marshal h ctx w entries = some r) :
    ∀ (fuel i : Nat) (lastErr : Option GoError) (w : Wire) (events : List Event),
      (s.config.RetryCount + 1 - (i : Int)).toNat < fuel →
      ∃ (err : Option GoError) (w1 : Wire) (n : Nat) (c : Bool)
        (rs : List (Option GoError)),
        Sender.SendWithRetry.loop format marshal s h ctx entries fuel i lastErr w events
          = some (err, w1, events ++ s.attempts entries i n
              ++ (if c then [Event.wait (s.backoff (i + n))] else [])) ∧
        Sender.sendResults format marshal s h ctx entries n w = some (rs, w1) ∧
        (err = none ↔ rs.getLast? = some none) ∧
        (∀ r ∈ rs.dropLast, r ≠ none) ∧
        (((i + n : Nat) : Int) ≤ max (s.config.RetryCount + 1) (i : Int)) ∧
        (c = true → 0 < i + n ∧ ((i + n : Nat) : Int) ≤ s.config.RetryCount ∧
          err = ctx.done (i + n) ∧ err ≠ none) := by
  intro fuel
  induction fuel with
  | zero => intro i lastErr w events hf; exact absurd hf (Nat.not_lt_zero _)
  | succ fuel ih =>
    intro i lastErr w events hf
    by_cases hi : (i : Int) ≤ s.config.RetryCount
    · by_cases hcancel : 0 < i ∧ ∃ e, ctx.done i = some e
      · obtain ⟨hpos, e, he⟩ := hcancel
        refine ⟨some e, w, 0, true, [], ?_, rfl, by simp, by simp, ?_, ?_⟩
        · rw [Sender.SendWithRetry.loop_cancel format marshal s h ctx entries fuel i lastErr
            w events e hi hpos he]
          simp [Sender.attempts]
        · simp only [Nat.add_zero]
          exact le_max_right _ _
        · intro _
          exact ⟨hpos, hi, he.symm, by simp⟩
      · have hdone : 0 < i → ctx.done i = none := by
          intro hpos
          cases hd : ctx.done i with
          | none => rfl
          | some e => exact absurd ⟨hpos, e, hd⟩ hcancel
        obtain ⟨⟨r, w1⟩, hsend⟩ := hsafe w
        have hstep := Sender.SendWithRetry.loop_send format marshal s h ctx entries fuel i
          lastErr w w1 events r hi hdone hsend
        cases r with
        | none =>
          refine ⟨none, w1, 1, false, [none], ?_, ?_, by simp, by simp, ?_, by simp⟩
          · rw [hstep]
            simp
          · simp [Sender.sendResults, hsend]
          · have h1 : ((i + 1 : Nat) : Int) = (i : Int) + 1 := by push_cast; rfl
            rw [h1]
            exact le_trans (by omega) (le_max_left _ _)
        | some e =>
          have hf1 : (s.config.RetryCount + 1 - ((i + 1 : Nat) : Int)).toNat < fuel := by
            have h1 : ((i + 1 : Nat) : Int) = (i : Int) + 1 := by push_cast; rfl
            rw [h1]
            omega
          obtain ⟨err, w2, n, c, rs, hloop, hres, hnil, hdrop, hbound, hc⟩ :=
            ih (i + 1) (some e) w1 (events ++ s.attempts entries i 1) hf1
          have hadd : i + 1 + n = i + (n + 1) := by omega
          refine ⟨err, w2, n + 1, c, some e :: rs, ?_, ?_, ?_, ?_, ?_, ?_⟩
          · rw [hstep]
            simp only
            rw [hloop, Sender.attempts_succ s entries i n, hadd]
            simp only [List.append_assoc]
          · simp [Sender.sendResults, hsend, hres]
          · rw [hnil]
            cases rs with
            | nil => simp
            | cons a rs => simp [List.getLast?_cons_cons]
          · intro r hr
            cases rs with
            | nil => simp at hr
            | cons a rs =>
              rw [List.dropLast_cons₂] at hr
              rcases List.mem_cons.mp hr with rfl | hr1
              · simp
              · exact hdrop r hr1
          · rw [← hadd]
            refine le_trans hbound ?_
            have h1 : ((i + 1 : Nat) : Int) = (i : Int) + 1 := by push_cast; rfl
            rw [h1]
            apply max_le
            · exact le_max_left _ _
            · exact le_trans (by omega) (le_max_left _ _)
          · intro hct
            rw [← hadd]
            exact hc hct
    · refine ⟨some (GoError.wrap
        ("failed after " ++ toString s.config.RetryCount ++ " retries: ") lastErr), w, 0,
        false, [], ?_, rfl, by simp, by simp, ?_, by simp⟩
      · rw [Sender.SendWithRetry.loop_exit format marshal s h ctx entries fuel i lastErr w
          events hi]
        simp [Sender.attempts]
      · simp only [Nat.add_zero]
        exact le_max_right _ _

theorem Sender.sendResults_succ_eq (format : Time → String → String)
    (marshal : FieldMap → Except String String) (s : Sender) (h : Heap) (ctx : Context)
    (entries : List EntryPtr) (n : Nat) (w w2 : Wire) (rs : List (Option GoError))
    (hres : Sender.sendResults format marshal s h ctx entries (n + 1) w = some (rs, w2)) :
    ∃ r rs1 w1, rs = r :: rs1 ∧ s.Send format marshal h ctx w entries = some (r, w1) ∧
      Sender.sendResults format marshal s h ctx entries n w1 = some (rs1, w2) := by
  unfold Sender.sendResults at hres
  cases hsend : s.Send format marshal h ctx w entries with
  | none => simp [hsend] at hres
  | some rw1 =>
    obtain ⟨r, w1⟩ := rw1
    cases hrest : Sender.sendResults format marshal s h ctx entries n w1 with
    | none => simp [hsend, hrest] at hres
    | some rsw =>
      obtain ⟨rs1, w3⟩ := rsw
      simp only [hsend, hrest, Option.some.injEq, Prod.mk.injEq] at hres
      obtain ⟨rfl, rfl⟩ := hres
      exact ⟨r, rs1, w1, rfl, rfl, hrest⟩

theorem Sender.sendResults_length (format : Time → String → String)
    (marshal : FieldMap → Except String String) (s : Sender) (h : Heap) (ctx : Context)
    (entries : List EntryPtr) :
    ∀ (n : Nat) (w w2 : Wire) (rs : List (Option GoError)),
      Sender.sendResults format marshal s h ctx entries n w = some (rs, w2) →
      rs.length = n := by
  intro n
  induction n with
  | zero =>
    intro w w2 rs hres
    simp only [Sender.sendResults, Option.some.injEq, Prod.mk.injEq] at hres
    rw [← hres.1]
    rfl
  | succ n ih =>
    intro w w2 rs hres
    obtain ⟨r, rs1, w1, rfl, _, hrest⟩ :=
      Sender.sendResults_succ_eq format marshal s h ctx entries n w w2 rs hres
    rw [List.length_cons, ih w1 w2 rs1 hrest]

/-- The loop when `Send` fails `j` times and then succeeds, the context never being
cancelled: `j + 1` attempts, and `nil`. -/
theorem Sender.SendWithRetry.loop_success (format : Time → String → String)
    (marshal : FieldMap → Except String String) (s : Sender) (h : Heap) (ctx : Context)
    (entries : List EntryPtr) (hctx : ∀ k, ctx.done k = none) :
    ∀ (j fuel i : Nat) (lastErr : Option GoError) (w w2 : Wire) (events : List Event)
      (errs : List GoError),
      j < fuel → ((i + j : Nat) : Int) ≤ s.config.RetryCount →
      Sender.sendResults format marshal s h ctx entries (j + 1) w
        = some (errs.map some ++ [none], w2) →
      Sender.SendWithRetry.loop format marshal s h ctx entries fuel i lastErr w events
        = some (none, w2, events ++ s.attempts entries i (j + 1)) := by
  intro j
  induction j with
  | zero =>
    intro fuel i lastErr w w2 events errs hf hi hres
    obtain ⟨r, rs1, w1, hrs, hsend, hrest⟩ :=
      Sender.sendResults_succ_eq format marshal s h ctx entries 0 w w2 _ hres
    simp only [Sender.sendResults, Option.some.injEq, Prod.mk.injEq] at hrest
    obtain ⟨rfl, rfl⟩ := hrest
    cases errs with
    | cons e errs => simp at hrs
    | nil =>
      simp only [List.map_nil, List.nil_append, List.cons.injEq, and_true] at hrs
      subst hrs
      obtain ⟨f, rfl⟩ : ∃ f, fuel = f + 1 := ⟨fuel - 1, by omega⟩
      rw [Sender.SendWithRetry.loop_send format marshal s h ctx entries f i lastErr w w1
        events none (by simpa using hi) (fun _ => hctx i) hsend]
  | succ j ih =>
    intro fuel i lastErr w w2 events errs hf hi hres
    obtain ⟨r, rs1, w1, hrs, hsend, hrest⟩ :=
      Sender.sendResults_succ_eq format marshal s h ctx entries (j + 1) w w2 _ hres
    have hlen := Sender.sendResults_length format marshal s h ctx entries (j + 1) w1 w2 rs1
      hrest
    cases errs with
    | nil =>
      simp only [List.map_nil, List.nil_append, List.cons.injEq] at hrs
      rw [← hrs.2] at hlen
      simp at hlen
    | cons e errs =>
      simp only [List.map_cons, List.cons_append, List.cons.injEq] at hrs
      obtain ⟨rfl, rfl⟩ := hrs
      obtain ⟨f, rfl⟩ : ∃ f, fuel = f + 1 := ⟨fuel - 1, by omega⟩
      have hi0 : (i : Int) ≤ s.config.RetryCount := by
        have : ((i + (j + 1) : Nat) : Int) = (i : Int) + (j : Int) + 1 := by push_cast; ring
        omega
      rw [Sender.SendWithRetry.loop_send format marshal s h ctx entries f i lastErr w w1
        events (some e) hi0 (fun _ => hctx i) hsend]
      simp only
      rw [ih f (i + 1) (some e) w1 w2 _ errs (by omega)
        (by
          have : i + 1 + j = i + (j + 1) := by omega
          rw [this]
          exact hi) hrest,
        Sender.attempts_succ s entries i (j + 1), List.append_assoc]

/-- The loop when every `Send` fails until the retries are used up, the context never
being cancelled. -/
theorem Sender.SendWithRetry.loop_exhausted (format : Time → String → String)
    (marshal : FieldMap → Except String String) (s : Sender) (h : Heap) (ctx : Context)
    (entries : List EntryPtr) (hctx : ∀ k, ctx.done k = none) :
    ∀ (m fuel i : Nat) (lastErr : Option GoError) (w w2 : Wire) (events : List Event)
      (errs : List GoError),
      m < fuel → ((i + m : Nat) : Int) = s.config.RetryCount + 1 →
      Sender.sendResults format marshal s h ctx entries m w = some (errs.map some, w2) →
      Sender.SendWithRetry.loop format marshal s h ctx entries fuel i lastErr w events
        = some (some (GoError.wrap
            ("failed after " ++ toString s.config.RetryCount ++ " retries: ")
            ((errs.getLast?).or lastErr)), w2, events ++ s.attempts entries i m) := by
  intro m
  induction m with
  | zero =>
    intro fuel i lastErr w w2 events errs hf hi hres
    simp only [Sender.sendResults, Option.some.injEq, Prod.mk.injEq] at hres
    obtain ⟨hnil, rfl⟩ := hres
    have herrs : errs = [] := by
      cases errs with
      | nil => rfl
      | cons e errs => simp at hnil
    subst herrs
    obtain ⟨f, rfl⟩ : ∃ f, fuel = f + 1 := ⟨fuel - 1, by omega⟩
    have hi0 : ¬ (i : Int) ≤ s.config.RetryCount := by
      simp only [Nat.add_zero] at hi
      omega
    rw [Sender.SendWithRetry.loop_exit format marshal s h ctx entries f i lastErr w events
      hi0]
    simp [Sender.attempts]
  | succ m ih =>
    intro fuel i lastErr w w2 events errs hf hi hres
    obtain ⟨r, rs1, w1, hrs, hsend, hrest⟩ :=
      Sender.sendResults_succ_eq format marshal s h ctx entries m w w2 _ hres
    cases errs with
    | nil => simp at hrs
    | cons e errs =>
      simp only [List.map_cons, List.cons.injEq] at hrs
      obtain ⟨rfl, rfl⟩ := hrs
      obtain ⟨f, rfl⟩ : ∃ f, fuel = f + 1 := ⟨fuel - 1, by omega⟩
      have hcast : ((i + (m + 1) : Nat) : Int) = (i : Int) + (m : Int) + 1 := by
        push_cast; ring
      have hi0 : (i : Int) ≤ s.config.RetryCount := by omega
      rw [Sender.SendWithRetry.loop_send format marshal s h ctx entries f i lastErr w w1
        events (some e) hi0 (fun _ => hctx i) hsend]
      simp only
      rw [ih f (i + 1) (some e) w1 w2 _ errs (by omega)
        (by
          have : i + 1 + m = i + (m + 1) := by omega
          rw [this]
          exact hi) hrest,
        Sender.attempts_succ s entries i m, List.append_assoc]
      cases errs with
      | nil => rfl
      | cons a errs =>
        obtain ⟨x, hx⟩ : ∃ x, (a :: errs).getLast? = some x := by
          cases hg : (a :: errs).getLast? with
          | some x => exact ⟨x, rfl⟩
          | none => simp at hg
        rw [List.getLast?_cons_cons, hx]
        rfl

/-- The loop when `Send` fails `n` times and the context is then cancelled during the
wait that follows. -/
theorem Sender.SendWithRetry.loop_cancelled (format : Time → String → String)
    (marshal : FieldMap → Except String String) (s : Sender) (h : Heap) (ctx : Context)
    (entries : List EntryPtr) (cerr : GoError) :
    ∀ (n fuel i : Nat) (lastErr : Option GoError) (w w2 : Wire) (events : List Event)
      (errs : List GoError),
      n < fuel → 0 < i + n → ((i + n : Nat) : Int) ≤ s.config.RetryCount →
      (∀ k, k < i + n → ctx.done k = none) → ctx.done (i + n) = some cerr →
      Sender.sendResults format marshal s h ctx entries n w = some (errs.map some, w2) →
      Sender.SendWithRetry.loop format marshal s h ctx entries fuel i lastErr w events
        = some (some cerr, w2,
            events ++ s.attempts entries i n ++ [Event.wait (s.backoff (i + n))]) := by
  intro n
  induction n with
  | zero =>
    intro fuel i lastErr w w2 events errs hf hpos hi hnot hdone hres
    simp only [Sender.sendResults, Option.some.injEq, Prod.mk.injEq] at hres
    obtain ⟨_, rfl⟩ := hres
    obtain ⟨f, rfl⟩ : ∃ f, fuel = f + 1 := ⟨fuel - 1, by omega⟩
    rw [Sender.SendWithRetry.loop_cancel format marshal s h ctx entries f i lastErr w events
      cerr (by simpa using hi) (by simpa using hpos) (by simpa using hdone)]
    simp [Sender.attempts]
  | succ n ih =>
    intro fuel i lastErr w w2 events errs hf hpos hi hnot hdone hres
    obtain ⟨r, rs1, w1, hrs, hsend, hrest⟩ :=
      Sender.sendResults_succ_eq format marshal s h ctx entries n w w2 _ hres
    cases errs with
    | nil => simp at hrs
    | cons e errs =>
      simp only [List.map_cons, List.cons.injEq] at hrs
      obtain ⟨rfl, rfl⟩ := hrs
      obtain ⟨f, rfl⟩ : ∃ f, fuel = f + 1 := ⟨fuel - 1, by omega⟩
      have hcast : ((i + (n + 1) : Nat) : Int) = (i : Int) + (n : Int) + 1 := by
        push_cast; ring
      have hi0 : (i : Int) ≤ s.config.RetryCount := by omega
      have hadd : i + 1 + n = i + (n + 1) := by omega
      rw [Sender.SendWithRetry.loop_send format marshal s h ctx entries f i lastErr w w1
        events (some e) hi0 (fun _ => hnot i (by omega)) hsend]
      simp only
      rw [ih f (i + 1) (some e) w1 w2 _ errs (by omega) (by omega)
        (by rw [hadd]; exact hi) (by rw [hadd]; exact hnot) (by rw [hadd]; exact hdone)
        hrest,
        Sender.attempts_succ s entries i n, hadd]
      simp only [List.append_assoc]

theorem Event.sends_append (a b : List Event) :
    Event.sends (a ++ b) = Event.sends a + Event.sends b := by
  induction a with
  | nil => simp [Event.sends]
  | cons ev a ih =>
    cases ev with
    | wait d => simpa [Event.sends] using ih
    | send es =>
      show Event.sends (a ++ b) + 1 = Event.sends a + 1 + Event.sends b
      rw [ih]; omega

theorem Event.waits_append (a b : List Event) :
    Event.waits (a ++ b) = Event.waits a ++ Event.waits b := by
  induction a with
  | nil => simp [Event.waits]
  | cons ev a ih =>
    cases ev with
    | wait d => simp [Event.waits, ih]
    | send es => simpa [Event.waits] using ih

theorem Sender.sends_attempts (s : Sender) (entries : List EntryPtr) :
    ∀ (n i : Nat), Event.sends (s.attempts entries i n) = n := by
  intro n
  induction n with
  | zero => intro i; rfl
  | succ n ih =>
    intro i
    by_cases hi : 0 < i
    · simp only [Sender.attempts, hi, if_true, Event.sends_append, Event.sends, ih]
      omega
    · simp only [Sender.attempts, hi, if_false, Event.sends_append, Event.sends, ih]
      omega

theorem Sender.waits_attempts_succ (s : Sender) (entries : List EntryPtr) :
    ∀ (n i : Nat),
      Event.waits (s.attempts entries (i + 1) n)
        = (List.range n).map (fun k => s.backoff (i + 1 + k)) := by
  intro n
  induction n with
  | zero => intro i; rfl
  | succ n ih =>
    intro i
    rw [Sender.attempts_add_one, Event.waits_append, ih, List.range_succ, List.map_append]
    simp [Sender.attempts, Event.waits]

theorem Sender.waits_schedule (s : Sender) (entries : List EntryPtr) (n : Nat) (c : Bool)
    (hc : c = true → 0 < n) :
    Event.waits (s.schedule entries n c)
      = (List.range (n - 1 + (if c then 1 else 0))).map (fun k => s.backoff (k + 1)) := by
  cases n with
  | zero =>
    cases c with
    | false => rfl
    | true => exact absurd (hc rfl) (Nat.lt_irrefl 0)
  | succ n =>
    have h0 : Event.waits (s.attempts entries 0 (n + 1))
        = (List.range n).map (fun k => s.backoff (k + 1)) := by
      rw [Sender.attempts_succ, Event.waits_append, Sender.waits_attempts_succ]
      simp [Sender.attempts, Event.waits, Nat.add_comm]
    cases c with
    | false => simpa [Sender.schedule] using h0
    | true =>
      simp only [Sender.schedule, if_true, Event.waits_append, h0, Nat.add_sub_cancel,
        List.range_succ, List.map_append]
      rfl

theorem Sender.sends_schedule (s : Sender) (entries : List EntryPtr) (n : Nat) (c : Bool) :
    Event.sends (s.schedule entries n c) = n := by
  cases c with
  | false => simp [Sender.schedule, Sender.sends_attempts]
  | true => simp [Sender.schedule, Event.sends_append, Sender.sends_attempts, Event.sends]

theorem Sender.backoff_eq_min (s : Sender) (i : Nat) :
    s.backoff i
      = min (wrapInt64 ((i : Int) * s.config.RetryInterval)) s.config.MaxRetryBackoff := by
  unfold Sender.backoff
  simp only
  split_ifs with hlt
  · exact (min_eq_right (le_of_lt hlt)).symm
  · exact (min_eq_left (not_lt.mp hlt)).symm

theorem Sender.backoff_le (s : Sender) (i : Nat) : s.backoff i ≤ s.config.MaxRetryBackoff := by
  rw [Sender.backoff_eq_min]
  exact min_le_right _ _

theorem Sender.backoff_exact (s : Sender) (i : Nat) (hlo : 0 ≤ s.config.RetryInterval)
    (hhi : (i : Int) * s.config.RetryInterval < 2 ^ 63) :
    s.backoff i = min ((i : Int) * s.config.RetryInterval) s.config.MaxRetryBackoff := by
  have h0 : (0 : Int) ≤ (i : Int) * s.config.RetryInterval :=
    Int.mul_nonneg (Int.natCast_nonneg i) hlo
  rw [Sender.backoff_eq_min, wrapInt64_of_mem_range (le_trans (by decide) h0) hhi]

theorem Sender.backoff_mono (s : Sender) (k i : Nat) (hki : k ≤ i)
    (hlo : 0 ≤ s.config.RetryInterval)
    (hhi : (i : Int) * s.config.RetryInterval < 2 ^ 63) : s.backoff k ≤ s.backoff i := by
  have hmul : (k : Int) * s.config.RetryInterval ≤ (i : Int) * s.config.RetryInterval :=
    Int.mul_le_mul_of_nonneg_right (Int.ofNat_le.mpr hki) hlo
  rw [Sender.backoff_exact s i hlo hhi, Sender.backoff_exact s k hlo (lt_of_le_of_lt hmul hhi)]
  exact min_le_min hmul (le_refl _)

theorem Sender.Send_error_iff_witness :
    ∃ (err : Option GoError) (w1 : Wire),
      sampleSender.Send sampleDateFormat sampleMarshal sampleHeap Context.background
          (sampleWire 1) [0, 1] = some (err, w1) ∧
      (err ≠ none ↔
        (∃ p ∈ [0, 1], ∃ m,
          LogEntry.ToJSON sampleDateFormat sampleMarshal sampleHeap p
            = some (Except.error m)) ∨
        ∃ body,
          Sender.Send.build sampleDateFormat sampleMarshal sampleSender sampleHeap "" [0, 1]
            = some (Except.ok body) ∧
          ((∃ e, (sampleWire 1).respond Context.background (sampleWire 1).requests.length body
              = BulkOutcome.failure e) ∨
            (∃ status decoded,
              (sampleWire 1).respond Context.background (sampleWire 1).requests.length body
                = BulkOutcome.response true status decoded) ∨
            (∃ status e,
              (sampleWire 1).respond Context.background (sampleWire 1).requests.length body
                = BulkOutcome.response false status (Except.error e)) ∨
            (∃ status items,
              (sampleWire 1).respond Context.background (sampleWire 1).requests.length body
                = BulkOutcome.response false status
                    (Except.ok (BulkResponse.mk true items))))) ∧
      (err = none ↔
        ∃ body status items,
          Sender.Send.build sampleDateFormat sampleMarshal sampleSender sampleHeap "" [0, 1]
            = some (Except.ok body) ∧
          (sampleWire 1).respond Context.background (sampleWire 1).requests.length body
            = BulkOutcome.response false status (Except.ok (BulkResponse.mk false items))) :=
  Sender.Send_error_iff sampleDateFormat sampleMarshal sampleSender sampleHeap
    Context.background (sampleWire 1) [0, 1] (by simp)
    (fun p hp => (sampleHeap_encodable p hp).elim (fun doc hdoc => ⟨Except.ok doc, hdoc⟩))

theorem Sender.attempts_send_entries (s : Sender) (entries : List EntryPtr) :
    ∀ (n i : Nat), ∀ ev ∈ s.attempts entries i n, ∀ es, ev = Event.send es → es = entries := by
  intro n
  induction n with
  | zero => intro i ev hev; simp [Sender.attempts] at hev
  | succ n ih =>
    intro i ev hev es hes
    subst hes
    simp only [Sender.attempts, List.mem_append, List.mem_singleton] at hev
    rcases hev with (hw | hs) | hrest
    · split_ifs at hw <;> simp at hw
    · exact Event.send.inj hs
    · exact ih (i + 1) _ hrest es rfl

theorem Sender.attempts_getLast (s : Sender) (entries : List EntryPtr) (n i : Nat) :
    (s.attempts entries i (n + 1)).getLast? = some (Event.send entries) := by
  rw [Sender.attempts_add_one]
  have h1 : s.attempts entries (i + n) 1
      = (if 0 < i + n then [Event.wait (s.backoff (i + n))] else []) ++ [Event.send entries] := by
    simp [Sender.attempts]
  rw [h1, ← List.append_assoc, List.getLast?_append]
  rfl

theorem Sender.SendWithRetry_shape (format : Time → String → String)
    (marshal : FieldMap → Except String String) (s : Sender) (h : Heap) (ctx : Context)
    (w : Wire) (entries : List EntryPtr)
    (hsafe : ∀ p ∈ entries, ∃ r, LogEntry.ToJSON format marshal h p = some r) :
    ∃ (err : Option GoError) (w1 : Wire) (n : Nat) (c : Bool) (rs : List (Option GoError)),
      s.SendWithRetry format marshal h ctx w entries
        = some (err, w1, s.schedule entries n c) ∧
      Sender.sendResults format marshal s h ctx entries n w = some (rs, w1) ∧
      (err = none ↔ rs.getLast? = some none) ∧
      (∀ r ∈ rs.dropLast, r ≠ none) ∧
      ((n : Int) ≤ max (s.config.RetryCount + 1) 0) ∧
      (c = true → 0 < n ∧ (n : Int) ≤ s.config.RetryCount ∧ err = ctx.done n ∧ err ≠ none) := by
  obtain ⟨err, w1, n, c, rs, hrun, hres, hnil, hdrop, hbound, hc⟩ :=
    Sender.SendWithRetry.loop_spec format marshal s h ctx entries
      (fun w => Sender.Send_total format marshal s h ctx entries hsafe w)
      ((s.config.RetryCount + 1).toNat + 1) 0 none w [] (by simp)
  simp only [Nat.zero_add, List.nil_append, Nat.cast_zero] at hrun hbound hc
  exact ⟨err, w1, n, c, rs, hrun, hres, hnil, hdrop, hbound, hc⟩

theorem sampleHeap_safe :
    ∀ p ∈ [0, 1], ∃ r, LogEntry.ToJSON sampleDateFormat sampleMarshal sampleHeap p = some r :=
  fun p hp => (sampleHeap_encodable p hp).elim (fun doc hdoc => ⟨Except.ok doc, hdoc⟩)

/-- **C14.** Every run of `SendWithRetry` (on entries none of which is a nil pointer) is a
sequence of attempts in which nothing precedes the `Send` of attempt 0 and the `Send` of
attempt `i`, `1 ≤ i ≤ RetryCount`, is preceded by one wait of `backoff i`: the waits of a
run are `backoff 1, backoff 2, ...` in that order, at most `RetryCount` of them. Here
`backoff i` is the smaller of `i * RetryInterval` (as the int64 product) and
`MaxRetryBackoff`, so it never exceeds `MaxRetryBackoff`; and when `RetryInterval` is not
negative and `i * RetryInterval` does not overflow, it is the smaller of the exact product
and `MaxRetryBackoff`, and no earlier wait is longer. -/
theorem Sender.SendWithRetry_waits (format : Time → String → String)
    (marshal : FieldMap → Except String String) (s : Sender) (h : Heap) (ctx : Context)
    (w : Wire) (entries : List EntryPtr) (i : Nat)
    (hsafe : ∀ p ∈ entries, ∃ r, LogEntry.ToJSON format marshal h p = some r)
    (hi1 : 1 ≤ i) (hi2 : (i : Int) ≤ s.config.RetryCount) :
    (∃ (err : Option GoError) (w1 : Wire) (n : Nat) (c : Bool),
      s.SendWithRetry format marshal h ctx w entries
        = some (err, w1, s.schedule entries n c) ∧
      Event.waits (s.schedule entries n c)
        = (List.range (Event.waits (s.schedule entries n c)).length).map
            (fun k => s.backoff (k + 1)) ∧
      ((Event.waits (s.schedule entries n c)).length : Int) ≤ s.config.RetryCount) ∧
    s.attempts entries 0 1 = [Event.send entries] ∧
    s.attempts entries i 1 = [Event.wait (s.backoff i), Event.send entries] ∧
    s.backoff i
      = min (wrapInt64 ((i : Int) * s.config.RetryInterval)) s.config.MaxRetryBackoff ∧
    s.backoff i ≤ s.config.MaxRetryBackoff ∧
    (0 ≤ s.config.RetryInterval → (i : Int) * s.config.RetryInterval < 2 ^ 63 →
      s.backoff i = min ((i : Int) * s.config.RetryInterval) s.config.MaxRetryBackoff ∧
      ∀ k : Nat, k ≤ i → s.backoff k ≤ s.backoff i) := by
  refine ⟨?_, by simp [Sender.attempts], ?_, Sender.backoff_eq_min s i, Sender.backoff_le s i,
    fun hlo hhi => ⟨Sender.backoff_exact s i hlo hhi,
      fun k hk => Sender.backoff_mono s k i hk hlo hhi⟩⟩
  · obtain ⟨err, w1, n, c, rs, hrun, _, _, _, hbound, hc⟩ :=
      Sender.SendWithRetry_shape format marshal s h ctx w entries hsafe
    have hw := Sender.waits_schedule s entries n c (fun hc1 => (hc hc1).1)
    refine ⟨err, w1, n, c, hrun, ?_, ?_⟩
    · rw [hw, List.length_map, List.length_range]
    · rw [hw, List.length_map, List.length_range]
      have hrc : (1 : Int) ≤ s.config.RetryCount := le_trans (by exact_mod_cast hi1) hi2
      have hmax : max (s.config.RetryCount + 1) 0 = s.config.RetryCount + 1 :=
        max_eq_left (by omega)
      rw [hmax] at hbound
      cases c with
      | false =>
        simp only [Bool.false_eq_true, if_false, Nat.add_zero]
        omega
      | true =>
        have hc1 := hc rfl
        simp only [if_true]
        omega
  · have hpos : 0 < i := hi1
    simp [Sender.attempts, hpos]

theorem Sender.SendWithRetry_waits_witness :
    (∃ (err : Option GoError) (w1 : Wire) (n : Nat) (c : Bool),
      sampleSender.SendWithRetry sampleDateFormat sampleMarshal sampleHeap Context.background
          (sampleWire 2) [0, 1]
        = some (err, w1, sampleSender.schedule [0, 1] n c) ∧
      Event.waits (sampleSender.schedule [0, 1] n c)
        = (List.range (Event.waits (sampleSender.schedule [0, 1] n c)).length).map
            (fun k => sampleSender.backoff (k + 1)) ∧
      ((Event.waits (sampleSender.schedule [0, 1] n c)).length : Int)
        ≤ sampleSender.config.RetryCount) ∧
    sampleSender.attempts [0, 1] 0 1 = [Event.send [0, 1]] ∧
    sampleSender.attempts [0, 1] 2 1
      = [Event.wait (sampleSender.backoff 2), Event.send [0, 1]] ∧
    sampleSender.backoff 2
      = min (wrapInt64 ((2 : Nat) * sampleSender.config.RetryInterval))
          sampleSender.config.MaxRetryBackoff ∧
    sampleSender.backoff 2 ≤ sampleSender.config.MaxRetryBackoff ∧
    sampleSender.backoff 2
      = min (((2 : Nat) : Int) * sampleSender.config.RetryInterval)
          sampleSender.config.MaxRetryBackoff ∧
    ∀ k : Nat, k ≤ 2 → sampleSender.backoff k ≤ sampleSender.backoff 2 :=
  have run := Sender.SendWithRetry_waits sampleDateFormat sampleMarshal sampleSender
    sampleHeap Context.background (sampleWire 2) [0, 1] 2 sampleHeap_safe (by decide)
    (by decide)
  ⟨run.1, run.2.1, run.2.2.1, run.2.2.2.1, run.2.2.2.2.1,
    run.2.2.2.2.2 (by decide) (by decide)⟩

/-- **C15.** If the first `j` calls of `Send` fail and call `j + 1` succeeds, with
`j ≤ RetryCount` and the context never cancelled, `SendWithRetry` returns `nil`, and what
it did is exactly `j + 1` calls of `Send`, each with the same entries, the last of them
the last thing it did, with the waits `backoff 1, ..., backoff j` in that order in
between; with `j = 2` that is send, wait `backoff 1`, send, wait `backoff 2`, send. -/
theorem Sender.SendWithRetry_succeeds_after (format : Time → String → String)
    (marshal : FieldMap → Except String String) (s : Sender) (h : Heap) (ctx : Context)
    (w w1 : Wire) (entries : List EntryPtr) (j : Nat) (errs : List GoError)
    (hj : (j : Int) ≤ s.config.RetryCount) (hctx : ∀ k, ctx.done k = none)
    (hres : Sender.sendResults format marshal s h ctx entries (j + 1) w
      = some (errs.map some ++ [none], w1)) :
    s.SendWithRetry format marshal h ctx w entries
      = some (none, w1, s.schedule entries (j + 1) false) ∧
    Event.sends (s.schedule entries (j + 1) false) = j + 1 ∧
    Event.waits (s.schedule entries (j + 1) false)
      = (List.range j).map (fun k => s.backoff (k + 1)) ∧
    (∀ k, k < j → s.backoff (k + 1)
      = min (wrapInt64 (((k + 1 : Nat) : Int) * s.config.RetryInterval))
          s.config.MaxRetryBackoff) ∧
    (∀ ev ∈ s.schedule entries (j + 1) false, ∀ es, ev = Event.send es → es = entries) ∧
    (s.schedule entries (j + 1) false).getLast? = some (Event.send entries) ∧
    s.schedule entries 3 false
      = [Event.send entries, Event.wait (s.backoff 1), Event.send entries,
          Event.wait (s.backoff 2), Event.send entries] := by
  have hfuel : j < (s.config.RetryCount + 1).toNat + 1 := by omega
  have hrun := Sender.SendWithRetry.loop_success format marshal s h ctx entries hctx j
    ((s.config.RetryCount + 1).toNat + 1) 0 none w w1 [] errs hfuel
    (by simpa using hj) hres
  have hsched : s.schedule entries (j + 1) false = s.attempts entries 0 (j + 1) := by
    simp [Sender.schedule]
  refine ⟨?_, Sender.sends_schedule s entries (j + 1) false, ?_,
    fun k _ => Sender.backoff_eq_min s (k + 1), ?_, ?_, ?_⟩
  · rw [hsched]
    simpa [Sender.SendWithRetry] using hrun
  · simpa using Sender.waits_schedule s entries (j + 1) false (by simp)
  · rw [hsched]
    exact Sender.attempts_send_entries s entries (j + 1) 0
  · rw [hsched]
    exact Sender.attempts_getLast s entries j 0
  · simp [Sender.schedule, Sender.attempts]

theorem Sender.SendWithRetry_succeeds_after_witness :
    sampleSender.SendWithRetry sampleDateFormat sampleMarshal sampleHeap Context.background
        (sampleWire 2) [1]
      = some (none,
          Wire.mk (sampleWire 2).respond
            [joinLines ["document", "document"], joinLines ["document", "document"],
              joinLines ["document", "document"]],
          sampleSender.schedule [1] (2 + 1) false) ∧
    Event.sends (sampleSender.schedule [1] (2 + 1) false) = 2 + 1 ∧
    Event.waits (sampleSender.schedule [1] (2 + 1) false)
      = (List.range 2).map (fun k => sampleSender.backoff (k + 1)) ∧
    (∀ k, k < 2 → sampleSender.backoff (k + 1)
      = min (wrapInt64 (((k + 1 : Nat) : Int) * sampleSender.config.RetryInterval))
          sampleSender.config.MaxRetryBackoff) ∧
    (∀ ev ∈ sampleSender.schedule [1] (2 + 1) false, ∀ es, ev = Event.send es → es = [1]) ∧
    (sampleSender.schedule [1] (2 + 1) false).getLast? = some (Event.send [1]) ∧
    sampleSender.schedule [1] 3 false
      = [Event.send [1], Event.wait (sampleSender.backoff 1), Event.send [1],
          Event.wait (sampleSender.backoff 2), Event.send [1]] :=
  Sender.SendWithRetry_succeeds_after sampleDateFormat sampleMarshal sampleSender sampleHeap
    Context.background (sampleWire 2)
    (Wire.mk (sampleWire 2).respond
      [joinLines ["document", "document"], joinLines ["document", "document"],
        joinLines ["document", "document"]])
    [1] 2
    [GoError.wrap "failed to send bulk request: " (some (GoError.new "connection refused")),
      GoError.wrap "failed to send bulk request: " (some (GoError.new "connection refused"))]
    (by decide) (fun _ => rfl) rfl

/-- **C16.** If every call of `Send` fails and the context is never cancelled, then with
`0 ≤ RetryCount` the run of `SendWithRetry` makes exactly `RetryCount + 1` calls of `Send`
and returns a non-nil error that wraps the error of the last call and whose text is
`failed after <RetryCount> retries: ` followed by the text of that error. -/
theorem Sender.SendWithRetry_exhausted (format : Time → String → String)
    (marshal : FieldMap → Except String String) (s : Sender) (h : Heap) (ctx : Context)
    (w w1 : Wire) (entries : List EntryPtr) (errs : List GoError)
    (hrc : 0 ≤ s.config.RetryCount) (hctx : ∀ k, ctx.done k = none)
    (hres : Sender.sendResults format marshal s h ctx entries
      (s.config.RetryCount + 1).toNat w = some (errs.map some, w1)) :
    ∃ last : GoError, errs.getLast? = some last ∧
      s.SendWithRetry format marshal h ctx w entries
        = some (some (GoError.wrap
              ("failed after " ++ toString s.config.RetryCount ++ " retries: ") (some last)),
            w1, s.schedule entries (s.config.RetryCount + 1).toNat false) ∧
      (Event.sends (s.schedule entries (s.config.RetryCount + 1).toNat false) : Int)
        = s.config.RetryCount + 1 ∧
      (GoError.wrap ("failed after " ++ toString s.config.RetryCount ++ " retries: ")
          (some last)).msg
        = "failed after " ++ toString s.config.RetryCount ++ " retries: " ++ last.msg ∧
      (GoError.wrap ("failed after " ++ toString s.config.RetryCount ++ " retries: ")
          (some last)).wraps = last.msg :: last.wraps := by
  have hlen := Sender.sendResults_length format marshal s h ctx entries _ w w1 _ hres
  rw [List.length_map] at hlen
  have hne : errs ≠ [] := by
    intro he
    rw [he, List.length_nil] at hlen
    omega
  obtain ⟨last, hlast⟩ : ∃ last, errs.getLast? = some last := by
    cases hg : errs.getLast? with
    | none => exact absurd (List.getLast?_eq_none_iff.mp hg) hne
    | some last => exact ⟨last, rfl⟩
  have hrun := Sender.SendWithRetry.loop_exhausted format marshal s h ctx entries hctx
    (s.config.RetryCount + 1).toNat ((s.config.RetryCount + 1).toNat + 1) 0 none w w1 []
    errs (Nat.lt_succ_self _) (by rw [Nat.zero_add, Int.toNat_of_nonneg (by omega)]) hres
  refine ⟨last, hlast, ?_, ?_, rfl, rfl⟩
  · rw [hlast] at hrun
    simpa [Sender.SendWithRetry, Sender.schedule] using hrun
  · rw [Sender.sends_schedule, Int.toNat_of_nonneg (by omega)]

theorem Sender.SendWithRetry_exhausted_witness :
    ∃ last : GoError,
      [GoError.wrap "failed to send bulk request: " (some (GoError.new "connection refused")),
        GoError.wrap "failed to send bulk request: " (some (GoError.new "connection refused")),
        GoError.wrap "failed to send bulk request: " (some (GoError.new "connection refused")),
        GoError.wrap "failed to send bulk request: " (some (GoError.new "connection refused"))
        ].getLast? = some last ∧
      sampleSender.SendWithRetry sampleDateFormat sampleMarshal sampleHeap Context.background
          (sampleWire 4) [1]
        = some (some (GoError.wrap
              ("failed after " ++ toString sampleSender.config.RetryCount ++ " retries: ")
              (some last)),
            Wire.mk (sampleWire 4).respond
              [joinLines ["document", "document"], joinLines ["document", "document"],
                joinLines ["document", "document"], joinLines ["document", "document"]],
            sampleSender.schedule [1] (sampleSender.config.RetryCount + 1).toNat false) ∧
      (Event.sends (sampleSender.schedule [1] (sampleSender.config.RetryCount + 1).toNat
          false) : Int) = sampleSender.config.RetryCount + 1 ∧
      (GoError.wrap
          ("failed after " ++ toString sampleSender.config.RetryCount ++ " retries: ")
          (some last)).msg
        = "failed after " ++ toString sampleSender.config.RetryCount ++ " retries: "
            ++ last.msg ∧
      (GoError.wrap
          ("failed after " ++ toString sampleSender.config.RetryCount ++ " retries: ")
          (some last)).wraps = last.msg :: last.wraps :=
  Sender.SendWithRetry_exhausted sampleDateFormat sampleMarshal sampleSender sampleHeap
    Context.background (sampleWire 4)
    (Wire.mk (sampleWire 4).respond
      [joinLines ["document", "document"], joinLines ["document", "document"],
        joinLines ["document", "document"], joinLines ["document", "document"]])
    [1]
    [GoError.wrap "failed to send bulk request: " (some (GoError.new "connection refused")),
      GoError.wrap "failed to send bulk request: " (some (GoError.new "connection refused")),
      GoError.wrap "failed to send bulk request: " (some (GoError.new "connection refused")),
      GoError.wrap "failed to send bulk request: " (some (GoError.new "connection refused"))]
    (by decide) (fun _ => rfl) rfl

theorem List.mem_iff_getLast_of_dropLast {α : Type} (rs : List α) (x : α)
    (hdrop : ∀ r ∈ rs.dropLast, r ≠ x) : x ∈ rs ↔ rs.getLast? = some x := by
  rcases List.eq_nil_or_concat rs with rfl | ⟨l, a, rfl⟩
  · simp
  · rw [List.concat_eq_append] at hdrop ⊢
    rw [List.dropLast_concat] at hdrop
    have hor : ∀ o : Option α, (some a).or o = some a := fun o => rfl
    simp only [List.mem_append, List.mem_singleton, List.getLast?_append, List.getLast?_singleton,
      hor, Option.some.injEq]
    constructor
    · rintro (hx | hx)
      · exact absurd rfl (hdrop x hx)
      · exact hx.symm
    · intro hx
      exact Or.inr hx.symm

/-- **C17.** Every run of `SendWithRetry` (on entries none of which is a nil pointer, for
every configuration, context and wire) ends; it returns `nil` if and only if one of the
calls of `Send` it made returned `nil`, which is then the last call it made and the last
thing it did; a run that made no call of `Send` returns a non-nil error. -/
theorem Sender.SendWithRetry_nil_iff (format : Time → String → String)
    (marshal : FieldMap → Except String String) (s : Sender) (h : Heap) (ctx : Context)
    (w : Wire) (entries : List EntryPtr)
    (hsafe : ∀ p ∈ entries, ∃ r, LogEntry.ToJSON format marshal h p = some r) :
    ∃ (err : Option GoError) (w1 : Wire) (events : List Event) (rs : List (Option GoError)),
      s.SendWithRetry format marshal h ctx w entries = some (err, w1, events) ∧
      Sender.sendResults format marshal s h ctx entries (Event.sends events) w
        = some (rs, w1) ∧
      (err = none ↔ none ∈ rs) ∧
      (err = none ↔ rs.getLast? = some none) ∧
      (err = none → events.getLast? = some (Event.send entries)) ∧
      (Event.sends events = 0 → err ≠ none) := by
  obtain ⟨err, w1, n, c, rs, hrun, hres, hnil, hdrop, _, hc⟩ :=
    Sender.SendWithRetry_shape format marshal s h ctx w entries hsafe
  have hlen := Sender.sendResults_length format marshal s h ctx entries n w w1 rs hres
  refine ⟨err, w1, s.schedule entries n c, rs, hrun, ?_, ?_, hnil, ?_, ?_⟩
  · rw [Sender.sends_schedule]
    exact hres
  · rw [hnil]
    exact (List.mem_iff_getLast_of_dropLast rs none hdrop).symm
  · intro herr
    have hcf : c = false := by
      cases c with
      | false => rfl
      | true => exact absurd herr (hc rfl).2.2.2
    have hn : n ≠ 0 := by
      intro h0
      rw [h0] at hlen
      rw [List.length_eq_zero.mp hlen] at hnil
      simp at hnil
      exact hnil herr
    obtain ⟨m, rfl⟩ := Nat.exists_eq_succ_of_ne_zero hn
    rw [hcf]
    simp only [Sender.schedule, Bool.false_eq_true, if_false, List.append_nil]
    exact Sender.attempts_getLast s entries m 0
  · rw [Sender.sends_schedule]
    intro h0 herr
    rw [h0] at hlen
    rw [List.length_eq_zero.mp hlen] at hnil
    simp at hnil
    exact hnil herr

theorem Sender.SendWithRetry_nil_iff_witness :
    ∃ (err : Option GoError) (w1 : Wire) (events : List Event) (rs : List (Option GoError)),
      sampleSender.SendWithRetry sampleDateFormat sampleMarshal sampleHeap Context.background
          (sampleWire 1) [0, 1] = some (err, w1, events) ∧
      Sender.sendResults sampleDateFormat sampleMarshal sampleSender sampleHeap
          Context.background [0, 1] (Event.sends events) (sampleWire 1) = some (rs, w1) ∧
      (err = none ↔ none ∈ rs) ∧
      (err = none ↔ rs.getLast? = some none) ∧
      (err = none → events.getLast? = some (Event.send [0, 1])) ∧
      (Event.sends events = 0 → err ≠ none) :=
  Sender.SendWithRetry_nil_iff sampleDateFormat sampleMarshal sampleSender sampleHeap
    Context.background (sampleWire 1) [0, 1] sampleHeap_safe

/-- **C18.** If the first `i` calls of `Send` fail and the context is cancelled (or its
deadline expires) during the wait before retry attempt `i`, `1 ≤ i ≤ RetryCount`,
`SendWithRetry` returns the error of the context; the cut-short wait is the last thing it
did, and it made exactly `i` calls of `Send`. -/
theorem Sender.SendWithRetry_cancelled (format : Time → String → String)
    (marshal : FieldMap → Except String String) (s : Sender) (h : Heap) (ctx : Context)
    (w w1 : Wire) (entries : List EntryPtr) (i : Nat) (errs : List GoError) (cerr : GoError)
    (hi1 : 1 ≤ i) (hi2 : (i : Int) ≤ s.config.RetryCount)
    (hbefore : ∀ k, k < i → ctx.done k = none) (hdone : ctx.done i = some cerr)
    (hres : Sender.sendResults format marshal s h ctx entries i w
      = some (errs.map some, w1)) :
    s.SendWithRetry format marshal h ctx w entries
      = some (some cerr, w1, s.schedule entries i true) ∧
    Event.sends (s.schedule entries i true) = i ∧
    (s.schedule entries i true).getLast? = some (Event.wait (s.backoff i)) ∧
    s.schedule entries i true = s.attempts entries 0 i ++ [Event.wait (s.backoff i)] := by
  have hfuel : i < (s.config.RetryCount + 1).toNat + 1 := by omega
  have hrun := Sender.SendWithRetry.loop_cancelled format marshal s h ctx entries cerr i
    ((s.config.RetryCount + 1).toNat + 1) 0 none w w1 [] errs hfuel
    (by omega) (by simpa using hi2) (by simpa using hbefore) (by simpa using hdone) hres
  have hsched : s.schedule entries i true
      = s.attempts entries 0 i ++ [Event.wait (s.backoff i)] := by
    simp [Sender.schedule]
  refine ⟨?_, Sender.sends_schedule s entries i true, ?_, hsched⟩
  · rw [hsched]
    simpa [Sender.SendWithRetry] using hrun
  · rw [hsched, List.getLast?_append]
    rfl

theorem Sender.SendWithRetry_cancelled_witness :
    sampleSender.SendWithRetry sampleDateFormat sampleMarshal sampleHeap
        (Context.mk (fun k => if k = 2 then some (GoError.new "context canceled") else none))
        (sampleWire 5) [1]
      = some (some (GoError.new "context canceled"),
          Wire.mk (sampleWire 5).respond
            [joinLines ["document", "document"], joinLines ["document", "document"]],
          sampleSender.schedule [1] 2 true) ∧
    Event.sends (sampleSender.schedule [1] 2 true) = 2 ∧
    (sampleSender.schedule [1] 2 true).getLast? = some (Event.wait (sampleSender.backoff 2)) ∧
    sampleSender.schedule [1] 2 true
      = sampleSender.attempts [1] 0 2 ++ [Event.wait (sampleSender.backoff 2)] :=
  Sender.SendWithRetry_cancelled sampleDateFormat sampleMarshal sampleSender sampleHeap
    (Context.mk (fun k => if k = 2 then some (GoError.new "context canceled") else none))
    (sampleWire 5)
    (Wire.mk (sampleWire 5).respond
      [joinLines ["document", "document"], joinLines ["document", "document"]])
    [1] 2
    [GoError.wrap "failed to send bulk request: " (some (GoError.new "connection refused")),
      GoError.wrap "failed to send bulk request: " (some (GoError.new "connection refused"))]
    (GoError.new "context canceled") (by decide) (by decide)
    (fun k hk => by
      have hk2 : k ≠ 2 := Nat.ne_of_lt hk
      simp [hk2])
    rfl rfl

/-! ## Client -/

theorem Heap.assign_spec (h : Heap) (p : EntryPtr) (f : LogEntry → LogEntry) (e : LogEntry)
    (he : h.entries[p]? = some e) :
    ∃ h1, h.assign p f = some h1 ∧ h1.maps = h.maps ∧ h1.entries[p]? = some (f e) ∧
      (∀ q : Nat, q ≠ p → h1.entries[q]? = h.entries[q]?) ∧
      h1.entries.length = h.entries.length := by
  have hp : p < h.entries.length := by
    by_contra hge
    rw [List.getElem?_eq_none (Nat.le_of_not_lt hge)] at he
    cases he
  refine ⟨{ h with entries := h.entries.set p (f e) }, by simp [Heap.assign, he], rfl, ?_, ?_,
    by simp⟩
  · simp [List.getElem?_set, hp]
  · intro q hq
    simp only [List.getElem?_set]
    rw [if_neg (fun hpq => hq hpq.symm)]

theorem NewLogEntry_spec (h : Heap) (level : LogLevel) (message : String)
    (fields : Option MapRef) (now : Time) :
    (NewLogEntry h level message fields now).1 = h.entries.length ∧
    (NewLogEntry h level message fields now).2.maps = h.maps ∧
    (NewLogEntry h level message fields now).2.entries
      = h.entries ++ [LogEntry.mk now level message "" "" "" fields "" "" "" ""] := by
  simp [NewLogEntry, Heap.allocEntry]

/-- The assignments of `Log` go through when the pointer is not nil, and leave in the cell
the entry with the metadata of the client. -/
theorem Client.Log.metadata_spec (c : Client) (h : Heap) (entry : EntryPtr) (e : LogEntry)
    (he : h.entries[entry]? = some e) :
    ∃ h1, Client.Log.metadata c h entry = some h1 ∧ h1.maps = h.maps ∧
      h1.entries[entry]?
        = some { e with
            ServiceName := c.config.ServiceName, Environment := c.config.Environment,
            HostName := if c.config.EnableHostInfo then c.hostName else e.HostName,
            IP := if c.config.EnableHostInfo then c.hostIP else e.IP } ∧
      (∀ q : Nat, q ≠ entry → h1.entries[q]? = h.entries[q]?) ∧
      h1.entries.length = h.entries.length := by
  obtain ⟨h1, ha1, hm1, he1, ho1, hl1⟩ :=
    Heap.assign_spec h entry (fun e => { e with ServiceName := c.config.ServiceName }) e he
  obtain ⟨h2, ha2, hm2, he2, ho2, hl2⟩ :=
    Heap.assign_spec h1 entry (fun e => { e with Environment := c.config.Environment }) _ he1
  by_cases hhost : c.config.EnableHostInfo = true
  · obtain ⟨h3, ha3, hm3, he3, ho3, hl3⟩ :=
      Heap.assign_spec h2 entry (fun e => { e with HostName := c.hostName }) _ he2
    obtain ⟨h4, ha4, hm4, he4, ho4, hl4⟩ :=
      Heap.assign_spec h3 entry (fun e => { e with IP := c.hostIP }) _ he3
    refine ⟨h4, ?_, ?_, ?_, ?_, ?_⟩
    · simp [Client.Log.metadata, ha1, ha2, ha3, ha4, hhost]
    · rw [hm4, hm3, hm2, hm1]
    · rw [he4]
      simp [hhost]
    · intro q hq
      rw [ho4 q hq, ho3 q hq, ho2 q hq, ho1 q hq]
    · rw [hl4, hl3, hl2, hl1]
  · refine ⟨h2, ?_, ?_, ?_, ?_, ?_⟩
    · simp [Client.Log.metadata, ha1, ha2, hhost]
    · rw [hm2, hm1]
    · rw [he2]
      simp [hhost]
    · intro q hq
      rw [ho2 q hq, ho1 q hq]
    · rw [hl2, hl1]

/-- In a call of `Log` on an open client the assignments to the new entry go through. -/
theorem Client.Log.metadata_new (c : Client) (h : Heap) (now : Time) (level : LogLevel)
    (message : String) (fields : Option MapRef) :
    ∃ h1, Client.Log.metadata c (NewLogEntry h level message fields now).2
        (NewLogEntry h level message fields now).1 = some h1 ∧
      h1.maps = h.maps ∧
      h1.entries = h.entries ++ [LogEntry.mk now level message "" "" "" fields
        c.config.ServiceName c.config.Environment
        (if c.config.EnableHostInfo then c.hostName else "")
        (if c.config.EnableHostInfo then c.hostIP else "")] := by
  obtain ⟨hp, hm, hes⟩ := NewLogEntry_spec h level message fields now
  have he : (NewLogEntry h level message fields now).2.entries[
      (NewLogEntry h level message fields now).1]?
      = some (LogEntry.mk now level message "" "" "" fields "" "" "" "") := by
    rw [hp, hes]
    simp
  obtain ⟨h1, hmeta, hm1, he1, ho1, hl1⟩ := Client.Log.metadata_spec c _ _ _ he
  refine ⟨h1, hmeta, by rw [hm1, hm], ?_⟩
  apply List.ext_getElem?
  intro q
  by_cases hq : q = h.entries.length
  · subst hq
    rw [hp] at he1
    rw [he1]
    simp
  · rw [ho1 q (by rw [hp]; exact hq), hes]
    by_cases hlt : q < h.entries.length
    · rw [List.getElem?_append_left hlt, List.getElem?_append_left hlt]
    · have hgt : h.entries.length < q := by omega
      rw [List.getElem?_eq_none (by simp; omega), List.getElem?_eq_none (by simp; omega)]

/-- **C19.** On a client with `closed` set, `Log` returns the error `client is closed`,
whatever the level, message and fields, and leaves the client and the heap as they were:
no counter of the metrics is incremented and nothing is put in the queue. -/
theorem Client.Log_closed (c : Client) (h : Heap) (now : Time) (level : LogLevel)
    (message : String) (fields : Option MapRef) (hclosed : c.closed = true) :
    ∃ (err : GoError) (c1 : Client) (h1 : Heap),
      c.Log h now level message fields = some (LogOutcome.returned (some err), c1, h1) ∧
      err.msg = "client is closed" ∧
      c1 = c ∧ h1 = h ∧
      c1.metrics.TotalLogs = c.metrics.TotalLogs ∧
      c1.metrics.SuccessLogs = c.metrics.SuccessLogs ∧
      c1.metrics.FailedLogs = c.metrics.FailedLogs ∧
      c1.metrics.DroppedLogs = c.metrics.DroppedLogs ∧
      c1.metrics.Snapshot = c.metrics.Snapshot ∧
      c1.queue.buf = c.queue.buf := by
  refine ⟨GoError.new "client is closed", c, h, ?_, rfl, rfl, rfl, rfl, rfl, rfl, rfl, rfl,
    rfl⟩
  simp [Client.Log, hclosed]

theorem Client.Log_closed_witness :
    ∃ (err : GoError) (c1 : Client) (h1 : Heap),
      (Client.mk sampleClient.config sampleSender sampleClient.batch (Chan.mk [0] 2)
          NewMetrics.IncTotal true "host-1" "10.0.0.7" true).Log sampleHeap
          (Time.mk 1700000000000000000 0) LevelError "late message" (some 0)
        = some (LogOutcome.returned (some err), c1, h1) ∧
      err.msg = "client is closed" ∧
      c1 = Client.mk sampleClient.config sampleSender sampleClient.batch (Chan.mk [0] 2)
          NewMetrics.IncTotal true "host-1" "10.0.0.7" true ∧
      h1 = sampleHeap ∧
      c1.metrics.TotalLogs = NewMetrics.IncTotal.TotalLogs ∧
      c1.metrics.SuccessLogs = NewMetrics.IncTotal.SuccessLogs ∧
      c1.metrics.FailedLogs = NewMetrics.IncTotal.FailedLogs ∧
      c1.metrics.DroppedLogs = NewMetrics.IncTotal.DroppedLogs ∧
      c1.metrics.Snapshot = NewMetrics.IncTotal.Snapshot ∧
      c1.queue.buf = [0] :=
  Client.Log_closed
    (Client.mk sampleClient.config sampleSender sampleClient.batch (Chan.mk [0] 2)
      NewMetrics.IncTotal true "host-1" "10.0.0.7" true)
    sampleHeap (Time.mk 1700000000000000000 0) LevelError "late message" (some 0) rfl

/-- **C20.** On an open client whose queue is full and whose configuration has
`DiscardOnFull` set, `Log` returns `nil` (the queue is a buffered channel: its capacity is
positive); the client after the call differs from the one
before only in its metrics, which are those after `IncTotal` and `IncDropped`: with both
counters below the largest `int64`, the dropped counter and the total counter are each
exactly 1 higher, while the success and failed counters and the contents of the queue are
as before. -/
theorem Client.Log_discard_on_full (c : Client) (h : Heap) (now : Time) (level : LogLevel)
    (message : String) (fields : Option MapRef) (hopen : c.closed = false)
    (hfull : 0 < c.queue.cap ∧ c.queue.cap ≤ c.queue.buf.length) (hdiscard : c.config.DiscardOnFull = true)
    (htotal : -(2 ^ 63) ≤ c.metrics.TotalLogs ∧ c.metrics.TotalLogs + 1 < 2 ^ 63)
    (hdropped : -(2 ^ 63) ≤ c.metrics.DroppedLogs ∧ c.metrics.DroppedLogs + 1 < 2 ^ 63) :
    ∃ (c1 : Client) (h1 : Heap),
      c.Log h now level message fields = some (LogOutcome.returned none, c1, h1) ∧
      c1 = { c with metrics := c.metrics.IncTotal.IncDropped } ∧
      c1.metrics.DroppedLogs = c.metrics.DroppedLogs + 1 ∧
      c1.metrics.TotalLogs = c.metrics.TotalLogs + 1 ∧
      c1.metrics.SuccessLogs = c.metrics.SuccessLogs ∧
      c1.metrics.FailedLogs = c.metrics.FailedLogs ∧
      c1.queue = c.queue ∧ c1.batch = c.batch ∧ c1.closed = false := by
  obtain ⟨h1, hmeta, _, _⟩ := Client.Log.metadata_new c h now level message fields
  have hsend : ∀ p, c.queue.trySend p = none := by
    intro p
    simp [Chan.trySend, Nat.not_lt.mpr hfull.2]
  refine ⟨{ c with metrics := c.metrics.IncTotal.IncDropped }, h1, ?_, rfl, ?_, ?_, rfl, rfl,
    rfl, rfl, hopen⟩
  · simp [Client.Log, hopen, hmeta, hsend, hdiscard]
  · show atomicAddInt64 c.metrics.DroppedLogs 1 = c.metrics.DroppedLogs + 1
    unfold atomicAddInt64
    exact wrapInt64_of_mem_range (le_trans hdropped.1 (by omega)) hdropped.2
  · show atomicAddInt64 c.metrics.TotalLogs 1 = c.metrics.TotalLogs + 1
    unfold atomicAddInt64
    exact wrapInt64_of_mem_range (le_trans htotal.1 (by omega)) htotal.2

theorem Client.Log_discard_on_full_witness :
    ∃ (c1 : Client) (h1 : Heap),
      sampleClient.Log sampleHeap (Time.mk 1700000000000000000 0) LevelWarn "one too many"
          (some 0) = some (LogOutcome.returned none, c1, h1) ∧
      c1 = { sampleClient with metrics := sampleClient.metrics.IncTotal.IncDropped } ∧
      c1.metrics.DroppedLogs = sampleClient.metrics.DroppedLogs + 1 ∧
      c1.metrics.TotalLogs = sampleClient.metrics.TotalLogs + 1 ∧
      c1.metrics.SuccessLogs = sampleClient.metrics.SuccessLogs ∧
      c1.metrics.FailedLogs = sampleClient.metrics.FailedLogs ∧
      c1.queue = sampleClient.queue ∧ c1.batch = sampleClient.batch ∧ c1.closed = false :=
  Client.Log_discard_on_full sampleClient sampleHeap (Time.mk 1700000000000000000 0)
    LevelWarn "one too many" (some 0) rfl (by decide) rfl (by decide) (by decide)

/-! ## Batch and Metrics: resets -/

/-- **C26.** As amended: `Flush`, called at time `t` on a batch with at least one pending
entry, leaves the last-flush time at `t`; called on a batch with no pending entry it
returns at the guard `len(b.entries) == 0`, and the last-flush time stays what it was. -/
theorem Batch.Flush_lastFlush (b : Batch) (now : Time) (h : 0 ≤ b.maxSize) :
    ∃ out b1, b.Flush now = some (out, b1) ∧
      b1.lastFlush = (if b.entries.length = 0 then b.lastFlush else now) ∧
      (b.entries.length = 0 → out = [] ∧ b1 = b) := by
  refine ⟨_, _, Batch.Flush_of_nonneg b now h, ?_, ?_⟩
  · by_cases he : b.entries.length = 0
    · simp [he]
    · simp [he]
  · intro he
    exact ⟨List.length_eq_zero.mp he, by simp [he]⟩

theorem Batch.Flush_lastFlush_witness :
    ∃ out b1, (Batch.mk [3, 1, 2] 10 5000 ⟨0, 0⟩).Flush ⟨7, 0⟩ = some (out, b1) ∧
      b1.lastFlush
        = (if (Batch.mk [3, 1, 2] 10 5000 ⟨0, 0⟩).entries.length = 0
            then (Batch.mk [3, 1, 2] 10 5000 ⟨0, 0⟩).lastFlush else ⟨7, 0⟩) ∧
      ((Batch.mk [3, 1, 2] 10 5000 ⟨0, 0⟩).entries.length = 0 →
        out = [] ∧ b1 = Batch.mk [3, 1, 2] 10 5000 ⟨0, 0⟩) :=
  Batch.Flush_lastFlush (Batch.mk [3, 1, 2] 10 5000 ⟨0, 0⟩) ⟨7, 0⟩ (by decide)

/-- The claim C26 as stated fails on the empty batch: `Flush` called at time 7 on a batch
without pending entries whose last flush was at time 0 returns the empty result and leaves
the last-flush time at 0. -/
theorem Batch.Flush_empty_keeps_lastFlush :
    (Batch.mk [] 10 5000 ⟨0, 0⟩).Flush ⟨7, 0⟩ = some ([], Batch.mk [] 10 5000 ⟨0, 0⟩) ∧
    (Batch.mk [] 10 5000 ⟨0, 0⟩).lastFlush ≠ ⟨7, 0⟩ ∧
    ¬ ∀ (b : Batch) (now : Time) (out : List EntryPtr) (b1 : Batch),
        b.Flush now = some (out, b1) → b1.lastFlush = now := by
  refine ⟨rfl, by decide, ?_⟩
  intro hall
  have h7 := hall (Batch.mk [] 10 5000 ⟨0, 0⟩) ⟨7, 0⟩ [] (Batch.mk [] 10 5000 ⟨0, 0⟩) rfl
  revert h7
  decide

/-- **C27.** `Clear`, called at time `t`, leaves the batch with no pending entry and the
last-flush time `t`, the maximal size and the maximal age as they were; what was pending
is handed to nobody: a `Flush` right after returns the empty result and `ShouldFlush` is
false, at whatever time they are called. -/
theorem Batch.Clear_spec (b : Batch) (now : Time) (h : 0 ≤ b.maxSize) :
    ∃ b1, b.Clear now = some b1 ∧ b1.entries = [] ∧ (b1.Size).1 = 0 ∧
      b1.lastFlush = now ∧ b1.maxSize = b.maxSize ∧ b1.timeout = b.timeout ∧
      (∀ later : Time, b1.Flush later = some ([], b1)) ∧
      (∀ later : Time, b1.ShouldFlush later = (false, b1)) := by
  refine ⟨{ b with entries := [], lastFlush := now }, ?_, rfl, rfl, rfl, rfl, rfl, ?_, ?_⟩
  · simp [Batch.Clear, makeEntries_of_nonneg h]
  · intro later
    simp [Batch.Flush]
  · intro later
    simp [Batch.ShouldFlush]

theorem Batch.Clear_spec_witness :
    ∃ b1, (Batch.mk [3, 1, 2] 10 5000 ⟨0, 0⟩).Clear ⟨7, 0⟩ = some b1 ∧ b1.entries = [] ∧
      (b1.Size).1 = 0 ∧ b1.lastFlush = ⟨7, 0⟩ ∧
      b1.maxSize = (Batch.mk [3, 1, 2] 10 5000 ⟨0, 0⟩).maxSize ∧
      b1.timeout = (Batch.mk [3, 1, 2] 10 5000 ⟨0, 0⟩).timeout ∧
      (∀ later : Time, b1.Flush later = some ([], b1)) ∧
      (∀ later : Time, b1.ShouldFlush later = (false, b1)) :=
  Batch.Clear_spec (Batch.mk [3, 1, 2] 10 5000 ⟨0, 0⟩) ⟨7, 0⟩ (by decide)

theorem Metrics.Reset_eq (m : Metrics) : m.Reset = NewMetrics := rfl

/-- **C28.** After `Reset`, whatever the metrics were, the latency sum and count are zero
and `Snapshot` reports the four counters and the average latency as 0; a second `Reset`
changes nothing; and after any sequence of atomic instructions of the increment
operations and `RecordLatency` that follows, each counter is the number of its own
increments in that sequence (that number being below `2^63`). -/
theorem Metrics.Reset_spec (m : Metrics) (ops : List MetricsOp) (c : Counter)
    (h : ((ops.count (MetricsOp.inc c) : Nat) : Int) < 2 ^ 63) :
    m.Reset.Snapshot = some (MetricsSnapshot.mk 0 0 0 0 0, m.Reset) ∧
    m.Reset.totalLatency = 0 ∧ m.Reset.latencyCount = 0 ∧
    m.Reset.Reset = m.Reset ∧
    (m.Reset.exec ops).counter c = ((ops.count (MetricsOp.inc c) : Nat) : Int) := by
  refine ⟨rfl, rfl, rfl, rfl, ?_⟩
  rw [Metrics.Reset_eq, Metrics.exec_counter]
  have hlo : -(2 ^ 63) ≤ ((ops.count (MetricsOp.inc c) : Nat) : Int) := by
    have : (0 : Int) ≤ ((ops.count (MetricsOp.inc c) : Nat) : Int) := Int.natCast_nonneg _
    omega
  exact wrapInt64_of_mem_range hlo h

theorem Metrics.Reset_spec_witness :
    (Metrics.mk 12 7 3 2 9000000 4).Reset.Snapshot
      = some (MetricsSnapshot.mk 0 0 0 0 0, (Metrics.mk 12 7 3 2 9000000 4).Reset) ∧
    (Metrics.mk 12 7 3 2 9000000 4).Reset.totalLatency = 0 ∧
    (Metrics.mk 12 7 3 2 9000000 4).Reset.latencyCount = 0 ∧
    (Metrics.mk 12 7 3 2 9000000 4).Reset.Reset = (Metrics.mk 12 7 3 2 9000000 4).Reset ∧
    ((Metrics.mk 12 7 3 2 9000000 4).Reset.exec
        [.inc .total, .inc .failed, .addTotalLatency 5, .inc .total]).counter .total
      = ((List.count (MetricsOp.inc .total)
          [.inc .total, .inc .failed, .addTotalLatency 5, .inc .total] : Nat) : Int) :=
  Metrics.Reset_spec (Metrics.mk 12 7 3 2 9000000 4)
    [.inc .total, .inc .failed, .addTotalLatency 5, .inc .total] .total (by decide)

/-! ## Client: `Log` on an open client -/

/-- **C21.** On an open client whose queue has room, `Log` returns `nil`; the total
counter is exactly 1 higher (it being below the largest `int64`) and the other counters
are as before; exactly one pointer is appended at the tail of the queue, and the entry it
points to is new: its time is the reading of the clock, its level, message and fields are
the arguments, its service name and environment are those of the configuration, and its
host name and IP are those of the client when `EnableHostInfo` is set and empty
otherwise; nothing else in the heap changes. -/
theorem Client.Log_enqueues (c : Client) (h : Heap) (now : Time) (level : LogLevel)
    (message : String) (fields : Option MapRef) (hopen : c.closed = false)
    (hroom : c.queue.buf.length < c.queue.cap)
    (htotal : -(2 ^ 63) ≤ c.metrics.TotalLogs ∧ c.metrics.TotalLogs + 1 < 2 ^ 63) :
    ∃ (c1 : Client) (h1 : Heap),
      c.Log h now level message fields = some (LogOutcome.returned none, c1, h1) ∧
      c1 = { c with
        metrics := c.metrics.IncTotal,
        queue := { c.queue with buf := c.queue.buf ++ [h.entries.length] } } ∧
      c1.metrics.TotalLogs = c.metrics.TotalLogs + 1 ∧
      c1.metrics.DroppedLogs = c.metrics.DroppedLogs ∧
      c1.metrics.SuccessLogs = c.metrics.SuccessLogs ∧
      c1.metrics.FailedLogs = c.metrics.FailedLogs ∧
      c1.queue.buf = c.queue.buf ++ [h.entries.length] ∧
      h1.maps = h.maps ∧
      h1.entries = h.entries ++ [LogEntry.mk now level message "" "" "" fields
        c.config.ServiceName c.config.Environment
        (if c.config.EnableHostInfo then c.hostName else "")
        (if c.config.EnableHostInfo then c.hostIP else "")] := by
  obtain ⟨h1, hmeta, hmaps, hentries⟩ :=
    Client.Log.metadata_new c h now level message fields
  have hptr : (NewLogEntry h level message fields now).1 = h.entries.length :=
    (NewLogEntry_spec h level message fields now).1
  refine ⟨_, h1, ?_, rfl, ?_, rfl, rfl, rfl, rfl, hmaps, hentries⟩
  · have hmeta1 := hmeta
    rw [hptr] at hmeta1
    simp [Client.Log, hopen, hmeta1, Chan.trySend, hroom, hptr]
  · show atomicAddInt64 c.metrics.TotalLogs 1 = c.metrics.TotalLogs + 1
    unfold atomicAddInt64
    exact wrapInt64_of_mem_range (le_trans htotal.1 (by omega)) htotal.2

theorem Client.Log_enqueues_witness :
    ∃ (c1 : Client) (h1 : Heap),
      (Client.mk sampleClient.config sampleSender sampleClient.batch (Chan.mk [0] 2)
          NewMetrics false "host-1" "10.0.0.7" false).Log sampleHeap
          (Time.mk 1700000000000000000 0) LevelWarn "disk almost full" (some 0)
        = some (LogOutcome.returned none, c1, h1) ∧
      c1 = Client.mk sampleClient.config sampleSender sampleClient.batch
        (Chan.mk ([0] ++ [sampleHeap.entries.length]) 2) NewMetrics.IncTotal false "host-1"
        "10.0.0.7" false ∧
      c1.metrics.TotalLogs = NewMetrics.TotalLogs + 1 ∧
      c1.metrics.DroppedLogs = NewMetrics.DroppedLogs ∧
      c1.metrics.SuccessLogs = NewMetrics.SuccessLogs ∧
      c1.metrics.FailedLogs = NewMetrics.FailedLogs ∧
      c1.queue.buf = [0] ++ [sampleHeap.entries.length] ∧
      h1.maps = sampleHeap.maps ∧
      h1.entries = sampleHeap.entries ++ [LogEntry.mk (Time.mk 1700000000000000000 0)
        LevelWarn "disk almost full" "" "" "" (some 0)
        sampleClient.config.ServiceName sampleClient.config.Environment
        (if sampleClient.config.EnableHostInfo then "host-1" else "")
        (if sampleClient.config.EnableHostInfo then "10.0.0.7" else "")] :=
  Client.Log_enqueues
    (Client.mk sampleClient.config sampleSender sampleClient.batch (Chan.mk [0] 2)
      NewMetrics false "host-1" "10.0.0.7" false)
    sampleHeap (Time.mk 1700000000000000000 0) LevelWarn "disk almost full" (some 0) rfl
    (by decide) (by decide)

/-- **C22.** On an open client whose queue is full and whose configuration has
`DiscardOnFull` unset, `Log` counts the call in the total counter (exactly 1 higher) and
blocks in its second `select` with the new entry in hand. If the send of that `select`
proceeds, which it does from a state `cs` of the client where the queue has room, the
entry goes to the tail of the queue, `Log` returns `nil` and the counters stay as `cs`
has them. In a state `ct` where the queue is still full the send cannot proceed; when the
timer of 5 seconds fires there, `Log` returns the error `queue is full, log dropped`, the
dropped counter is exactly 1 higher, the total counter and the queue are as in `ct`. -/
theorem Client.Log_blocks_then (c : Client) (h : Heap) (now : Time) (level : LogLevel)
    (message : String) (fields : Option MapRef) (cs ct : Client)
    (hopen : c.closed = false)
    (hfull : 0 < c.queue.cap ∧ c.queue.cap ≤ c.queue.buf.length)
    (hkeep : c.config.DiscardOnFull = false)
    (htotal : -(2 ^ 63) ≤ c.metrics.TotalLogs ∧ c.metrics.TotalLogs + 1 < 2 ^ 63)
    (hspace : cs.queue.buf.length < cs.queue.cap)
    (hstill : ct.queue.cap ≤ ct.queue.buf.length)
    (hdropped : -(2 ^ 63) ≤ ct.metrics.DroppedLogs ∧ ct.metrics.DroppedLogs + 1 < 2 ^ 63) :
    ∃ (entry : EntryPtr) (c1 : Client) (h1 : Heap),
      c.Log h now level message fields = some (LogOutcome.blocked entry, c1, h1) ∧
      c1 = { c with metrics := c.metrics.IncTotal } ∧
      c1.metrics.TotalLogs = c.metrics.TotalLogs + 1 ∧
      c1.metrics.DroppedLogs = c.metrics.DroppedLogs ∧
      c1.queue = c.queue ∧
      Client.Log.wait cs entry false
        = some (none, { cs with queue := { cs.queue with buf := cs.queue.buf ++ [entry] } }) ∧
      Client.Log.wait ct entry false = none ∧
      ∃ err : GoError,
        Client.Log.wait ct entry true
          = some (some err, { ct with metrics := ct.metrics.IncDropped }) ∧
        err.msg = "queue is full, log dropped" ∧
        ct.metrics.IncDropped.DroppedLogs = ct.metrics.DroppedLogs + 1 ∧
        ct.metrics.IncDropped.TotalLogs = ct.metrics.TotalLogs := by
  obtain ⟨h1, hmeta, _, _⟩ := Client.Log.metadata_new c h now level message fields
  have hsend : ∀ p, c.queue.trySend p = none := by
    intro p
    simp [Chan.trySend, Nat.not_lt.mpr hfull.2]
  refine ⟨(NewLogEntry h level message fields now).1, { c with metrics := c.metrics.IncTotal },
    h1, ?_, rfl, ?_, rfl, rfl, ?_, ?_, GoError.new "queue is full, log dropped", ?_, rfl, ?_,
    rfl⟩
  · simp [Client.Log, hopen, hmeta, hsend, hkeep]
  · show atomicAddInt64 c.metrics.TotalLogs 1 = c.metrics.TotalLogs + 1
    unfold atomicAddInt64
    exact wrapInt64_of_mem_range (le_trans htotal.1 (by omega)) htotal.2
  · simp [Client.Log.wait, Chan.trySend, hspace]
  · simp [Client.Log.wait, Chan.trySend, Nat.not_lt.mpr hstill]
  · simp [Client.Log.wait]
  · show atomicAddInt64 ct.metrics.DroppedLogs 1 = ct.metrics.DroppedLogs + 1
    unfold atomicAddInt64
    exact wrapInt64_of_mem_range (le_trans hdropped.1 (by omega)) hdropped.2

theorem Client.Log_blocks_then_witness :
    ∃ (entry : EntryPtr) (c1 : Client) (h1 : Heap),
      (Client.mk DefaultConfig sampleSender sampleClient.batch (Chan.mk [0, 1] 2)
          NewMetrics false "host-1" "10.0.0.7" false).Log sampleHeap
          (Time.mk 1700000000000000000 0) LevelInfo "waiting for room" none
        = some (LogOutcome.blocked entry, c1, h1) ∧
      c1 = Client.mk DefaultConfig sampleSender sampleClient.batch (Chan.mk [0, 1] 2)
          NewMetrics.IncTotal false "host-1" "10.0.0.7" false ∧
      c1.metrics.TotalLogs = NewMetrics.TotalLogs + 1 ∧
      c1.metrics.DroppedLogs = NewMetrics.DroppedLogs ∧
      c1.queue = Chan.mk [0, 1] 2 ∧
      Client.Log.wait
          (Client.mk DefaultConfig sampleSender sampleClient.batch (Chan.mk [1] 2)
            NewMetrics.IncTotal false "host-1" "10.0.0.7" false) entry false
        = some (none,
            Client.mk DefaultConfig sampleSender sampleClient.batch (Chan.mk ([1] ++ [entry]) 2)
              NewMetrics.IncTotal false "host-1" "10.0.0.7" false) ∧
      Client.Log.wait
          (Client.mk DefaultConfig sampleSender sampleClient.batch (Chan.mk [0, 1] 2)
            NewMetrics.IncTotal false "host-1" "10.0.0.7" false) entry false = none ∧
      ∃ err : GoError,
        Client.Log.wait
            (Client.mk DefaultConfig sampleSender sampleClient.batch (Chan.mk [0, 1] 2)
              NewMetrics.IncTotal false "host-1" "10.0.0.7" false) entry true
          = some (some err,
              Client.mk DefaultConfig sampleSender sampleClient.batch (Chan.mk [0, 1] 2)
                NewMetrics.IncTotal.IncDropped false "host-1" "10.0.0.7" false) ∧
        err.msg = "queue is full, log dropped" ∧
        NewMetrics.IncTotal.IncDropped.DroppedLogs = NewMetrics.IncTotal.DroppedLogs + 1 ∧
        NewMetrics.IncTotal.IncDropped.TotalLogs = NewMetrics.IncTotal.TotalLogs :=
  Client.Log_blocks_then
    (Client.mk DefaultConfig sampleSender sampleClient.batch (Chan.mk [0, 1] 2)
      NewMetrics false "host-1" "10.0.0.7" false)
    sampleHeap (Time.mk 1700000000000000000 0) LevelInfo "waiting for room" none
    (Client.mk DefaultConfig sampleSender sampleClient.batch (Chan.mk [1] 2)
      NewMetrics.IncTotal false "host-1" "10.0.0.7" false)
    (Client.mk DefaultConfig sampleSender sampleClient.batch (Chan.mk [0, 1] 2)
      NewMetrics.IncTotal false "host-1" "10.0.0.7" false)
    rfl (by decide) rfl (by decide) (by decide) (by decide) (by decide)

/-! ## Client: `flush`, the worker, `Close` -/

theorem Client.flush_empty (format : Time → String → String)
    (marshal : FieldMap → Except String String) (c : Client) (h : Heap) (w : Wire)
    (now : Time) (ctx : Context) (hempty : c.batch.entries = []) :
    Client.flush format marshal c h w now ctx = some ([], c, w) := by
  simp [Client.flush, Batch.Flush, hempty]

theorem Client.flush_nonempty (format : Time → String → String)
    (marshal : FieldMap → Except String String) (c : Client) (h : Heap) (w w1 : Wire)
    (now : Time) (ctx : Context) (err : Option GoError) (events : List Event)
    (hcap : 0 ≤ c.batch.maxSize) (hne : c.batch.entries ≠ [])
    (hsend : c.sender.SendWithRetry format marshal h ctx w c.batch.entries
      = some (err, w1, events)) :
    Client.flush format marshal c h w now ctx
      = some ([SenderCall.mk c.batch.entries err events],
          { c with
            batch := { c.batch with entries := [], lastFlush := now },
            metrics := if err = none then c.metrics.IncSuccess else c.metrics.IncFailed },
          w1) := by
  have hlen : c.batch.entries.length ≠ 0 := fun e => hne (List.length_eq_zero.mp e)
  unfold Client.flush
  rw [Batch.Flush_of_nonneg c.batch now hcap]
  simp only [hlen, if_false, hsend]
  cases err with
  | none => simp
  | some e => simp

/-- **C24.** `flush`, and `Flush` which is the same, on a client whose batch is empty
calls no operation of the sender and changes nothing. Otherwise it leaves the batch empty,
calls `SendWithRetry` exactly once, with the entries that were pending, in their order,
and increments the success counter by exactly 1 when that call returned `nil` and the
failed counter by exactly 1 when it returned an error, the other counters staying as they
were; the queue is untouched in both cases, so that after a failure the entries are
neither in the batch nor in the queue. -/
theorem Client.flush_spec (format : Time → String → String)
    (marshal : FieldMap → Except String String) (c : Client) (h : Heap) (w : Wire)
    (now : Time) (ctx : Context) (hcap : 0 ≤ c.batch.maxSize)
    (hsafe : ∀ p ∈ c.batch.entries, ∃ r, LogEntry.ToJSON format marshal h p = some r)
    (hsuccess : -(2 ^ 63) ≤ c.metrics.SuccessLogs ∧ c.metrics.SuccessLogs + 1 < 2 ^ 63)
    (hfailed : -(2 ^ 63) ≤ c.metrics.FailedLogs ∧ c.metrics.FailedLogs + 1 < 2 ^ 63) :
    ∃ (calls : List SenderCall) (c1 : Client) (w1 : Wire),
      Client.flush format marshal c h w now ctx = some (calls, c1, w1) ∧
      Client.Flush format marshal c h w now ctx = some (calls, c1, w1) ∧
      c1.batch.entries = [] ∧ c1.queue = c.queue ∧
      c1.metrics.TotalLogs = c.metrics.TotalLogs ∧
      c1.metrics.DroppedLogs = c.metrics.DroppedLogs ∧
      (if c.batch.entries = [] then calls = [] ∧ c1 = c ∧ w1 = w
       else ∃ (err : Option GoError) (events : List Event),
        c.sender.SendWithRetry format marshal h ctx w c.batch.entries
          = some (err, w1, events) ∧
        calls = [SenderCall.mk c.batch.entries err events] ∧
        c1.metrics.SuccessLogs = c.metrics.SuccessLogs + (if err = none then 1 else 0) ∧
        c1.metrics.FailedLogs = c.metrics.FailedLogs + (if err = none then 0 else 1)) := by
  by_cases hempty : c.batch.entries = []
  · have hrun := Client.flush_empty format marshal c h w now ctx hempty
    exact ⟨[], c, w, hrun, hrun, hempty, rfl, rfl, rfl, by simp [hempty]⟩
  · obtain ⟨err, w1, n, cancelled, rs, hsend, _⟩ :=
      Sender.SendWithRetry_shape format marshal c.sender h ctx w c.batch.entries hsafe
    have hrun := Client.flush_nonempty format marshal c h w w1 now ctx err _ hcap hempty hsend
    refine ⟨_, _, w1, hrun, hrun, rfl, rfl, ?_, ?_, ?_⟩
    · cases err <;> rfl
    · cases err <;> rfl
    · rw [if_neg hempty]
      refine ⟨err, _, hsend, rfl, ?_, ?_⟩
      · cases err with
        | none =>
          show atomicAddInt64 c.metrics.SuccessLogs 1 = c.metrics.SuccessLogs + 1
          unfold atomicAddInt64
          exact wrapInt64_of_mem_range (le_trans hsuccess.1 (by omega)) hsuccess.2
        | some e => simp [Metrics.IncFailed]
      · cases err with
        | none => simp [Metrics.IncSuccess]
        | some e =>
          show atomicAddInt64 c.metrics.FailedLogs 1 = c.metrics.FailedLogs + _
          unfold atomicAddInt64
          simp only [reduceCtorEq, if_false]
          exact wrapInt64_of_mem_range (le_trans hfailed.1 (by omega)) hfailed.2

theorem Client.flush_spec_witness :
    ∃ (calls : List SenderCall) (c1 : Client) (w1 : Wire),
      Client.flush sampleDateFormat sampleMarshal samplePendingClient sampleHeap
          (sampleWire 0) (Time.mk 7 0) Context.background = some (calls, c1, w1) ∧
      Client.Flush sampleDateFormat sampleMarshal samplePendingClient sampleHeap
          (sampleWire 0) (Time.mk 7 0) Context.background = some (calls, c1, w1) ∧
      c1.batch.entries = [] ∧ c1.queue = samplePendingClient.queue ∧
      c1.metrics.TotalLogs = samplePendingClient.metrics.TotalLogs ∧
      c1.metrics.DroppedLogs = samplePendingClient.metrics.DroppedLogs ∧
      (if samplePendingClient.batch.entries = [] then
        calls = [] ∧ c1 = samplePendingClient ∧ w1 = sampleWire 0
       else ∃ (err : Option GoError) (events : List Event),
        samplePendingClient.sender.SendWithRetry sampleDateFormat sampleMarshal sampleHeap
            Context.background (sampleWire 0) samplePendingClient.batch.entries
          = some (err, w1, events) ∧
        calls = [SenderCall.mk samplePendingClient.batch.entries err events] ∧
        c1.metrics.SuccessLogs
          = samplePendingClient.metrics.SuccessLogs + (if err = none then 1 else 0) ∧
        c1.metrics.FailedLogs
          = samplePendingClient.metrics.FailedLogs + (if err = none then 0 else 1)) :=
  Client.flush_spec sampleDateFormat sampleMarshal samplePendingClient sampleHeap
    (sampleWire 0) (Time.mk 7 0) Context.background (by decide) sampleHeap_safe (by decide)
    (by decide)

/-- The flush of the sample client with two pending entries, evaluated: one call of
`SendWithRetry` with both entries, one `Send`, and the success counter at 1. -/
theorem Client.flush_sample :
    (Client.flush sampleDateFormat sampleMarshal samplePendingClient sampleHeap
        (sampleWire 0) (Time.mk 7 0) Context.background).map
      (fun r => (r.1, r.2.1.batch.entries, r.2.1.metrics.SuccessLogs,
        r.2.1.metrics.FailedLogs, r.2.2.requests.length))
      = some ([SenderCall.mk [0, 1] none [Event.send [0, 1]]], [], 1, 0, 1) := by
  rfl

/-- What `flush` leaves alone. -/
theorem Client.flush_frame (format : Time → String → String)
    (marshal : FieldMap → Except String String) (c c1 : Client) (h : Heap) (w w1 : Wire)
    (now : Time) (ctx : Context) (calls : List SenderCall)
    (hrun : Client.flush format marshal c h w now ctx = some (calls, c1, w1)) :
    c1.closed = c.closed ∧ c1.cancelled = c.cancelled ∧ c1.queue = c.queue ∧
    c1.config = c.config ∧ c1.sender = c.sender ∧
    c1.metrics.TotalLogs = c.metrics.TotalLogs ∧
    c1.metrics.DroppedLogs = c.metrics.DroppedLogs := by
  unfold Client.flush at hrun
  cases hflush : c.batch.Flush now with
  | none => simp [hflush] at hrun
  | some r =>
    obtain ⟨entries, batch⟩ := r
    simp only [hflush] at hrun
    by_cases hlen : entries.length = 0
    · simp only [hlen, if_true, Option.some.injEq, Prod.mk.injEq] at hrun
      obtain ⟨_, rfl, _⟩ := hrun
      exact ⟨rfl, rfl, rfl, rfl, rfl, rfl, rfl⟩
    · simp only [hlen, if_false] at hrun
      cases hsend : c.sender.SendWithRetry format marshal h ctx w entries with
      | none => simp [hsend] at hrun
      | some r =>
        obtain ⟨err, w2, events⟩ := r
        simp only [hsend] at hrun
        cases err with
        | none =>
          simp only [Option.some.injEq, Prod.mk.injEq] at hrun
          obtain ⟨_, rfl, _⟩ := hrun
          exact ⟨rfl, rfl, rfl, rfl, rfl, rfl, rfl⟩
        | some e =>
          simp only [Option.some.injEq, Prod.mk.injEq] at hrun
          obtain ⟨_, rfl, _⟩ := hrun
          exact ⟨rfl, rfl, rfl, rfl, rfl, rfl, rfl⟩

/-- No operation of the client other than `Close` assigns to `closed`. -/
theorem Client.Log_closed_eq (c c1 : Client) (h h1 : Heap) (now : Time) (level : LogLevel)
    (message : String) (fields : Option MapRef) (out : LogOutcome)
    (hrun : c.Log h now level message fields = some (out, c1, h1)) :
    c1.closed = c.closed := by
  unfold Client.Log at hrun
  by_cases hclosed : c.closed = true
  · simp only [hclosed, if_true, Option.some.injEq, Prod.mk.injEq] at hrun
    rw [← hrun.2.1]
  · have hc : c.closed = false := by simpa using hclosed
    simp only [hclosed, Bool.false_eq_true, if_false] at hrun
    cases hmeta : Client.Log.metadata c
        (NewLogEntry h level message fields now).2 (NewLogEntry h level message fields now).1 with
    | none => simp [hmeta] at hrun
    | some h2 =>
      simp only [hmeta] at hrun
      cases hsend : c.queue.trySend (NewLogEntry h level message fields now).1 with
      | some q =>
        simp only [hsend, Option.some.injEq, Prod.mk.injEq] at hrun
        rw [← hrun.2.1]
        exact hc.symm
      | none =>
        simp only [hsend] at hrun
        by_cases hd : c.config.DiscardOnFull = true
        · simp only [hd, if_true, Option.some.injEq, Prod.mk.injEq] at hrun
          rw [← hrun.2.1]
          exact hc.symm
        · simp only [hd, Bool.false_eq_true, if_false, Option.some.injEq, Prod.mk.injEq] at hrun
          rw [← hrun.2.1]
          exact hc.symm

theorem Client.Log.wait_closed_eq (c c1 : Client) (entry : EntryPtr) (timedOut : Bool)
    (err : Option GoError) (hrun : Client.Log.wait c entry timedOut = some (err, c1)) :
    c1.closed = c.closed := by
  unfold Client.Log.wait at hrun
  cases timedOut with
  | true =>
    simp only [if_true, Option.some.injEq, Prod.mk.injEq] at hrun
    rw [← hrun.2]
  | false =>
    cases hsend : c.queue.trySend entry with
    | none => simp [hsend] at hrun
    | some q =>
      simp only [hsend, Bool.false_eq_true, if_false, Option.some.injEq, Prod.mk.injEq] at hrun
      rw [← hrun.2]

theorem Client.worker.step_closed_eq (format : Time → String → String)
    (marshal : FieldMap → Except String String) (c c1 : Client) (h : Heap) (w w1 : Wire)
    (startTime flushNow : Time) (ctx : Context) (endTime : Time) (calls : List SenderCall)
    (hrun : Client.worker.step format marshal c h w startTime flushNow ctx endTime
      = some (calls, c1, w1)) :
    c1.closed = c.closed := by
  unfold Client.worker.step at hrun
  cases hrecv : c.queue.tryRecv with
  | none => simp [hrecv] at hrun
  | some r =>
    obtain ⟨entry, queue⟩ := r
    simp only [hrecv, Client.worker.process] at hrun
    by_cases hadd : (c.batch.Add entry).1 = true
    · simp only [hadd, if_true] at hrun
      cases hflush : Client.flush format marshal
          { c with queue := queue, batch := (c.batch.Add entry).2 } h w flushNow ctx with
      | none => simp [hflush] at hrun
      | some r =>
        obtain ⟨calls2, c2, w2⟩ := r
        simp only [hflush, Option.some.injEq, Prod.mk.injEq] at hrun
        rw [← hrun.2.1]
        exact (Client.flush_frame format marshal _ c2 h w w2 flushNow ctx calls2 hflush).1
    · simp only [hadd, Bool.false_eq_true, if_false, Option.some.injEq, Prod.mk.injEq] at hrun
      rw [← hrun.2.1]

theorem Client.flusher.tick_closed_eq (format : Time → String → String)
    (marshal : FieldMap → Except String String) (c c1 : Client) (h : Heap) (w w1 : Wire)
    (now flushNow : Time) (ctx : Context) (calls : List SenderCall)
    (hrun : Client.flusher.tick format marshal c h w now flushNow ctx = some (calls, c1, w1)) :
    c1.closed = c.closed := by
  unfold Client.flusher.tick at hrun
  by_cases hshould : (c.batch.ShouldFlush now).1 = true
  · simp only [hshould, if_true] at hrun
    exact (Client.flush_frame format marshal _ c1 h w w1 flushNow ctx calls hrun).1
  · simp only [hshould, Bool.false_eq_true, if_false, Option.some.injEq, Prod.mk.injEq] at hrun
    rw [← hrun.2.1]

/-- The flush returns, on a batch whose capacity is not negative and whose entries are not
nil pointers, and leaves the batch empty. -/
theorem Client.flush_spec_run (format : Time → String → String)
    (marshal : FieldMap → Except String String) (c : Client) (h : Heap) (w : Wire)
    (now : Time) (ctx : Context) (hcap : 0 ≤ c.batch.maxSize)
    (hsafe : ∀ p ∈ c.batch.entries, ∃ r, LogEntry.ToJSON format marshal h p = some r) :
    ∃ (calls : List SenderCall) (c1 : Client) (w1 : Wire),
      Client.flush format marshal c h w now ctx = some (calls, c1, w1) ∧
      calls.length ≤ 1 ∧ c1.batch.entries = [] ∧ c1.batch.maxSize = c.batch.maxSize := by
  by_cases hempty : c.batch.entries = []
  · exact ⟨[], c, w, Client.flush_empty format marshal c h w now ctx hempty, by simp, hempty,
      rfl⟩
  · obtain ⟨err, w1, n, cancelled, rs, hsend, _⟩ :=
      Sender.SendWithRetry_shape format marshal c.sender h ctx w c.batch.entries hsafe
    exact ⟨_, _, w1,
      Client.flush_nonempty format marshal c h w w1 now ctx err _ hcap hempty hsend, by simp,
      rfl, rfl⟩

theorem Client.Close_of_closed (format : Time → String → String)
    (marshal : FieldMap → Except String String) (c : Client) (h : Heap) (w : Wire)
    (now : Time) (ctx : Context) (hclosed : c.closed = true) :
    Client.Close format marshal c h w now ctx = some (none, [], c, w) := by
  simp [Client.Close, Client.Close.begin, hclosed]

theorem Client.GetMetrics_eq (c : Client) :
    ∃ avg, c.GetMetrics
      = some (MetricsSnapshot.mk c.metrics.TotalLogs c.metrics.SuccessLogs
          c.metrics.FailedLogs c.metrics.DroppedLogs avg, c) := by
  obtain ⟨avg, _, hs⟩ := c.metrics.Snapshot_eq
  exact ⟨avg, by simp [Client.GetMetrics, hs]⟩

/-- **C23.** The first call of `Close`, on an open client `c`, sets `closed`, gives the
shutdown signal, runs the last `flush` and closes the sender, whose `nil` it returns; a
second call right after it, and any call on a client `cc` with `closed` set, returns `nil`
and changes nothing: no flush, no call of the sender, no counter changed. No operation
clears `closed`: after `Log`, the second `select` of `Log`, `flush`, a worker iteration, a
flusher tick or `Close` from `cc` the flag is still set. So `Log` on `cc` fails with the
error `client is closed`, while `GetMetrics` still returns the counters. -/
theorem Client.Close_idempotent (format : Time → String → String)
    (marshal : FieldMap → Except String String) (c cc : Client) (h : Heap) (w : Wire)
    (now : Time) (ctx : Context) (hopen : c.closed = false) (hcap : 0 ≤ c.batch.maxSize)
    (hsafe : ∀ p ∈ c.batch.entries, ∃ r, LogEntry.ToJSON format marshal h p = some r)
    (hclosed : cc.closed = true) :
    (∃ (calls : List SenderCall) (c1 : Client) (w1 : Wire),
      Client.Close format marshal c h w now ctx = some (none, calls, c1, w1) ∧
      Client.Close.begin c = (true, { c with closed := true, cancelled := true }) ∧
      Client.flush format marshal { c with closed := true, cancelled := true } h w now ctx
        = some (calls, c1, w1) ∧
      c1.sender.Close = (none, c1.sender) ∧
      c1.closed = true ∧ c1.cancelled = true ∧ c1.batch.entries = [] ∧
      ∀ (h2 : Heap) (w2 : Wire) (now2 : Time) (ctx2 : Context),
        Client.Close format marshal c1 h2 w2 now2 ctx2 = some (none, [], c1, w2)) ∧
    Client.Close format marshal cc h w now ctx = some (none, [], cc, w) ∧
    (∀ (level : LogLevel) (message : String) (fields : Option MapRef),
      cc.Log h now level message fields
        = some (LogOutcome.returned (some (GoError.new "client is closed")), cc, h)) ∧
    (∃ avg, cc.GetMetrics
      = some (MetricsSnapshot.mk cc.metrics.TotalLogs cc.metrics.SuccessLogs
          cc.metrics.FailedLogs cc.metrics.DroppedLogs avg, cc)) ∧
    (∀ (entry : EntryPtr) (timedOut : Bool) (err : Option GoError) (c2 : Client),
      Client.Log.wait cc entry timedOut = some (err, c2) → c2.closed = true) ∧
    (∀ (calls : List SenderCall) (c2 : Client) (w2 : Wire),
      Client.flush format marshal cc h w now ctx = some (calls, c2, w2) → c2.closed = true) ∧
    (∀ (startTime endTime : Time) (calls : List SenderCall) (c2 : Client) (w2 : Wire),
      Client.worker.step format marshal cc h w startTime now ctx endTime
        = some (calls, c2, w2) → c2.closed = true) ∧
    (∀ (tickTime : Time) (calls : List SenderCall) (c2 : Client) (w2 : Wire),
      Client.flusher.tick format marshal cc h w tickTime now ctx = some (calls, c2, w2) →
      c2.closed = true) := by
  refine ⟨?_, Client.Close_of_closed format marshal cc h w now ctx hclosed, ?_,
    Client.GetMetrics_eq cc, ?_, ?_, ?_, ?_⟩
  · obtain ⟨calls, c1, w1, hflush, _, hentries, _⟩ :=
      Client.flush_spec_run format marshal { c with closed := true, cancelled := true } h w now
        ctx hcap hsafe
    have hframe := Client.flush_frame format marshal _ c1 h w w1 now ctx calls hflush
    have hc1 : c1.closed = true := hframe.1
    refine ⟨calls, c1, w1, ?_, by simp [Client.Close.begin, hopen], hflush, rfl, hc1,
      hframe.2.1, hentries, ?_⟩
    · simp [Client.Close, Client.Close.begin, Client.Close.finish, hopen, hflush,
        Sender.Close]
    · intro h2 w2 now2 ctx2
      exact Client.Close_of_closed format marshal c1 h2 w2 now2 ctx2 hc1
  · intro level message fields
    simp [Client.Log, hclosed]
  · intro entry timedOut err c2 hrun
    rw [Client.Log.wait_closed_eq cc c2 entry timedOut err hrun, hclosed]
  · intro calls c2 w2 hrun
    rw [(Client.flush_frame format marshal cc c2 h w w2 now ctx calls hrun).1, hclosed]
  · intro startTime endTime calls c2 w2 hrun
    rw [Client.worker.step_closed_eq format marshal cc c2 h w w2 startTime now ctx endTime
      calls hrun, hclosed]
  · intro tickTime calls c2 w2 hrun
    rw [Client.flusher.tick_closed_eq format marshal cc c2 h w w2 tickTime now ctx calls hrun,
      hclosed]

theorem Client.Close_idempotent_witness :
    (∃ (calls : List SenderCall) (c1 : Client) (w1 : Wire),
      Client.Close sampleDateFormat sampleMarshal samplePendingClient sampleHeap
          (sampleWire 0) (Time.mk 7 0) Context.background = some (none, calls, c1, w1) ∧
      Client.Close.begin samplePendingClient
        = (true, { samplePendingClient with closed := true, cancelled := true }) ∧
      Client.flush sampleDateFormat sampleMarshal
          { samplePendingClient with closed := true, cancelled := true } sampleHeap
          (sampleWire 0) (Time.mk 7 0) Context.background = some (calls, c1, w1) ∧
      c1.sender.Close = (none, c1.sender) ∧
      c1.closed = true ∧ c1.cancelled = true ∧ c1.batch.entries = [] ∧
      ∀ (h2 : Heap) (w2 : Wire) (now2 : Time) (ctx2 : Context),
        Client.Close sampleDateFormat sampleMarshal c1 h2 w2 now2 ctx2
          = some (none, [], c1, w2)) ∧
    Client.Close sampleDateFormat sampleMarshal sampleClosedClient sampleHeap (sampleWire 0)
        (Time.mk 7 0) Context.background = some (none, [], sampleClosedClient, sampleWire 0) ∧
    (∀ (level : LogLevel) (message : String) (fields : Option MapRef),
      sampleClosedClient.Log sampleHeap (Time.mk 7 0) level message fields
        = some (LogOutcome.returned (some (GoError.new "client is closed")),
            sampleClosedClient, sampleHeap)) ∧
    (∃ avg, sampleClosedClient.GetMetrics
      = some (MetricsSnapshot.mk sampleClosedClient.metrics.TotalLogs
          sampleClosedClient.metrics.SuccessLogs sampleClosedClient.metrics.FailedLogs
          sampleClosedClient.metrics.DroppedLogs avg, sampleClosedClient)) ∧
    (∀ (entry : EntryPtr) (timedOut : Bool) (err : Option GoError) (c2 : Client),
      Client.Log.wait sampleClosedClient entry timedOut = some (err, c2) →
      c2.closed = true) ∧
    (∀ (calls : List SenderCall) (c2 : Client) (w2 : Wire),
      Client.flush sampleDateFormat sampleMarshal sampleClosedClient sampleHeap
          (sampleWire 0) (Time.mk 7 0) Context.background = some (calls, c2, w2) →
      c2.closed = true) ∧
    (∀ (startTime endTime : Time) (calls : List SenderCall) (c2 : Client) (w2 : Wire),
      Client.worker.step sampleDateFormat sampleMarshal sampleClosedClient sampleHeap
          (sampleWire 0) startTime (Time.mk 7 0) Context.background endTime
        = some (calls, c2, w2) → c2.closed = true) ∧
    (∀ (tickTime : Time) (calls : List SenderCall) (c2 : Client) (w2 : Wire),
      Client.flusher.tick sampleDateFormat sampleMarshal sampleClosedClient sampleHeap
          (sampleWire 0) tickTime (Time.mk 7 0) Context.background = some (calls, c2, w2) →
      c2.closed = true) :=
  Client.Close_idempotent sampleDateFormat sampleMarshal samplePendingClient
    sampleClosedClient sampleHeap (sampleWire 0) (Time.mk 7 0) Context.background rfl
    (by decide) sampleHeap_safe rfl

/-- The first `Close` of the sample client with two pending entries, evaluated: the last
flush sends both entries, and the client is left closed with an empty batch. -/
theorem Client.Close_sample :
    (Client.Close sampleDateFormat sampleMarshal samplePendingClient sampleHeap
        (sampleWire 0) (Time.mk 7 0) Context.background).map
      (fun r => (r.1, r.2.1, r.2.2.1.closed, r.2.2.1.cancelled, r.2.2.1.batch.entries,
        r.2.2.1.metrics.SuccessLogs))
      = some (none, [SenderCall.mk [0, 1] none [Event.send [0, 1]]], true, true, [], 1) := by
  rfl

/-- The body of a worker iteration with the readings of the clock given: what it calls
and where the latency it records goes. -/
theorem Client.worker.process_run (format : Time → String → String)
    (marshal : FieldMap → Except String String) (c : Client) (h : Heap) (w : Wire)
    (entry : EntryPtr) (startTime flushNow : Time) (ctx : Context) (endTime : Time)
    (hcap : 0 ≤ c.batch.maxSize)
    (hsafe : ∀ p ∈ c.batch.entries ++ [entry],
      ∃ r, LogEntry.ToJSON format marshal h p = some r) :
    ∃ (calls : List SenderCall) (c1 c2 : Client) (w1 : Wire),
      Client.worker.process format marshal c h w entry startTime flushNow ctx endTime
        = some (calls, c1, w1) ∧
      (if (c.batch.Add entry).1 = true then
        Client.flush format marshal { c with batch := (c.batch.Add entry).2 } h w flushNow ctx
          = some (calls, c2, w1) ∧
        (∃ (err : Option GoError) (events : List Event),
          c.sender.SendWithRetry format marshal h ctx w (c.batch.entries ++ [entry])
            = some (err, w1, events) ∧
          calls = [SenderCall.mk (c.batch.entries ++ [entry]) err events]) ∧
        c1.batch.lastFlush = flushNow
       else calls = [] ∧ c2 = { c with batch := (c.batch.Add entry).2 } ∧ w1 = w) ∧
      c1 = { c2 with metrics := c2.metrics.RecordLatency (Since endTime startTime) } ∧
      c1.metrics.totalLatency
        = wrapInt64 (c.metrics.totalLatency + Since endTime startTime) ∧
      c1.metrics.latencyCount = wrapInt64 (c.metrics.latencyCount + 1) := by
  by_cases hadd : (c.batch.Add entry).1 = true
  · have hne : (c.batch.Add entry).2.entries ≠ [] := by simp [Batch.Add]
    obtain ⟨err, w1, n, cancelled, rs, hsend, _⟩ :=
      Sender.SendWithRetry_shape format marshal c.sender h ctx w (c.batch.entries ++ [entry])
        hsafe
    have hflush := Client.flush_nonempty format marshal
      { c with batch := (c.batch.Add entry).2 } h w w1 flushNow ctx err _ hcap hne hsend
    generalize hc2 : ({ c with
        batch := { (c.batch.Add entry).2 with entries := [], lastFlush := flushNow },
        metrics := if err = none then c.metrics.IncSuccess else c.metrics.IncFailed }
        : Client) = c2 at hflush
    refine ⟨[SenderCall.mk (c.batch.entries ++ [entry]) err
        (c.sender.schedule (c.batch.entries ++ [entry]) n cancelled)],
      { c2 with metrics := c2.metrics.RecordLatency (Since endTime startTime) }, c2,
      w1, ?_, ?_, rfl, ?_, ?_⟩
    · simp only [Client.worker.process, hadd, if_true, hflush]
      rfl
    · rw [if_pos hadd]
      refine ⟨hflush, ⟨err, _, hsend, rfl⟩, ?_⟩
      rw [← hc2]
    · rw [← hc2]
      cases err <;> rfl
    · rw [← hc2]
      cases err <;> rfl
  · refine ⟨[], { c with
        batch := (c.batch.Add entry).2,
        metrics := c.metrics.RecordLatency (Since endTime startTime) },
      { c with batch := (c.batch.Add entry).2 }, w, ?_, ?_, rfl, rfl, rfl⟩
    · simp only [Client.worker.process, hadd, Bool.false_eq_true, if_false]
    · rw [if_neg hadd]
      exact ⟨rfl, rfl, rfl⟩

/-- The waits that ended with the timer lasted at least their durations. -/
theorem Event.completedWaits_sum_le (step : Nat → Nat) (events : List Event) :
    ∀ k : Nat, (Event.completedWaits events).sum ≤ (Event.elapsed step k events : Int) := by
  induction events with
  | nil =>
    intro k
    simp [Event.completedWaits, Event.elapsed]
  | cons ev rest ih =>
    intro k
    cases ev with
    | send entries =>
      have h1 := ih (k + 1)
      simp only [Event.completedWaits, Event.elapsed, Nat.cast_add]
      have h0 : (0 : Int) ≤ step k := Int.ofNat_nonneg _
      linarith
    | wait d =>
      cases rest with
      | nil => simp [Event.completedWaits, Event.elapsed]
      | cons ev2 rest2 =>
        have h1 := ih (k + 1)
        have h2 : d ≤ (d.toNat : Int) := Int.self_le_toNat d
        have h0 : (0 : Int) ≤ step k := Int.ofNat_nonneg _
        simp only [Event.completedWaits, Event.elapsed, Nat.cast_add, List.sum_cons] at h1 ⊢
        linarith

/-- The duration `time.Since` gives for a reading taken `n` nanoseconds after `t`. -/
theorem Since_later (t : Time) (n : Nat) :
    Since (t.later n) t = min (n : Int) maxDuration := by
  have h0 : (0 : Int) ≤ n := Int.ofNat_nonneg n
  simp only [Since, Time.Sub, Time.later, minDuration, maxDuration]
  have hd : t.unixNano + (n : Int) - t.unixNano = n := by omega
  rw [hd]
  split_ifs with h1 h2
  · omega
  · rw [min_eq_right (le_of_lt h2)]
  · rw [min_eq_left (not_lt.mp h2)]

theorem Time.later_later (t : Time) (m n : Nat) : (t.later m).later n = t.later (m + n) := by
  simp [Time.later, Int.add_assoc]

/-- The worker run against the clock is the worker of `Client.worker.process` with the
readings the clock gives: that of `Batch.Flush` after the append, and that of
`time.Since` at the end. -/
theorem Client.worker.clocked_process (format : Time → String → String)
    (marshal : FieldMap → Except String String) (c : Client) (h : Heap) (w : Wire)
    (entry : EntryPtr) (ctx : Context) (pace : Pace) (clock : Time)
    (calls : List SenderCall) (c1 : Client) (w1 : Wire) (endTime : Time)
    (hrun : Client.worker.clocked format marshal c h w entry ctx pace clock
      = some (calls, c1, w1, endTime)) :
    Client.worker.process format marshal c h w entry clock
        ((clock.later pace.append).later pace.enter) ctx endTime = some (calls, c1, w1) := by
  unfold Client.worker.clocked at hrun
  unfold Client.worker.process
  by_cases hadd : (c.batch.Add entry).1 = true
  · simp only [hadd, if_true] at hrun ⊢
    cases hflush : Client.flush format marshal { c with batch := (c.batch.Add entry).2 } h w
        ((clock.later pace.append).later pace.enter) ctx with
    | none => simp [hflush] at hrun
    | some r =>
      obtain ⟨calls2, c2, w2⟩ := r
      simp only [hflush, Option.some.injEq, Prod.mk.injEq] at hrun ⊢
      obtain ⟨h1, h2, h3, h4⟩ := hrun
      rw [h4] at h2
      exact ⟨h1, h2, h3⟩
  · simp only [hadd, Bool.false_eq_true, if_false, Option.some.injEq, Prod.mk.injEq]
      at hrun ⊢
    obtain ⟨h1, h2, h3, h4⟩ := hrun
    rw [h4] at h2
    exact ⟨h1, h2, h3⟩

/-- **C29.** As amended: the latency a worker records for an entry is the time from the
reading of the clock right after the entry is received to the reading of the clock in
`time.Since(startTime)`, the last statement of the iteration, cut at the largest
`time.Duration`. When the append asks for no flush that is the time of the append and of
the return from it. When the append asks for a flush it is the time of the append, of
`flush` and of all that `SendWithRetry` did in it, each `Send` and each wait on the backoff
timer: the latency is at least the time of the append plus the backoff durations
`SendWithRetry` waited out. The latency is added to the latency sum, and the latency
count is incremented. -/
theorem Client.worker.clocked_latency (format : Time → String → String)
    (marshal : FieldMap → Except String String) (c : Client) (h : Heap) (w : Wire)
    (entry : EntryPtr) (ctx : Context) (pace : Pace) (clock : Time)
    (hcap : 0 ≤ c.batch.maxSize)
    (hsafe : ∀ p ∈ c.batch.entries ++ [entry],
      ∃ r, LogEntry.ToJSON format marshal h p = some r) :
    ∃ (calls : List SenderCall) (c1 c2 : Client) (w1 : Wire) (endTime : Time),
      Client.worker.clocked format marshal c h w entry ctx pace clock
        = some (calls, c1, w1, endTime) ∧
      (if (c.batch.Add entry).1 = true then
        Client.flush format marshal { c with batch := (c.batch.Add entry).2 } h w
            ((clock.later pace.append).later pace.enter) ctx = some (calls, c2, w1) ∧
        (∃ (err : Option GoError) (events : List Event),
          c.sender.SendWithRetry format marshal h ctx w (c.batch.entries ++ [entry])
            = some (err, w1, events) ∧
          calls = [SenderCall.mk (c.batch.entries ++ [entry]) err events] ∧
          endTime.unixNano - clock.unixNano
            = pace.append + pace.enter + Event.elapsed pace.step 0 events + pace.leave ∧
          min ((pace.append : Int) + (Event.completedWaits events).sum) maxDuration
            ≤ Since endTime clock)
       else calls = [] ∧ c2 = { c with batch := (c.batch.Add entry).2 } ∧ w1 = w ∧
        endTime.unixNano - clock.unixNano = pace.append + pace.leave) ∧
      Since endTime clock = min (endTime.unixNano - clock.unixNano) maxDuration ∧
      c1 = { c2 with metrics := c2.metrics.RecordLatency (Since endTime clock) } ∧
      c1.metrics.totalLatency
        = wrapInt64 (c.metrics.totalLatency + Since endTime clock) ∧
      c1.metrics.latencyCount = wrapInt64 (c.metrics.latencyCount + 1) := by
  by_cases hadd : (c.batch.Add entry).1 = true
  · have hne : (c.batch.Add entry).2.entries ≠ [] := by simp [Batch.Add]
    obtain ⟨err, w1, n, cancelled, rs, hsend, _⟩ :=
      Sender.SendWithRetry_shape format marshal c.sender h ctx w (c.batch.entries ++ [entry])
        hsafe
    generalize hev : c.sender.schedule (c.batch.entries ++ [entry]) n cancelled = events
      at hsend
    have hflush := Client.flush_nonempty format marshal
      { c with batch := (c.batch.Add entry).2 } h w w1
      ((clock.later pace.append).later pace.enter) ctx err _ hcap hne hsend
    generalize hc2 : ({ c with
        batch := { (c.batch.Add entry).2 with
          entries := [], lastFlush := (clock.later pace.append).later pace.enter },
        metrics := if err = none then c.metrics.IncSuccess else c.metrics.IncFailed }
        : Client) = c2 at hflush
    obtain ⟨total, htotal⟩ : ∃ total : Nat,
        total = pace.append + pace.enter + Event.elapsed pace.step 0 events + pace.leave :=
      ⟨_, rfl⟩
    have hend : (((clock.later pace.append).later pace.enter).later
        (SenderCall.elapsed pace.step
          [SenderCall.mk (c.batch.entries ++ [entry]) err events])).later pace.leave
        = clock.later total := by
      rw [htotal]
      simp [Time.later_later, SenderCall.elapsed]
    have hsince := Since_later clock total
    have hdiff : (clock.later total).unixNano - clock.unixNano = (total : Int) := by
      simp only [Time.later]
      omega
    have hwaits := Event.completedWaits_sum_le pace.step events 0
    refine ⟨[SenderCall.mk (c.batch.entries ++ [entry]) err events],
      { c2 with metrics := c2.metrics.RecordLatency (Since (clock.later total) clock) },
      c2, w1, clock.later total, ?_, ?_, ?_, rfl, ?_, ?_⟩
    · simp only [Client.worker.clocked, hadd, if_true]
      rw [show Client.flush format marshal { c with batch := (c.batch.Add entry).2 } h w
          ((clock.later pace.append).later pace.enter) ctx
          = some ([SenderCall.mk (c.batch.entries ++ [entry]) err events], c2, w1)
        from hflush]
      simp only [hend]
    · rw [if_pos hadd]
      refine ⟨hflush, err, events, hsend, rfl, ?_, ?_⟩
      · rw [hdiff, htotal]
        push_cast
        rfl
      · rw [hsince, htotal]
        apply min_le_min _ (le_refl _)
        have h0 : (0 : Int) ≤ pace.enter := Int.ofNat_nonneg _
        have h1 : (0 : Int) ≤ pace.leave := Int.ofNat_nonneg _
        push_cast
        linarith
    · rw [hsince, hdiff]
    · rw [← hc2]
      cases err <;> rfl
    · rw [← hc2]
      cases err <;> rfl
  · obtain ⟨total, htotal⟩ : ∃ total : Nat, total = pace.append + pace.leave := ⟨_, rfl⟩
    have hend : (clock.later pace.append).later pace.leave = clock.later total := by
      rw [htotal]
      exact Time.later_later _ _ _
    have hsince := Since_later clock total
    have hdiff : (clock.later total).unixNano - clock.unixNano = (total : Int) := by
      simp only [Time.later]
      omega
    refine ⟨[], { c with
        batch := (c.batch.Add entry).2,
        metrics := c.metrics.RecordLatency (Since (clock.later total) clock) },
      { c with batch := (c.batch.Add entry).2 }, w, clock.later total,
      ?_, ?_, ?_, rfl, rfl, rfl⟩
    · simp only [Client.worker.clocked, hadd, Bool.false_eq_true, if_false, hend]
    · rw [if_neg hadd]
      refine ⟨rfl, rfl, rfl, ?_⟩
      rw [hdiff, htotal]
      push_cast
      rfl
    · rw [hsince, hdiff]

theorem Client.worker.clocked_latency_witness :
    ∃ (calls : List SenderCall) (c1 c2 : Client) (w1 : Wire) (endTime : Time),
      Client.worker.clocked sampleDateFormat sampleMarshal sampleWorkerClient sampleHeap
          (sampleWire 1) 0 Context.background samplePace (Time.mk 0 0)
        = some (calls, c1, w1, endTime) ∧
      (if (sampleWorkerClient.batch.Add 0).1 = true then
        Client.flush sampleDateFormat sampleMarshal
            { sampleWorkerClient with batch := (sampleWorkerClient.batch.Add 0).2 }
            sampleHeap (sampleWire 1)
            (((Time.mk 0 0).later samplePace.append).later samplePace.enter)
            Context.background = some (calls, c2, w1) ∧
        (∃ (err : Option GoError) (events : List Event),
          sampleWorkerClient.sender.SendWithRetry sampleDateFormat sampleMarshal sampleHeap
              Context.background (sampleWire 1) (sampleWorkerClient.batch.entries ++ [0])
            = some (err, w1, events) ∧
          calls = [SenderCall.mk (sampleWorkerClient.batch.entries ++ [0]) err events] ∧
          endTime.unixNano - (Time.mk 0 0).unixNano
            = samplePace.append + samplePace.enter + Event.elapsed samplePace.step 0 events
              + samplePace.leave ∧
          min ((samplePace.append : Int) + (Event.completedWaits events).sum) maxDuration
            ≤ Since endTime (Time.mk 0 0))
       else calls = [] ∧
        c2 = { sampleWorkerClient with batch := (sampleWorkerClient.batch.Add 0).2 } ∧
        w1 = sampleWire 1 ∧
        endTime.unixNano - (Time.mk 0 0).unixNano = samplePace.append + samplePace.leave) ∧
      Since endTime (Time.mk 0 0)
        = min (endTime.unixNano - (Time.mk 0 0).unixNano) maxDuration ∧
      c1 = { c2 with metrics := c2.metrics.RecordLatency (Since endTime (Time.mk 0 0)) } ∧
      c1.metrics.totalLatency
        = wrapInt64 (sampleWorkerClient.metrics.totalLatency + Since endTime (Time.mk 0 0)) ∧
      c1.metrics.latencyCount = wrapInt64 (sampleWorkerClient.metrics.latencyCount + 1) :=
  Client.worker.clocked_latency sampleDateFormat sampleMarshal sampleWorkerClient sampleHeap
    (sampleWire 1) 0 Context.background samplePace (Time.mk 0 0) (by decide)
    (fun p hp => sampleHeap_safe p (by
      have hp0 : p = 0 := by simpa [sampleWorkerClient] using hp
      rw [hp0]
      decide))

/-- The claim C29 as stated fails when the append fills the batch. The worker of the
sample client receives the entry at address 1 when the clock reads 0 and appends it, which
is over 1000 ns later and fills the batch of size 1. The flush follows: the first `Send`
fails after 1000 ns, `SendWithRetry` waits out the backoff of 1 s, and the second `Send`
succeeds after 1000 ns; `time.Since` then reads the clock at 1 000 003 000 ns. The latency
recorded is 1 000 003 000 ns: it is not the 1000 ns from the receive to the end of the
append, and it contains the second the flush waited. -/
theorem Client.worker_latency_counts_backoff :
    ∃ (c1 : Client) (w1 : Wire),
      Client.worker.clockedStep sampleDateFormat sampleMarshal sampleWorkerClient sampleHeap
          (sampleWire 1) Context.background samplePace (Time.mk 0 0)
        = some ([SenderCall.mk [1] none
            [Event.send [1], Event.wait 1000000000, Event.send [1]]], c1, w1,
            Time.mk 1000003000 0) ∧
      samplePace.append = 1000 ∧
      Event.completedWaits [Event.send [1], Event.wait 1000000000, Event.send [1]]
        = [1000000000] ∧
      c1.metrics.totalLatency = 1000003000 ∧ c1.metrics.latencyCount = 1 ∧
      c1.metrics.totalLatency ≠ (samplePace.append : Int) ∧
      (samplePace.append : Int) + 1000000000 ≤ c1.metrics.totalLatency := by
  refine ⟨_, _, rfl, rfl, rfl, rfl, rfl, by decide, by decide⟩

/-- The same iteration with the readings of the clock given, as the steps of the client
take them: the result of the run against the clock. -/
theorem Client.worker.step_sample_clocked :
    (Client.worker.step sampleDateFormat sampleMarshal sampleWorkerClient sampleHeap
        (sampleWire 1) (Time.mk 0 0) (Time.mk 1000 0) Context.background
        (Time.mk 1000003000 0)).map (fun r => (r.1, r.2.1.metrics, r.2.1.batch))
      = (Client.worker.clockedStep sampleDateFormat sampleMarshal sampleWorkerClient
          sampleHeap (sampleWire 1) Context.background samplePace (Time.mk 0 0)).map
        (fun r => (r.1, r.2.1.metrics, r.2.1.batch)) := by
  rfl

/-! ## The accounting invariant of the metrics -/

theorem atomicAddInt64_one (x : Int) (h0 : 0 ≤ x) (h1 : x + 1 < 2 ^ 63) :
    atomicAddInt64 x 1 = x + 1 := by
  unfold atomicAddInt64
  exact wrapInt64_of_mem_range (le_trans (by decide) (Int.add_nonneg h0 (by decide))) h1

theorem Task.load_cons (t : Task) (ts : List Task) :
    Task.load (t :: ts) = t.weight + Task.load ts := by
  simp [Task.load]

theorem Task.load_append (ts us : List Task) :
    Task.load (ts ++ us) = Task.load ts + Task.load us := by
  simp [Task.load]

theorem Task.load_afterFlush (worker : Option Time) : Task.load (Task.afterFlush worker) = 0 := by
  cases worker <;> rfl

theorem Task.load_erase (t : Task) (ts : List Task) (h : t ∈ ts) :
    Task.load (ts.erase t) + t.weight = Task.load ts := by
  induction ts with
  | nil => simp at h
  | cons u us ih =>
    by_cases hut : u = t
    · subst hut
      rw [List.erase_cons_head, Task.load_cons]
      omega
    · have hmem : t ∈ us := by
        rcases List.mem_cons.mp h with h1 | h1
        · exact absurd h1.symm hut
        · exact h1
      have hne : ¬ (u == t) = true := by simpa using hut
      rw [List.erase_cons_tail hne, Task.load_cons, Task.load_cons]
      have := ih hmem
      omega

theorem Chan.trySend_length (q q1 : Chan) (entry : EntryPtr)
    (h : q.trySend entry = some q1) : q1.buf.length = q.buf.length + 1 := by
  unfold Chan.trySend at h
  by_cases hroom : q.buf.length < q.cap
  · simp only [hroom, if_true, Option.some.injEq] at h
    rw [← h]
    simp
  · simp [hroom] at h

theorem Chan.tryRecv_length (q q1 : Chan) (entry : EntryPtr)
    (h : q.tryRecv = some (entry, q1)) : q.buf.length = q1.buf.length + 1 := by
  unfold Chan.tryRecv at h
  cases hbuf : q.buf with
  | nil => simp [hbuf] at h
  | cons e rest =>
    simp only [hbuf, Option.some.injEq, Prod.mk.injEq] at h
    rw [← h.2]
    simp

theorem Batch.Flush_cases (b b1 : Batch) (now : Time) (entries : List EntryPtr)
    (h : b.Flush now = some (entries, b1)) :
    (entries.length = 0 ∧ b1 = b) ∨
    (entries.length ≠ 0 ∧ entries = b.entries ∧ b1.entries = []) := by
  unfold Batch.Flush at h
  by_cases hlen : b.entries.length = 0
  · simp only [hlen, if_true, Option.some.injEq, Prod.mk.injEq] at h
    left
    exact ⟨by rw [← h.1]; rfl, h.2.symm⟩
  · simp only [hlen, if_false] at h
    cases hmake : makeEntries b.maxSize with
    | none => simp [hmake] at h
    | some fresh =>
      have hfresh : fresh = [] := by
        unfold makeEntries at hmake
        by_cases hneg : b.maxSize < 0
        · simp [hneg] at hmake
        · simp only [hneg, if_false, Option.some.injEq] at hmake
          exact hmake.symm
      simp only [hmake, Option.some.injEq, Prod.mk.injEq] at h
      right
      refine ⟨by rw [← h.1]; exact hlen, h.1.symm, ?_⟩
      rw [← h.2, hfresh]

/-- Every step keeps the accounting, as long as the number of steps stays below `2^63`. -/
theorem System.step_accounted (format : Time → String → String)
    (marshal : FieldMap → Except String String) (s s1 : System) (action : Action) (n : Nat)
    (hinv : s.Accounted n) (hn : ((n : Int) + 1) < 2 ^ 63)
    (hstep : System.step format marshal s action = some s1) : s1.Accounted (n + 1) := by
  obtain ⟨hD, hS, hF, hsum, hT⟩ := hinv
  unfold System.Accounted
  cases action with
  | logCall now level message fields =>
    simp only [System.step] at hstep
    by_cases hclosed : s.client.closed = true
    · simp only [hclosed, if_true, Option.some.injEq] at hstep
      subst hstep
      exact ⟨hD, hS, hF, hsum, by push_cast; omega⟩
    · simp only [hclosed, Bool.false_eq_true, if_false] at hstep
      cases hmeta : Client.Log.metadata s.client
          (NewLogEntry s.heap level message fields now).2
          (NewLogEntry s.heap level message fields now).1 with
      | none => simp [hmeta] at hstep
      | some h1 =>
        simp only [hmeta, Option.some.injEq] at hstep
        subst hstep
        have hT0 : 0 ≤ s.client.metrics.TotalLogs := by omega
        have hinc := atomicAddInt64_one s.client.metrics.TotalLogs hT0 (by omega)
        simp only [Metrics.IncTotal, hinc, Task.load_cons, Task.weight]
        push_cast
        omega
  | logSelect entry =>
    simp only [System.step] at hstep
    by_cases hmem : Task.logSelect entry ∈ s.tasks
    · have hload := Task.load_erase _ _ hmem
      simp only [Task.weight] at hload
      simp only [hmem, if_true] at hstep
      cases hsend : s.client.queue.trySend entry with
      | some queue =>
        simp only [hsend, Option.some.injEq] at hstep
        subst hstep
        have hlen := Chan.trySend_length _ _ _ hsend
        simp only [hlen]
        push_cast
        omega
      | none =>
        simp only [hsend] at hstep
        by_cases hd : s.client.config.DiscardOnFull = true
        · simp only [hd, if_true, Option.some.injEq] at hstep
          subst hstep
          have hinc := atomicAddInt64_one s.client.metrics.DroppedLogs hD (by omega)
          simp only [Metrics.IncDropped, hinc]
          push_cast
          omega
        · simp only [hd, Bool.false_eq_true, if_false, Option.some.injEq] at hstep
          subst hstep
          simp only [Task.load_cons, Task.weight]
          push_cast
          omega
    · simp [hmem] at hstep
  | logWake entry timedOut =>
    simp only [System.step] at hstep
    by_cases hmem : Task.logWait entry ∈ s.tasks
    · have hload := Task.load_erase _ _ hmem
      simp only [Task.weight] at hload
      simp only [hmem, if_true, Client.Log.wait] at hstep
      cases timedOut with
      | true =>
        simp only [if_true, Option.some.injEq] at hstep
        subst hstep
        have hinc := atomicAddInt64_one s.client.metrics.DroppedLogs hD (by omega)
        simp only [Metrics.IncDropped, hinc]
        push_cast
        omega
      | false =>
        cases hsend : s.client.queue.trySend entry with
        | some queue =>
          simp only [hsend, Bool.false_eq_true, if_false, Option.some.injEq] at hstep
          subst hstep
          have hlen := Chan.trySend_length _ _ _ hsend
          simp only [hlen]
          push_cast
          omega
        | none => simp [hsend] at hstep
    · simp [hmem] at hstep
  | workerRecv startTime =>
    simp only [System.step] at hstep
    cases hrecv : s.client.queue.tryRecv with
    | none => simp [hrecv] at hstep
    | some r =>
      obtain ⟨entry, queue⟩ := r
      simp only [hrecv, Option.some.injEq] at hstep
      subst hstep
      have hlen := Chan.tryRecv_length _ _ _ hrecv
      simp only [Task.load_cons, Task.weight]
      push_cast
      omega
  | workerAdd entry startTime =>
    simp only [System.step] at hstep
    by_cases hmem : Task.workerAdd entry startTime ∈ s.tasks
    · have hload := Task.load_erase _ _ hmem
      simp only [Task.weight] at hload
      simp only [hmem, if_true, Option.some.injEq] at hstep
      subst hstep
      have hnext : ∀ b : Bool, (if b = true then Task.flush (some startTime)
          else Task.record startTime).weight = 0 := by
        intro b
        cases b <;> rfl
      simp only [Task.load_cons, hnext, Batch.Add, List.length_append, List.length_singleton]
      push_cast
      omega
    · simp [hmem] at hstep
  | tick now =>
    simp only [System.step] at hstep
    have hbatch : (s.client.batch.ShouldFlush now).2 = s.client.batch := by
      unfold Batch.ShouldFlush
      split_ifs <;> rfl
    by_cases hshould : (s.client.batch.ShouldFlush now).1 = true
    · simp only [hshould, if_true, Option.some.injEq] at hstep
      subst hstep
      simp only [hbatch, Task.load_cons, Task.weight]
      push_cast
      omega
    · simp only [hshould, Bool.false_eq_true, if_false, Option.some.injEq] at hstep
      subst hstep
      simp only [hbatch]
      push_cast
      omega
  | flushCall =>
    simp only [System.step, Option.some.injEq] at hstep
    subst hstep
    simp only [Task.load_cons, Task.weight]
    push_cast
    omega
  | closeCall =>
    simp only [System.step, Client.Close.begin] at hstep
    by_cases hclosed : s.client.closed = true
    · simp only [hclosed, if_true, Bool.false_eq_true, if_false, Option.some.injEq] at hstep
      subst hstep
      push_cast
      omega
    · simp only [hclosed, Bool.false_eq_true, if_false, if_true, Option.some.injEq] at hstep
      subst hstep
      simp only [Task.load_cons, Task.weight]
      push_cast
      omega
  | closeWaited =>
    simp only [System.step] at hstep
    by_cases hmem : Task.closeWait ∈ s.tasks
    · have hload := Task.load_erase _ _ hmem
      simp only [Task.weight] at hload
      simp only [hmem, if_true, Option.some.injEq] at hstep
      subst hstep
      simp only [Task.load_cons, Task.weight]
      push_cast
      omega
    · simp [hmem] at hstep
  | flushDrain worker now =>
    simp only [System.step] at hstep
    by_cases hmem : Task.flush worker ∈ s.tasks
    · have hload := Task.load_erase _ _ hmem
      simp only [Task.weight] at hload
      simp only [hmem, if_true] at hstep
      cases hflush : s.client.batch.Flush now with
      | none => simp [hflush] at hstep
      | some r =>
        obtain ⟨entries, batch⟩ := r
        simp only [hflush] at hstep
        rcases Batch.Flush_cases _ _ _ _ hflush with ⟨hlen, hb⟩ | ⟨hlen, hent, hb⟩
        · simp only [hlen, if_true, Option.some.injEq] at hstep
          subst hstep
          simp only [hb, Task.load_append, Task.load_afterFlush]
          push_cast
          omega
        · simp only [hlen, if_false, Option.some.injEq] at hstep
          subst hstep
          have hpos : 0 < s.client.batch.entries.length := by
            rw [← hent]
            omega
          simp only [hb, Task.load_cons, Task.weight, List.length_nil]
          push_cast
          omega
    · simp [hmem] at hstep
  | flushSend worker entries ctx =>
    simp only [System.step] at hstep
    by_cases hmem : Task.send worker entries ∈ s.tasks
    · have hload := Task.load_erase _ _ hmem
      simp only [Task.weight] at hload
      simp only [hmem, if_true] at hstep
      cases hsend : s.client.sender.SendWithRetry format marshal s.heap ctx s.wire entries with
      | none => simp [hsend] at hstep
      | some r =>
        obtain ⟨err, w1, events⟩ := r
        simp only [hsend, Option.some.injEq] at hstep
        subst hstep
        cases err with
        | none =>
          have hinc := atomicAddInt64_one s.client.metrics.SuccessLogs hS (by omega)
          simp only [Metrics.IncSuccess, hinc, Task.load_append, Task.load_afterFlush]
          push_cast
          omega
        | some e =>
          have hinc := atomicAddInt64_one s.client.metrics.FailedLogs hF (by omega)
          simp only [Metrics.IncFailed, hinc, Task.load_append, Task.load_afterFlush]
          push_cast
          omega
    · simp [hmem] at hstep
  | record startTime endTime =>
    simp only [System.step] at hstep
    by_cases hmem : Task.record startTime ∈ s.tasks
    · have hload := Task.load_erase _ _ hmem
      simp only [Task.weight] at hload
      simp only [hmem, if_true, Option.some.injEq] at hstep
      subst hstep
      simp only [Metrics.RecordLatency, Metrics.addTotalLatency, Metrics.incLatencyCount]
      push_cast
      omega
    · simp [hmem] at hstep

theorem Config.Validate_snd (c : Config) : (c.Validate).2 = c := by
  unfold Config.Validate
  split_ifs <;> rfl

/-- The client `NewClient` returns: open, with nothing queued or pending and all counters
at zero, on a configuration that `Validate` accepted. -/
theorem NewClient_ok (connect : Connect) (hostname localIP : String) (now : Time)
    (config : Config) (c0 : Client)
    (hnew : NewClient connect hostname localIP now (some config) = some (Except.ok c0)) :
    (config.Validate).1 = none ∧
    c0 = { config := config,
           sender := { indexPattern := config.IndexPattern, config := config },
           batch := { entries := [], maxSize := config.BatchSize,
                      timeout := config.BatchTimeout, lastFlush := now },
           queue := { buf := [], cap := config.QueueSize.toNat },
           metrics := NewMetrics, cancelled := false,
           hostName := if config.EnableHostInfo then hostname else "",
           hostIP := if config.EnableHostInfo then localIP else "",
           closed := false } := by
  unfold NewClient at hnew
  simp only at hnew
  have hsnd := Config.Validate_snd config
  cases hval : config.Validate with
  | mk verr cfg =>
    rw [hval] at hsnd hnew
    simp only at hsnd
    subst hsnd
    cases verr with
    | some e => simp at hnew
    | none =>
      have hpos := (Config.Validate_fst_eq_none_iff cfg).mp (by rw [hval])
      simp only at hnew
      cases hsender : NewSender connect cfg with
      | error e => simp [hsender] at hnew
      | ok sender =>
        have hs : sender = { indexPattern := cfg.IndexPattern, config := cfg } := by
          unfold NewSender at hsender
          cases connect with
          | clientError e => simp at hsender
          | pingError e => simp at hsender
          | pingResponse isError status =>
            cases isError with
            | true => simp at hsender
            | false =>
              simp only [Bool.false_eq_true, if_false, Except.ok.injEq] at hsender
              exact hsender.symm
        have hbatch := NewBatch_of_nonneg cfg.BatchTimeout now (le_of_lt hpos.2.1)
        have hqueue : makeChan cfg.QueueSize = some { buf := [], cap := cfg.QueueSize.toNat } := by
          unfold makeChan
          rw [if_neg (not_lt.mpr (le_of_lt hpos.2.2.1))]
        simp only [hsender, hbatch, hqueue, Option.some.injEq, Except.ok.injEq] at hnew
        exact ⟨rfl, by rw [← hnew, hs]⟩

theorem System.run_accounted (format : Time → String → String)
    (marshal : FieldMap → Except String String) :
    ∀ (actions : List Action) (s s1 : System) (n : Nat),
      s.Accounted n → ((n + actions.length : Nat) : Int) < 2 ^ 63 →
      System.run format marshal s actions = some s1 → s1.Accounted (n + actions.length) := by
  intro actions
  induction actions with
  | nil =>
    intro s s1 n hinv _ hrun
    simp only [System.run, Option.some.injEq] at hrun
    subst hrun
    simpa using hinv
  | cons action actions ih =>
    intro s s1 n hinv hn hrun
    simp only [System.run] at hrun
    cases hstep : System.step format marshal s action with
    | none => simp [hstep] at hrun
    | some s2 =>
      simp only [hstep] at hrun
      have hn1 : ((n : Int) + 1) < 2 ^ 63 := by
        simp only [List.length_cons] at hn
        push_cast at hn
        omega
      have hinv2 := System.step_accounted format marshal s s2 action n hinv hn1 hstep
      have hlen : n + (action :: actions).length = n + 1 + actions.length := by
        simp only [List.length_cons]
        omega
      rw [hlen]
      exact ih s2 s1 (n + 1) hinv2 (by rw [← hlen]; exact hn) hrun

/-- **C30.** In every state that a freshly constructed client reaches through an
interleaving of the steps of its goroutines (calls of `Log` with their two `select`s, the
steps of the workers, the ticks of the flusher, calls of `Flush` and of `Close`, and the
steps of the flushes these start), the dropped, success and failed counters are not
negative and their sum does not exceed the total counter; in particular the dropped
counter does not exceed the total counter. More is true: the sum still does not exceed the
total when the entries in the queue, in the batch and in the hands of goroutines are added
to it. The interleaving has fewer than `2^63` steps, so that no counter wraps around. -/
theorem System.metrics_accounted (format : Time → String → String)
    (marshal : FieldMap → Except String String) (connect : Connect)
    (hostname localIP : String) (now : Time) (config : Option Config) (c0 : Client)
    (h0 : Heap) (w0 : Wire) (actions : List Action) (s : System)
    (hnew : NewClient connect hostname localIP now config = some (Except.ok c0))
    (hlen : (actions.length : Int) < 2 ^ 63)
    (hrun : System.run format marshal (System.mk c0 h0 w0 []) actions = some s) :
    s.client.metrics.DroppedLogs + s.client.metrics.SuccessLogs
        + s.client.metrics.FailedLogs ≤ s.client.metrics.TotalLogs ∧
    s.client.metrics.DroppedLogs ≤ s.client.metrics.TotalLogs ∧
    0 ≤ s.client.metrics.DroppedLogs ∧ 0 ≤ s.client.metrics.SuccessLogs ∧
    0 ≤ s.client.metrics.FailedLogs ∧
    s.client.metrics.DroppedLogs + s.client.metrics.SuccessLogs
        + s.client.metrics.FailedLogs + (s.client.queue.buf.length : Int)
        + (s.client.batch.entries.length : Int) + (Task.load s.tasks : Int)
      ≤ s.client.metrics.TotalLogs := by
  have hinit : (System.mk c0 h0 w0 []).Accounted 0 := by
    have hc0 : c0.metrics = NewMetrics ∧ c0.queue.buf = [] ∧ c0.batch.entries = [] := by
      cases config with
      | none =>
        have h1 := (NewClient_ok connect hostname localIP now DefaultConfig c0 hnew).2
        rw [h1]
        exact ⟨rfl, rfl, rfl⟩
      | some cfg =>
        have h1 := (NewClient_ok connect hostname localIP now cfg c0 hnew).2
        rw [h1]
        exact ⟨rfl, rfl, rfl⟩
    unfold System.Accounted
    simp only [hc0.1, hc0.2.1, hc0.2.2, NewMetrics, Task.load, List.map_nil, List.sum_nil,
      List.length_nil]
    decide
  have hfinal := System.run_accounted format marshal actions _ s 0 hinit
    (by simpa using hlen) hrun
  obtain ⟨hD, hS, hF, hsum, _⟩ := hfinal
  have hq : (0 : Int) ≤ (s.client.queue.buf.length : Int) := Int.natCast_nonneg _
  have hb : (0 : Int) ≤ (s.client.batch.entries.length : Int) := Int.natCast_nonneg _
  have ht : (0 : Int) ≤ (Task.load s.tasks : Int) := Int.natCast_nonneg _
  exact ⟨by omega, by omega, hD, hS, hF, hsum⟩

theorem System.metrics_accounted_witness :
    ∃ s, System.run sampleDateFormat sampleMarshal
        (System.mk sampleFreshClient sampleHeap (sampleWire 0) []) sampleActions = some s ∧
      s.client.metrics.DroppedLogs + s.client.metrics.SuccessLogs
          + s.client.metrics.FailedLogs ≤ s.client.metrics.TotalLogs ∧
      s.client.metrics.DroppedLogs ≤ s.client.metrics.TotalLogs ∧
      0 ≤ s.client.metrics.DroppedLogs ∧ 0 ≤ s.client.metrics.SuccessLogs ∧
      0 ≤ s.client.metrics.FailedLogs ∧
      s.client.metrics.DroppedLogs + s.client.metrics.SuccessLogs
          + s.client.metrics.FailedLogs + (s.client.queue.buf.length : Int)
          + (s.client.batch.entries.length : Int) + (Task.load s.tasks : Int)
        ≤ s.client.metrics.TotalLogs := by
  have hsome : (System.run sampleDateFormat sampleMarshal
      (System.mk sampleFreshClient sampleHeap (sampleWire 0) []) sampleActions).isSome
      = true := rfl
  obtain ⟨s, hs⟩ := Option.isSome_iff_exists.mp hsome
  exact ⟨s, hs, System.metrics_accounted sampleDateFormat sampleMarshal
    (Connect.pingResponse false "200 OK") "host-1" "10.0.0.7" (Time.mk 0 0)
    (some sampleSmallConfig) sampleFreshClient sampleHeap (sampleWire 0) sampleActions s rfl
    (by decide) hs⟩

/-- The sample interleaving, evaluated: two entries counted, one dropped, one sent. -/
theorem System.run_sample :
    (System.run sampleDateFormat sampleMarshal
        (System.mk sampleFreshClient sampleHeap (sampleWire 0) []) sampleActions).map
      (fun s => (s.client.metrics.TotalLogs, s.client.metrics.DroppedLogs,
        s.client.metrics.SuccessLogs, s.client.metrics.FailedLogs, s.client.closed, s.tasks,
        s.wire.requests.length))
      = some (2, 1, 1, 0, true, [], 1) := by
  rfl

/-! ## The operations of the client as sequences of steps -/

/-- A call of `Log` on an open client is the step to the first `select` followed by that
`select`; a call that blocks leaves its goroutine at the second `select`. -/
theorem System.run_Log (format : Time → String → String)
    (marshal : FieldMap → Except String String) (c c1 : Client) (h h1 : Heap) (w : Wire)
    (now : Time) (level : LogLevel) (message : String) (fields : Option MapRef)
    (out : LogOutcome) (hopen : c.closed = false)
    (hlog : c.Log h now level message fields = some (out, c1, h1)) :
    System.run format marshal (System.mk c h w [])
        [Action.logCall now level message fields,
          Action.logSelect (NewLogEntry h level message fields now).1]
      = some (System.mk c1 h1 w
          (match out with
            | LogOutcome.returned _ => []
            | LogOutcome.blocked entry => [Task.logWait entry])) := by
  unfold Client.Log at hlog
  simp only [hopen, Bool.false_eq_true, if_false] at hlog
  cases hmeta : Client.Log.metadata c
      (NewLogEntry h level message fields now).2 (NewLogEntry h level message fields now).1 with
  | none => simp [hmeta] at hlog
  | some h2 =>
    simp only [hmeta] at hlog
    cases hsend : c.queue.trySend (NewLogEntry h level message fields now).1 with
    | some q =>
      simp only [hsend, Option.some.injEq, Prod.mk.injEq] at hlog
      obtain ⟨rfl, rfl, rfl⟩ := hlog
      simp [System.run, System.step, hopen, hmeta, hsend]
    | none =>
      simp only [hsend] at hlog
      by_cases hd : c.config.DiscardOnFull = true
      · simp only [hd, if_true, Option.some.injEq, Prod.mk.injEq] at hlog
        obtain ⟨rfl, rfl, rfl⟩ := hlog
        simp [System.run, System.step, hopen, hmeta, hsend, hd]
      · simp only [hd, Bool.false_eq_true, if_false, Option.some.injEq, Prod.mk.injEq] at hlog
        obtain ⟨rfl, rfl, rfl⟩ := hlog
        simp [System.run, System.step, hopen, hmeta, hsend, hd]

/-- A call of `flush` is the drain of the batch followed, when something was pending, by
the call of `SendWithRetry`. -/
theorem System.run_flush (format : Time → String → String)
    (marshal : FieldMap → Except String String) (c c1 : Client) (h : Heap) (w w1 : Wire)
    (now : Time) (ctx : Context) (calls : List SenderCall)
    (hflush : Client.flush format marshal c h w now ctx = some (calls, c1, w1)) :
    System.run format marshal (System.mk c h w [])
        ([Action.flushCall, Action.flushDrain none now]
          ++ (if c.batch.entries.length = 0 then []
              else [Action.flushSend none c.batch.entries ctx]))
      = some (System.mk c1 h w1 []) := by
  unfold Client.flush at hflush
  cases hdrain : c.batch.Flush now with
  | none => simp [hdrain] at hflush
  | some r =>
    obtain ⟨entries, batch⟩ := r
    simp only [hdrain] at hflush
    rcases Batch.Flush_cases _ _ _ _ hdrain with ⟨hlen, hb⟩ | ⟨hlen, hent, hb⟩
    · simp only [hlen, if_true, Option.some.injEq, Prod.mk.injEq] at hflush
      obtain ⟨_, rfl, rfl⟩ := hflush
      have hlen0 : c.batch.entries.length = 0 := by
        unfold Batch.Flush at hdrain
        by_contra hne
        simp only [hne, if_false] at hdrain
        cases hmake : makeEntries c.batch.maxSize with
        | none => simp [hmake] at hdrain
        | some fresh =>
          simp only [hmake, Option.some.injEq, Prod.mk.injEq] at hdrain
          rw [← hdrain.1] at hlen
          exact hne hlen
      simp [System.run, System.step, hdrain, hlen, hlen0, Task.afterFlush]
    · simp only [hlen, if_false] at hflush
      have hlen0 : c.batch.entries.length ≠ 0 := by rw [← hent]; exact hlen
      cases hsend : c.sender.SendWithRetry format marshal h ctx w entries with
      | none => simp [hsend] at hflush
      | some r =>
        obtain ⟨err, w2, events⟩ := r
        simp only [hsend] at hflush
        subst hent
        cases err with
        | none =>
          simp only [Option.some.injEq, Prod.mk.injEq] at hflush
          obtain ⟨_, rfl, rfl⟩ := hflush
          simp [System.run, System.step, hdrain, hlen, hsend, Task.afterFlush]
        | some e =>
          simp only [Option.some.injEq, Prod.mk.injEq] at hflush
          obtain ⟨_, rfl, rfl⟩ := hflush
          simp [System.run, System.step, hdrain, hlen, hsend, Task.afterFlush]

/-- An iteration of a worker is the receive, the append, the flush if the append asked
for it, and the recording of the latency. -/
theorem System.run_worker (format : Time → String → String)
    (marshal : FieldMap → Except String String) (c c1 : Client) (h : Heap) (w w1 : Wire)
    (startTime flushNow : Time) (ctx : Context) (endTime : Time) (calls : List SenderCall)
    (hwork : Client.worker.step format marshal c h w startTime flushNow ctx endTime
      = some (calls, c1, w1)) :
    ∃ (entry : EntryPtr) (rest : List EntryPtr), c.queue.buf = entry :: rest ∧
      System.run format marshal (System.mk c h w [])
          ([Action.workerRecv startTime, Action.workerAdd entry startTime]
            ++ (if (c.batch.Add entry).1 = true then
                  [Action.flushDrain (some startTime) flushNow,
                    Action.flushSend (some startTime) (c.batch.entries ++ [entry]) ctx]
                else [])
            ++ [Action.record startTime endTime])
        = some (System.mk c1 h w1 []) := by
  unfold Client.worker.step at hwork
  cases hbuf : c.queue.buf with
  | nil => simp [Chan.tryRecv, hbuf] at hwork
  | cons entry rest =>
    have hrecv : c.queue.tryRecv = some (entry, { c.queue with buf := rest }) := by
      simp [Chan.tryRecv, hbuf]
    refine ⟨entry, rest, rfl, ?_⟩
    simp only [hrecv, Client.worker.process] at hwork
    by_cases hadd : (c.batch.Add entry).1 = true
    · simp only [hadd, if_true] at hwork
      cases hflush : Client.flush format marshal
          { c with queue := { c.queue with buf := rest }, batch := (c.batch.Add entry).2 }
          h w flushNow ctx with
      | none => simp [hflush] at hwork
      | some r =>
        obtain ⟨calls2, c2, w2⟩ := r
        simp only [hflush, Option.some.injEq, Prod.mk.injEq] at hwork
        obtain ⟨_, rfl, rfl⟩ := hwork
        unfold Client.flush at hflush
        cases hdrain : (c.batch.Add entry).2.Flush flushNow with
        | none => simp [hdrain] at hflush
        | some r =>
          obtain ⟨entries, batch⟩ := r
          simp only [hdrain] at hflush
          rcases Batch.Flush_cases _ _ _ _ hdrain with ⟨hlen, _⟩ | ⟨hlen, hent, hb⟩
          · exfalso
            unfold Batch.Flush at hdrain
            have hne : (c.batch.Add entry).2.entries.length ≠ 0 := by simp [Batch.Add]
            simp only [hne, if_false] at hdrain
            cases hmake : makeEntries (c.batch.Add entry).2.maxSize with
            | none => simp [hmake] at hdrain
            | some fresh =>
              simp only [hmake, Option.some.injEq, Prod.mk.injEq] at hdrain
              rw [← hdrain.1] at hlen
              exact hne hlen
          · simp only [hlen, if_false] at hflush
            have hent1 : entries = c.batch.entries ++ [entry] := by
              rw [hent]
              rfl
            subst hent1
            cases hsend : c.sender.SendWithRetry format marshal h ctx w
                (c.batch.entries ++ [entry]) with
            | none => simp [hsend] at hflush
            | some r =>
              obtain ⟨err, w3, events⟩ := r
              simp only [hsend] at hflush
              cases err with
              | none =>
                simp only [Option.some.injEq, Prod.mk.injEq] at hflush
                obtain ⟨_, rfl, rfl⟩ := hflush
                simp [System.run, System.step, hrecv, hadd, hdrain, hsend, Task.afterFlush]
              | some e =>
                simp only [Option.some.injEq, Prod.mk.injEq] at hflush
                obtain ⟨_, rfl, rfl⟩ := hflush
                simp [System.run, System.step, hrecv, hadd, hdrain, hsend, Task.afterFlush]
    · simp only [hadd, Bool.false_eq_true, if_false, Option.some.injEq, Prod.mk.injEq] at hwork
      obtain ⟨_, rfl, rfl⟩ := hwork
      simp [System.run, System.step, hrecv, hadd]

/-! ## Runs of a client with a single consumer -/

/-- **C25.** The claim fails on a configuration that `Validate` accepts. With batch size 1
and retry count -1 `NewClient` returns a client; one entry is logged and the worker
processes it, which fills the batch; the flush calls `SendWithRetry` once, with that
entry, but the loop `for i := 0; i <= RetryCount; i++` runs no iteration: no `Send` is
made, no request reaches the wire although it would answer with success, the error
`failed after -1 retries: %!w(<nil>)` comes back, and the failed counter is incremented,
not the success counter. With a retry count that is not negative the run is as the claim
says (`Client.run_delivers`). -/
theorem Client.run_no_retry :
    (sampleNoRetryConfig.Validate).1 = none ∧
    NewClient (Connect.pingResponse false "200 OK") "host-1" "10.0.0.7" (Time.mk 0 0)
        (some sampleNoRetryConfig) = some (Except.ok sampleNoRetryClient) ∧
    (Client.run sampleDateFormat sampleMarshal
        (ClientRun.mk sampleNoRetryClient sampleHeap (sampleWire 0) [])
        [ClientOp.log (Time.mk 10 0) LevelInfo "only entry" none,
          ClientOp.work (Time.mk 20 0) (Time.mk 30 0) Context.background (Time.mk 40 0)]).map
      (fun st => (st.calls, st.wire.requests, st.client.batch.entries,
        st.client.metrics.TotalLogs, st.client.metrics.SuccessLogs,
        st.client.metrics.FailedLogs))
      = some ([SenderCall.mk [2]
            (some (GoError.mk "failed after -1 retries: %!w(<nil>)" [])) []],
          [], [], 1, 0, 1) := by
  refine ⟨rfl, rfl, rfl⟩

theorem LogEntry.ToJSON_ok (format : Time → String → String)
    (marshal : FieldMap → Except String String) (h : Heap) (p : EntryPtr) (e : LogEntry)
    (fields : FieldMap) (he : h.entries[p]? = some e)
    (hf : h.readFields e.Fields = some fields)
    (hmarshal : ∀ data, ∃ doc, marshal data = Except.ok doc) :
    ∃ doc, LogEntry.ToJSON format marshal h p = some (Except.ok doc) := by
  obtain ⟨data, hd, _⟩ := LogEntry.ToJSON.data_lookup format h p e fields he hf
  obtain ⟨doc, hdoc⟩ := hmarshal data
  exact ⟨doc, by rw [LogEntry.ToJSON_eq format marshal h p data hd, hdoc]⟩

/-- `Send` of encodable entries over a wire that answers with success returns `nil`. -/
theorem Sender.Send_ok (format : Time → String → String)
    (marshal : FieldMap → Except String String) (s : Sender) (h : Heap) (ctx : Context)
    (w : Wire) (entries : List EntryPtr) (hne : entries ≠ [])
    (hdocs : ∀ p ∈ entries, ∃ doc, LogEntry.ToJSON format marshal h p = some (Except.ok doc))
    (hwire : ∀ k body, ∃ status items,
      w.respond ctx k body
        = BulkOutcome.response false status (Except.ok (BulkResponse.mk false items))) :
    ∃ body, s.Send format marshal h ctx w entries
      = some (none, Wire.mk w.respond (w.requests ++ [body])) := by
  obtain ⟨lines, hbuild, _, _⟩ := Sender.Send.build_ok format marshal s h entries "" hdocs
  have hlen0 : entries.length ≠ 0 := fun e => hne (List.length_eq_zero.mp e)
  obtain ⟨status, items, hresp⟩ := hwire w.requests.length ("" ++ joinLines lines)
  refine ⟨"" ++ joinLines lines, ?_⟩
  unfold Sender.Send
  rw [if_neg hlen0, hbuild]
  simp only [hresp, Bool.false_eq_true, if_false]

/-- With a retry count that is not negative, a first `Send` that returns `nil` ends
`SendWithRetry`. -/
theorem Sender.SendWithRetry_first_try (format : Time → String → String)
    (marshal : FieldMap → Except String String) (s : Sender) (h : Heap) (ctx : Context)
    (w w1 : Wire) (entries : List EntryPtr) (hretry : 0 ≤ s.config.RetryCount)
    (hsend : s.Send format marshal h ctx w entries = some (none, w1)) :
    s.SendWithRetry format marshal h ctx w entries
      = some (none, w1, [Event.send entries]) := by
  unfold Sender.SendWithRetry
  rw [Sender.SendWithRetry.loop_send format marshal s h ctx entries _ 0 none w w1 [] none
    (by simpa using hretry) (fun h0 => absurd h0 (Nat.lt_irrefl 0)) hsend]
  simp [Sender.attempts]

/-- A call of `Log` on an open client whose queue has room. -/
theorem Client.Log_of_room (c : Client) (h : Heap) (now : Time) (level : LogLevel)
    (message : String) (fields : Option MapRef) (hopen : c.closed = false)
    (hroom : c.queue.buf.length < c.queue.cap) :
    ∃ h1, c.Log h now level message fields
        = some (LogOutcome.returned none,
            { c with
              metrics := c.metrics.IncTotal,
              queue := { c.queue with buf := c.queue.buf ++ [h.entries.length] } }, h1) ∧
      h1.maps = h.maps ∧
      h1.entries = h.entries ++ [c.entryOf now level message fields] := by
  obtain ⟨h1, hmeta, hmaps, hentries⟩ :=
    Client.Log.metadata_new c h now level message fields
  have hptr : (NewLogEntry h level message fields now).1 = h.entries.length :=
    (NewLogEntry_spec h level message fields now).1
  rw [hptr] at hmeta
  refine ⟨h1, ?_, hmaps, hentries⟩
  simp [Client.Log, hopen, hmeta, Chan.trySend, hroom, hptr]

theorem ClientOp.eq_nil_of_admissible (c : Client) (cap : Nat) (ops : List ClientOp)
    (hadm : ClientOp.admissible cap 0 ops = true)
    (hlogs : (ClientOp.entries c ops).length = 0) : ops = [] := by
  cases ops with
  | nil => rfl
  | cons op ops =>
    cases op with
    | log now level message fields => simp [ClientOp.entries] at hlogs
    | work startTime flushNow ctx endTime => simp [ClientOp.admissible] at hadm

/-- An iteration of the worker whose append does not fill the batch. -/
theorem Client.worker.step_no_flush (format : Time → String → String)
    (marshal : FieldMap → Except String String) (c : Client) (h : Heap) (w : Wire)
    (startTime flushNow : Time) (ctx : Context) (endTime : Time) (p : EntryPtr)
    (rest : List EntryPtr) (hbuf : c.queue.buf = p :: rest)
    (hsize : ((c.batch.entries.length : Int) + 1) < c.batch.maxSize) :
    Client.worker.step format marshal c h w startTime flushNow ctx endTime
      = some ([],
          { c with
            queue := { c.queue with buf := rest },
            batch := { c.batch with entries := c.batch.entries ++ [p] },
            metrics := c.metrics.RecordLatency (Since endTime startTime) }, w) := by
  have hrecv : c.queue.tryRecv = some (p, { c.queue with buf := rest }) := by
    simp [Chan.tryRecv, hbuf]
  have hadd : ¬ c.batch.maxSize ≤ (c.batch.entries.length : Int) + 1 := not_le.mpr hsize
  simp [Client.worker.step, Client.worker.process, hrecv, Batch.Add, hadd]

/-- An iteration of the worker whose append fills the batch, the flush succeeding. -/
theorem Client.worker.step_flush (format : Time → String → String)
    (marshal : FieldMap → Except String String) (c : Client) (h : Heap) (w w1 : Wire)
    (startTime flushNow : Time) (ctx : Context) (endTime : Time) (p : EntryPtr)
    (rest : List EntryPtr) (events : List Event) (hbuf : c.queue.buf = p :: rest)
    (hcap : 0 ≤ c.batch.maxSize)
    (hsize : c.batch.maxSize ≤ (c.batch.entries.length : Int) + 1)
    (hsend : c.sender.SendWithRetry format marshal h ctx w (c.batch.entries ++ [p])
      = some (none, w1, events)) :
    Client.worker.step format marshal c h w startTime flushNow ctx endTime
      = some ([SenderCall.mk (c.batch.entries ++ [p]) none events],
          { c with
            queue := { c.queue with buf := rest },
            batch := { c.batch with entries := [], lastFlush := flushNow },
            metrics := c.metrics.IncSuccess.RecordLatency (Since endTime startTime) },
          w1) := by
  have hrecv : c.queue.tryRecv = some (p, { c.queue with buf := rest }) := by
    simp [Chan.tryRecv, hbuf]
  have hflush := Client.flush_nonempty format marshal
    { c with queue := { c.queue with buf := rest }, batch := (c.batch.Add p).2 } h w w1
    flushNow ctx none events hcap (by simp [Batch.Add]) hsend
  have hadd : (c.batch.Add p).1 = true := by simp [Batch.Add, hsize]
  simp only [Client.worker.step, Client.worker.process, hrecv, hadd, if_true, hflush]
  rfl

theorem Heap.readFields_of_maps (h h0 : Heap) (fields : Option MapRef)
    (hmaps : h.maps = h0.maps) : h.readFields fields = h0.readFields fields := by
  cases fields with
  | none => rfl
  | some r => simp [Heap.readFields, hmaps]

/-- The entries logged so far in a run are encodable, when `json.Marshal` does not fail
and their field maps are in the heap. -/
theorem Client.run_docs (format : Time → String → String)
    (marshal : FieldMap → Except String String) (h h0 : Heap) (done : List LogEntry)
    (hmarshal : ∀ data, ∃ doc, marshal data = Except.ok doc)
    (hmaps : h.maps = h0.maps) (hentries : h.entries = h0.entries ++ done)
    (hdone : ∀ e ∈ done, ∃ f, h0.readFields e.Fields = some f) :
    ∀ p ∈ List.range' h0.entries.length done.length,
      ∃ doc, LogEntry.ToJSON format marshal h p = some (Except.ok doc) := by
  intro p hp
  have hp1 : h0.entries.length ≤ p ∧ p < h0.entries.length + done.length := by
    simpa [List.mem_range'_1] using hp
  have hk : p - h0.entries.length < done.length := by omega
  have he : h.entries[p]? = some (done[p - h0.entries.length]) := by
    rw [hentries, List.getElem?_append_right hp1.1, List.getElem?_eq_getElem hk]
  obtain ⟨f, hf⟩ := hdone _ (List.getElem_mem hk)
  exact LogEntry.ToJSON_ok format marshal h p _ f he
    (by rw [Heap.readFields_of_maps h h0 _ hmaps]; exact hf) hmarshal

/-- The single-consumer run of a fresh client with batch size `N`, from the state after
`i` calls of `Log` and `j < N` worker iterations: it goes through, nothing is sent before
the `N`-th iteration, and the `N`-th sends the first `N` entries in one call. -/
theorem Client.run_from (format : Time → String → String)
    (marshal : FieldMap → Except String String) (c0 : Client) (h0 : Heap) (w0 : Wire)
    (N : Nat) (hopen : c0.closed = false) (hsize : c0.batch.maxSize = (N : Int))
    (hretry : 0 ≤ c0.sender.config.RetryCount)
    (hmarshal : ∀ data, ∃ doc, marshal data = Except.ok doc)
    (hwire : ∀ ctx k body, ∃ status items,
      w0.respond ctx k body
        = BulkOutcome.response false status (Except.ok (BulkResponse.mk false items))) :
    ∀ (ops : List ClientOp) (i j : Nat) (m : Metrics) (h : Heap) (done : List LogEntry),
      j ≤ i → j < N → m.SuccessLogs = 0 → m.FailedLogs = 0 →
      h.maps = h0.maps → h.entries = h0.entries ++ done → done.length = i →
      (∀ e ∈ done, ∃ f, h0.readFields e.Fields = some f) →
      ClientOp.admissible c0.queue.cap (i - j) ops = true →
      i + (ClientOp.entries c0 ops).length ≤ N →
      (∀ e ∈ ClientOp.entries c0 ops, ∃ f, h0.readFields e.Fields = some f) →
      ∃ st, Client.run format marshal
          (ClientRun.mk (c0.inRun h0.entries.length i j m) h w0 []) ops = some st ∧
        st.heap.entries = h0.entries ++ (done ++ ClientOp.entries c0 ops) ∧
        st.heap.maps = h0.maps ∧
        (if j + ClientOp.works ops = N then
          st.calls = [SenderCall.mk (List.range' h0.entries.length N) none
            [Event.send (List.range' h0.entries.length N)]] ∧
          st.wire.requests.length = w0.requests.length + 1 ∧
          st.client.batch.entries = [] ∧ st.client.queue.buf = [] ∧
          st.client.metrics.SuccessLogs = 1 ∧ st.client.metrics.FailedLogs = 0
         else
          st.calls = [] ∧ st.wire = w0 ∧
          st.client.batch.entries = List.range' h0.entries.length (j + ClientOp.works ops) ∧
          st.client.metrics.SuccessLogs = 0 ∧ st.client.metrics.FailedLogs = 0) := by
  intro ops
  induction ops with
  | nil =>
    intro i j m h done hji hjN hS hF hmaps hentries hlen hdone hadm hlogs hfields
    refine ⟨_, rfl, by simpa [ClientOp.entries] using hentries, hmaps, ?_⟩
    have hne : ¬ j + ClientOp.works [] = N := by
      simp only [ClientOp.works, Nat.add_zero]
      omega
    rw [if_neg hne]
    exact ⟨rfl, rfl, rfl, hS, hF⟩
  | cons op ops ih =>
    intro i j m h done hji hjN hS hF hmaps hentries hlen hdone hadm hlogs hfields
    have hbase : h.entries.length = h0.entries.length + i := by
      rw [hentries, List.length_append, hlen]
    cases op with
    | log now level message fields =>
      simp only [ClientOp.admissible, Bool.and_eq_true, decide_eq_true_eq] at hadm
      simp only [ClientOp.entries, List.length_cons] at hlogs
      obtain ⟨h1, hlog, hmaps1, hentries1⟩ :=
        Client.Log_of_room (c0.inRun h0.entries.length i j m) h now level message fields hopen
          (by simpa [Client.inRun] using hadm.1)
      have hstate : ({ c0.inRun h0.entries.length i j m with
            metrics := (c0.inRun h0.entries.length i j m).metrics.IncTotal,
            queue := { (c0.inRun h0.entries.length i j m).queue with
              buf := (c0.inRun h0.entries.length i j m).queue.buf ++ [h.entries.length] } }
            : Client) = c0.inRun h0.entries.length (i + 1) j m.IncTotal := by
        have hsub : i + 1 - j = (i - j) + 1 := by omega
        have hlast : h0.entries.length + j + (i - j) = h.entries.length := by omega
        simp only [Client.inRun, hsub, List.range'_concat, Nat.one_mul, hlast]
      rw [hstate] at hlog
      have hadm2 : ClientOp.admissible c0.queue.cap (i + 1 - j) ops = true := by
        have hsub : i + 1 - j = (i - j) + 1 := by omega
        rw [hsub]
        exact hadm.2
      obtain ⟨st, hrun, hheap, hmaps2, hpost⟩ :=
        ih (i + 1) j m.IncTotal h1 (done ++ [c0.entryOf now level message fields])
          (by omega) hjN hS hF (by rw [hmaps1, hmaps])
          (by rw [hentries1, hentries, List.append_assoc]; rfl)
          (by rw [List.length_append, hlen]; rfl)
          (by
            intro e he
            rcases List.mem_append.mp he with he1 | he1
            · exact hdone e he1
            · rw [List.mem_singleton.mp he1]
              exact hfields _ (by simp [ClientOp.entries]))
          hadm2 (by omega)
          (fun e he => hfields e (by simp [ClientOp.entries, he]))
      refine ⟨st, ?_, ?_, hmaps2, ?_⟩
      · simp only [Client.run, hlog]
        exact hrun
      · rw [hheap]
        simp [ClientOp.entries]
      · simpa [ClientOp.works] using hpost
    | work startTime flushNow ctx endTime =>
      simp only [ClientOp.admissible, Bool.and_eq_true, decide_eq_true_eq] at hadm
      simp only [ClientOp.entries] at hlogs hfields
      have hpending : i - j = (i - j - 1) + 1 := by omega
      have hbuf : (c0.inRun h0.entries.length i j m).queue.buf
          = (h0.entries.length + j) :: List.range' (h0.entries.length + j + 1) (i - j - 1) := by
        simp only [Client.inRun]
        rw [hpending, List.range'_succ]
        simp
      by_cases hfill : j + 1 < N
      · have hstep := Client.worker.step_no_flush format marshal
          (c0.inRun h0.entries.length i j m) h w0 startTime flushNow ctx endTime _ _ hbuf
          (by
            simp only [Client.inRun, List.length_range', hsize]
            exact_mod_cast hfill)
        have hstate : ({ c0.inRun h0.entries.length i j m with
              queue := { (c0.inRun h0.entries.length i j m).queue with
                buf := List.range' (h0.entries.length + j + 1) (i - j - 1) },
              batch := { (c0.inRun h0.entries.length i j m).batch with
                entries := (c0.inRun h0.entries.length i j m).batch.entries
                  ++ [h0.entries.length + j] },
              metrics := (c0.inRun h0.entries.length i j m).metrics.RecordLatency
                (Since endTime startTime) } : Client)
            = c0.inRun h0.entries.length i (j + 1)
                (m.RecordLatency (Since endTime startTime)) := by
          have hsub : i - (j + 1) = i - j - 1 := by omega
          simp only [Client.inRun, hsub, List.range'_concat, Nat.one_mul, Nat.add_assoc]
        rw [hstate] at hstep
        obtain ⟨st, hrun, hheap, hmaps2, hpost⟩ :=
          ih i (j + 1) (m.RecordLatency (Since endTime startTime)) h done (by omega) hfill
            hS hF hmaps hentries hlen hdone
            (by
              have hsub : i - (j + 1) = i - j - 1 := by omega
              rw [hsub]
              exact hadm.2)
            hlogs hfields
        refine ⟨st, ?_, hheap, hmaps2, ?_⟩
        · simp only [Client.run, hstep, List.append_nil]
          exact hrun
        · have hw : j + ClientOp.works (ClientOp.work startTime flushNow ctx endTime :: ops)
              = j + 1 + ClientOp.works ops := by
            simp only [ClientOp.works]
            omega
          rw [hw]
          exact hpost
      · have hjN1 : j + 1 = N := by omega
        have hiN : i = N := by omega
        have hnolog : (ClientOp.entries c0 ops).length = 0 := by omega
        have hops : ops = [] :=
          ClientOp.eq_nil_of_admissible c0 c0.queue.cap ops
            (by
              have h0p : i - j - 1 = 0 := by omega
              rw [← h0p]
              exact hadm.2)
            hnolog
        subst hops
        have hall : List.range' h0.entries.length j ++ [h0.entries.length + j]
            = List.range' h0.entries.length N := by
          rw [← hjN1, List.range'_concat, Nat.one_mul]
        have hdocs := Client.run_docs format marshal h h0 done hmarshal hmaps hentries hdone
        rw [hlen, hiN, ← hall] at hdocs
        obtain ⟨body, hsend⟩ := Sender.Send_ok format marshal c0.sender h ctx w0
          (List.range' h0.entries.length j ++ [h0.entries.length + j]) (by simp) hdocs
          (hwire ctx)
        have hretry1 := Sender.SendWithRetry_first_try format marshal c0.sender h ctx w0 _ _
          hretry hsend
        have hstep := Client.worker.step_flush format marshal
          (c0.inRun h0.entries.length i j m) h w0 _ startTime flushNow ctx endTime _ _ _ hbuf
          (by simp only [Client.inRun, hsize]; exact Int.natCast_nonneg N)
          (by
            simp only [Client.inRun, List.length_range', hsize]
            exact_mod_cast (le_of_eq hjN1.symm))
          hretry1
        simp only [Client.run, hstep]
        refine ⟨_, rfl, ?_, hmaps, ?_⟩
        · simpa [ClientOp.entries] using hentries
        · have hw : j + ClientOp.works [ClientOp.work startTime flushNow ctx endTime] = N := by
            simp only [ClientOp.works]
            omega
          rw [if_pos hw]
          have hrest : i - j - 1 = 0 := by omega
          refine ⟨?_, ?_, rfl, ?_, ?_, ?_⟩
          · simp only [List.nil_append, Client.inRun, hall]
          · simp
          · simp only [hrest, List.range'_zero]
          · show atomicAddInt64 m.SuccessLogs 1 = 1
            rw [hS]
            rfl
          · exact hF

/-- What the run of C25 does when the retry count is not negative. A fresh client with
batch size `N`, any interleaving of at most `N` calls of `Log` with iterations of the one
worker in which every call finds room in the queue and every iteration an entry, encodable
entries, and a wire that answers with success: the run goes through; the entries logged
are allocated in call order after those of the heap; before the `N`-th iteration nothing
has been sent and the batch holds the entries processed so far; the `N`-th iteration makes
exactly one call of `SendWithRetry`, which makes one `Send`, with the `N` entries in call
order, the success counter becomes 1, the failed counter stays 0, and the batch is
empty. -/
theorem Client.run_delivers (format : Time → String → String)
    (marshal : FieldMap → Except String String) (connect : Connect)
    (hostname localIP : String) (now : Time) (config : Config) (c0 : Client) (h0 : Heap)
    (w0 : Wire) (N : Nat) (ops : List ClientOp)
    (hnew : NewClient connect hostname localIP now (some config) = some (Except.ok c0))
    (hN : config.BatchSize = (N : Int)) (hretry : 0 ≤ config.RetryCount)
    (hmarshal : ∀ data, ∃ doc, marshal data = Except.ok doc)
    (hwire : ∀ ctx k body, ∃ status items,
      w0.respond ctx k body
        = BulkOutcome.response false status (Except.ok (BulkResponse.mk false items)))
    (hadm : ClientOp.admissible config.QueueSize.toNat 0 ops = true)
    (hlogs : (ClientOp.entries c0 ops).length ≤ N)
    (hfields : ∀ e ∈ ClientOp.entries c0 ops, ∃ f, h0.readFields e.Fields = some f) :
    ∃ st, Client.run format marshal (ClientRun.mk c0 h0 w0 []) ops = some st ∧
      st.heap.entries = h0.entries ++ ClientOp.entries c0 ops ∧
      st.heap.maps = h0.maps ∧
      (if ClientOp.works ops = N then
        st.calls = [SenderCall.mk (List.range' h0.entries.length N) none
          [Event.send (List.range' h0.entries.length N)]] ∧
        st.wire.requests.length = w0.requests.length + 1 ∧
        st.client.batch.entries = [] ∧ st.client.queue.buf = [] ∧
        st.client.metrics.SuccessLogs = 1 ∧ st.client.metrics.FailedLogs = 0
       else
        st.calls = [] ∧ st.wire = w0 ∧
        st.client.batch.entries = List.range' h0.entries.length (ClientOp.works ops) ∧
        st.client.metrics.SuccessLogs = 0 ∧ st.client.metrics.FailedLogs = 0) := by
  obtain ⟨hvalid, hc0⟩ := NewClient_ok connect hostname localIP now config c0 hnew
  have hpos := (Config.Validate_fst_eq_none_iff config).mp hvalid
  have hNpos : 0 < N := by
    have h1 := hpos.2.1
    rw [hN] at h1
    exact_mod_cast h1
  have hstart : c0.inRun h0.entries.length 0 0 NewMetrics = c0 := by
    rw [hc0]
    simp [Client.inRun]
  have hcap : c0.queue.cap = config.QueueSize.toNat := by rw [hc0]
  obtain ⟨st, hrun, hheap, hmaps, hpost⟩ :=
    Client.run_from format marshal c0 h0 w0 N (by rw [hc0]) (by rw [hc0]; exact hN)
      (by rw [hc0]; exact hretry) hmarshal hwire ops 0 0 NewMetrics h0 [] (le_refl 0) hNpos
      rfl rfl rfl (by simp) rfl (by simp) (by rw [hcap]; exact hadm) (by simpa using hlogs)
      hfields
  rw [hstart] at hrun
  refine ⟨st, hrun, by simpa using hheap, hmaps, ?_⟩
  simpa using hpost

/-- The run of C25 on the fresh sample client with batch size 2, evaluated: log, work,
log, work; the second iteration sends both entries in one request and the success counter
is 1. -/
theorem Client.run_delivers_sample :
    NewClient (Connect.pingResponse false "200 OK") "host-1" "10.0.0.7" (Time.mk 0 0)
        (some sampleSmallConfig) = some (Except.ok sampleFreshClient) ∧
    (Client.run sampleDateFormat sampleMarshal
        (ClientRun.mk sampleFreshClient sampleHeap (sampleWire 0) [])
        [ClientOp.log (Time.mk 10 0) LevelInfo "first" none,
          ClientOp.work (Time.mk 20 0) (Time.mk 21 0) Context.background (Time.mk 22 0),
          ClientOp.log (Time.mk 30 0) LevelWarn "second" (some 0),
          ClientOp.work (Time.mk 40 0) (Time.mk 41 0) Context.background (Time.mk 42 0)]).map
      (fun st => (st.calls, st.wire.requests.length, st.client.batch.entries,
        st.client.metrics.TotalLogs, st.client.metrics.SuccessLogs,
        st.client.metrics.FailedLogs))
      = some ([SenderCall.mk [2, 3] none [Event.send [2, 3]]], 1, [], 2, 1, 0) := by
  refine ⟨rfl, rfl⟩

/-! ## Sender: the retry count that `Validate` does not check -/

/-- With a negative retry count the loop of `SendWithRetry` runs no iteration: no `Send`,
no wait, and the error built from the nil `lastErr`. -/
theorem Sender.SendWithRetry_negative (format : Time → String → String)
    (marshal : FieldMap → Except String String) (s : Sender) (h : Heap) (ctx : Context)
    (w : Wire) (entries : List EntryPtr) (hneg : s.config.RetryCount < 0) :
    s.SendWithRetry format marshal h ctx w entries
      = some (some (GoError.wrap
          ("failed after " ++ toString s.config.RetryCount ++ " retries: ") none), w, []) := by
  unfold Sender.SendWithRetry
  exact Sender.SendWithRetry.loop_exit format marshal s h ctx entries _ 0 none w []
    (by simpa using hneg)

/-- With a retry count that is not negative `SendWithRetry` calls `Send` at least once,
whatever the context does. -/
theorem Sender.SendWithRetry_attempts (format : Time → String → String)
    (marshal : FieldMap → Except String String) (s : Sender) (h : Heap) (ctx : Context)
    (w : Wire) (entries : List EntryPtr) (hretry : 0 ≤ s.config.RetryCount)
    (hsafe : ∀ p ∈ entries, ∃ r, LogEntry.ToJSON format marshal h p = some r) :
    ∃ (err : Option GoError) (w1 : Wire) (events : List Event),
      s.SendWithRetry format marshal h ctx w entries = some (err, w1, events) ∧
      1 ≤ Event.sends events := by
  have htotal := fun w => Sender.Send_total format marshal s h ctx entries hsafe w
  obtain ⟨⟨r, w1⟩, hsend⟩ := htotal w
  have hfirst := Sender.SendWithRetry.loop_send format marshal s h ctx entries
    (s.config.RetryCount + 1).toNat 0 none w w1 [] r (by simpa using hretry)
    (fun h0 => absurd h0 (Nat.lt_irrefl 0)) hsend
  have hone : Event.sends (s.attempts entries 0 1) = 1 := Sender.sends_attempts s entries 1 0
  unfold Sender.SendWithRetry
  rw [hfirst]
  cases r with
  | none =>
    refine ⟨none, w1, _, rfl, ?_⟩
    rw [Event.sends_append, hone]
    omega
  | some e =>
    obtain ⟨err, w2, n, c, rs, hrun, _⟩ :=
      Sender.SendWithRetry.loop_spec format marshal s h ctx entries htotal
        (s.config.RetryCount + 1).toNat 1 (some e) w1 ([] ++ s.attempts entries 0 1)
        (by
          have h1 : s.config.RetryCount + 1 - ((1 : Nat) : Int) = s.config.RetryCount := by
            push_cast
            omega
          rw [h1]
          omega)
    refine ⟨err, w2, _, hrun, ?_⟩
    rw [Event.sends_append, Event.sends_append, Event.sends_append, hone]
    omega

/-- **C31.** The claim fails on a configuration that `Validate` accepts: the default
configuration with the retry count -1. On the non-empty entry list `[1]`, with a context
that is never cancelled and a wire that would answer with success, `SendWithRetry` returns
the error `failed after -1 retries: %!w(<nil>)` without a single call of `Send`: its trace
is empty and the wire has seen no request. With a retry count that is not negative a
`Send` is always made (`Sender.SendWithRetry_attempts`). -/
theorem Sender.SendWithRetry_no_attempt :
    (sampleNoRetryConfig.Validate).1 = none ∧
    [1] ≠ ([] : List EntryPtr) ∧
    (Sender.mk sampleNoRetryConfig.IndexPattern sampleNoRetryConfig).SendWithRetry
        sampleDateFormat sampleMarshal sampleHeap Context.background (sampleWire 0) [1]
      = some (some (GoError.mk "failed after -1 retries: %!w(<nil>)" []), sampleWire 0, []) ∧
    Event.sends ([] : List Event) = 0 ∧ (sampleWire 0).requests = [] ∧
    ¬ ∀ (config : Config) (entries : List EntryPtr) (err : Option GoError) (w1 : Wire)
        (events : List Event),
        (config.Validate).1 = none → entries ≠ [] →
        (Sender.mk config.IndexPattern config).SendWithRetry sampleDateFormat sampleMarshal
            sampleHeap Context.background (sampleWire 0) entries = some (err, w1, events) →
        1 ≤ Event.sends events := by
  refine ⟨rfl, by decide, rfl, rfl, rfl, ?_⟩
  intro hall
  have h1 := hall sampleNoRetryConfig [1] _ _ [] rfl (by decide) rfl
  exact absurd h1 (by decide)

/-! ## Sender: the date token and its three parts -/

theorem substituteAux_id_of_no_brace (subs : List (List Char × List Char)) (s : List Char)
    (hT : ∀ p ∈ subs, ∃ tl, p.1 = '{' :: tl) (hs : ∀ c ∈ s, c ≠ '{') :
    substituteAux subs 0 s = s := by
  have h := substituteAux_pass subs s [] hT hs
  rw [List.append_nil] at h
  rw [h]
  simp [substituteAux]

theorem indexTokens_braces (D Y M Dd : List Char) :
    ∀ p ∈ [("{date}".data, D), ("{year}".data, Y), ("{month}".data, M), ("{day}".data, Dd)],
      ∃ tl, p.1 = '{' :: tl := by
  intro p hp
  simp only [List.mem_cons, List.mem_singleton, List.not_mem_nil, or_false] at hp
  rcases hp with rfl | rfl | rfl | rfl
  · exact ⟨"date\x7d".data, rfl⟩
  · exact ⟨"year\x7d".data, rfl⟩
  · exact ⟨"month\x7d".data, rfl⟩
  · exact ⟨"day\x7d".data, rfl⟩

/-- The single pass over a template with one `{date}` between two texts without `{`. -/
theorem substituteAux_date (D Y M Dd p s : List Char) (hp : ∀ c ∈ p, c ≠ '{')
    (hs : ∀ c ∈ s, c ≠ '{') :
    substituteAux
        [("{date}".data, D), ("{year}".data, Y), ("{month}".data, M), ("{day}".data, Dd)] 0
        (p ++ ("{date}".data ++ s))
      = p ++ (D ++ s) := by
  have hT := indexTokens_braces D Y M Dd
  rw [substituteAux_pass _ p _ hT hp,
    substituteAux_match _ "{date}".data D s (by decide)
      (by simp [List.find?_cons, startsWith]),
    substituteAux_id_of_no_brace _ s hT hs]

/-- The single pass over a template with `{year}.{month}.{day}` between two texts without
`{`. -/
theorem substituteAux_parts (D Y M Dd p s : List Char) (hp : ∀ c ∈ p, c ≠ '{')
    (hs : ∀ c ∈ s, c ≠ '{') :
    substituteAux
        [("{date}".data, D), ("{year}".data, Y), ("{month}".data, M), ("{day}".data, Dd)] 0
        (p ++ ("{year}".data ++ ('.' :: ("{month}".data ++ ('.' :: ("{day}".data ++ s))))))
      = p ++ (Y ++ ('.' :: (M ++ ('.' :: (Dd ++ s))))) := by
  have hT := indexTokens_braces D Y M Dd
  have hdot : ∀ cs : List Char,
      [("{date}".data, D), ("{year}".data, Y), ("{month}".data, M), ("{day}".data, Dd)].find?
        (fun q => startsWith q.1 ('.' :: cs)) = none :=
    fun cs => find?_startsWith_eq_none _ '.' cs hT (by decide)
  have hyear : ∀ cs : List Char,
      [("{date}".data, D), ("{year}".data, Y), ("{month}".data, M), ("{day}".data, Dd)].find?
        (fun q => startsWith q.1 ("{year}".data ++ cs)) = some ("{year}".data, Y) := by
    intro cs
    simp [List.find?_cons, startsWith]
  have hmonth : ∀ cs : List Char,
      [("{date}".data, D), ("{year}".data, Y), ("{month}".data, M), ("{day}".data, Dd)].find?
        (fun q => startsWith q.1 ("{month}".data ++ cs)) = some ("{month}".data, M) := by
    intro cs
    simp [List.find?_cons, startsWith]
  have hday : ∀ cs : List Char,
      [("{date}".data, D), ("{year}".data, Y), ("{month}".data, M), ("{day}".data, Dd)].find?
        (fun q => startsWith q.1 ("{day}".data ++ cs)) = some ("{day}".data, Dd) := by
    intro cs
    simp [List.find?_cons, startsWith]
  rw [substituteAux_pass _ p _ hT hp,
    substituteAux_match _ "{year}".data Y _ (by decide) (hyear _),
    substituteAux_copy _ '.' _ (hdot _),
    substituteAux_match _ "{month}".data M _ (by decide) (hmonth _),
    substituteAux_copy _ '.' _ (hdot _),
    substituteAux_match _ "{day}".data Dd _ (by decide) (hday _),
    substituteAux_id_of_no_brace _ s hT hs]

theorem Sender.getIndexName_of_date (format : Time → String → String) (config : Config)
    (t : Time) (y m d p s : String) (h : RendersDate format t y m d)
    (hp : ∀ c ∈ p.data, c ≠ '{') (hs : ∀ c ∈ s.data, c ≠ '{') :
    (Sender.mk (p ++ "{date}" ++ s) config).getIndexName format t
      = p ++ y ++ "." ++ m ++ "." ++ d ++ s := by
  rw [Sender.getIndexName_eq_substitute format _ t y m d h]
  have hdata : (p ++ "{date}" ++ s).data = p.data ++ ("{date}".data ++ s.data) := by
    simp [String.data_append]
  have hrun := substituteAux_date (y ++ "." ++ m ++ "." ++ d).data y.data m.data d.data
    p.data s.data hp hs
  apply String.ext
  show substituteAux _ 0 (p ++ "{date}" ++ s).data = _
  rw [hdata]
  refine Eq.trans hrun ?_
  simp [String.data_append]

theorem Sender.getIndexName_of_parts (format : Time → String → String) (config : Config)
    (t : Time) (y m d p s : String) (h : RendersDate format t y m d)
    (hp : ∀ c ∈ p.data, c ≠ '{') (hs : ∀ c ∈ s.data, c ≠ '{') :
    (Sender.mk (p ++ "{year}.{month}.{day}" ++ s) config).getIndexName format t
      = p ++ y ++ "." ++ m ++ "." ++ d ++ s := by
  rw [Sender.getIndexName_eq_substitute format _ t y m d h]
  have hdata : (p ++ "{year}.{month}.{day}" ++ s).data
      = p.data ++ ("{year}".data ++ ('.' :: ("{month}".data
          ++ ('.' :: ("{day}".data ++ s.data))))) := by
    simp [String.data_append]
  have hrun := substituteAux_parts (y ++ "." ++ m ++ "." ++ d).data y.data m.data d.data
    p.data s.data hp hs
  apply String.ext
  show substituteAux _ 0 (p ++ "{year}.{month}.{day}" ++ s).data = _
  rw [hdata]
  refine Eq.trans hrun ?_
  simp [String.data_append]

/-- **C32.** For every timestamp (of a year with four digits, rendered by the Go library as
`YYYY`, `MM`, `DD`) and all strings `p` and `s` that contain neither `{` nor `}`,
`getIndexName` gives the same name for the template `p{date}s` and for the template
`p{year}.{month}.{day}s`, namely `p` followed by `YYYY.MM.DD` and `s`; that name contains
none of the four tokens, and no `{` at all. -/
theorem Sender.getIndexName_date_parts (format : Time → String → String) (config : Config)
    (t : Time) (y m d p s : String) (h : RendersDate format t y m d)
    (hp : ∀ c ∈ p.data, c ≠ '{' ∧ c ≠ '}') (hs : ∀ c ∈ s.data, c ≠ '{' ∧ c ≠ '}') :
    (Sender.mk (p ++ "{date}" ++ s) config).getIndexName format t
      = (Sender.mk (p ++ "{year}.{month}.{day}" ++ s) config).getIndexName format t ∧
    (Sender.mk (p ++ "{date}" ++ s) config).getIndexName format t
      = p ++ y ++ "." ++ m ++ "." ++ d ++ s ∧
    (∀ tok ∈ ["{date}", "{year}", "{month}", "{day}"],
      ¬ tok.data <:+:
        ((Sender.mk (p ++ "{date}" ++ s) config).getIndexName format t).data) ∧
    '{' ∉ ((Sender.mk (p ++ "{date}" ++ s) config).getIndexName format t).data := by
  have hp1 : ∀ c ∈ p.data, c ≠ '{' := fun c hc => (hp c hc).1
  have hs1 : ∀ c ∈ s.data, c ≠ '{' := fun c hc => (hs c hc).1
  have hdate := Sender.getIndexName_of_date format config t y m d p s h hp1 hs1
  have hparts := Sender.getIndexName_of_parts format config t y m d p s h hp1 hs1
  have hnone : '{' ∉ (p ++ y ++ "." ++ m ++ "." ++ d ++ s).data := by
    obtain ⟨_, _, _, _, ⟨_, hy⟩, ⟨_, hm⟩, ⟨_, hd⟩⟩ := h
    have hdig : ∀ c : Char, c.isDigit = true → c ≠ '{' := by
      intro c hc e
      subst e
      exact absurd hc (by decide)
    intro hmem
    simp only [String.data_append, List.mem_append] at hmem
    rcases hmem with (((((hc | hc) | hc) | hc) | hc) | hc) | hc
    · exact hp1 _ hc rfl
    · exact hdig _ (hy _ hc) rfl
    · exact absurd hc (by decide)
    · exact hdig _ (hm _ hc) rfl
    · exact absurd hc (by decide)
    · exact hdig _ (hd _ hc) rfl
    · exact hs1 _ hc rfl
  refine ⟨hdate.trans hparts.symm, hdate, ?_, by rw [hdate]; exact hnone⟩
  intro tok htok hin
  rw [hdate] at hin
  have hbrace : '{' ∈ tok.data := by
    simp only [List.mem_cons, List.mem_singleton, List.not_mem_nil, or_false] at htok
    rcases htok with rfl | rfl | rfl | rfl <;> decide
  exact hnone (List.IsInfix.subset hin hbrace)

theorem Sender.getIndexName_date_parts_witness :
    (Sender.mk ("logs-" ++ "{date}" ++ "-app") DefaultConfig).getIndexName sampleDateFormat
        ⟨0, 0⟩
      = (Sender.mk ("logs-" ++ "{year}.{month}.{day}" ++ "-app") DefaultConfig).getIndexName
          sampleDateFormat ⟨0, 0⟩ ∧
    (Sender.mk ("logs-" ++ "{date}" ++ "-app") DefaultConfig).getIndexName sampleDateFormat
        ⟨0, 0⟩ = "logs-" ++ "2024" ++ "." ++ "01" ++ "." ++ "15" ++ "-app" ∧
    (∀ tok ∈ ["{date}", "{year}", "{month}", "{day}"],
      ¬ tok.data <:+:
        ((Sender.mk ("logs-" ++ "{date}" ++ "-app") DefaultConfig).getIndexName
          sampleDateFormat ⟨0, 0⟩).data) ∧
    '{' ∉ ((Sender.mk ("logs-" ++ "{date}" ++ "-app") DefaultConfig).getIndexName
      sampleDateFormat ⟨0, 0⟩).data :=
  Sender.getIndexName_date_parts sampleDateFormat DefaultConfig ⟨0, 0⟩ "2024" "01" "15"
    "logs-" "-app" (sampleDateFormat_renders ⟨0, 0⟩) (by decide) (by decide)

/-- The two templates of C32 on 15 January 2024, evaluated. -/
theorem Sender.getIndexName_date_parts_sample :
    (Sender.mk "logs-{date}-app" DefaultConfig).getIndexName sampleDateFormat ⟨0, 0⟩
        = "logs-2024.01.15-app" ∧
    (Sender.mk "logs-{year}.{month}.{day}-app" DefaultConfig).getIndexName sampleDateFormat
        ⟨0, 0⟩ = "logs-2024.01.15-app" := by
  decide

end ElkLogger
